import Mathlib

/-!
Verification development for the matesapp scoring and recommendation engine.

The JavaScript sources are embedded shallowly:

* machine floats become exact rationals (`ℚ`); timestamps (JS millisecond
  epoch values) become integers (`ℤ`);
* the transcendental primitives `Math.exp`, `Math.log10` and the constant
  `Math.log(2)` are abstracted into a `MathPrims` parameter, so every
  definition stays executable and theorems quantify over the primitives
  (adding hypotheses such as `exp 0 = 1` only where the source relies on
  them);
* `undefined`-able JS fields become `Option` values;
* the Mongo / Redis stores become explicit state records threaded through
  each service function.

Each section names the source file it embeds.
-/

namespace Mates

/-- Abstraction of the JS `Math` primitives used by the scoring code:
`exp` for `Math.exp`, `log10` for `Math.log10`, and `ln2` for the
constant `Math.log(2)`. -/
structure MathPrims where
  exp : ℚ → ℚ
  log10 : ℚ → ℚ
  ln2 : ℚ

/-- The trivial instantiation used by witnesses: every `Math.exp` and
`Math.log10` call returns 1 and `Math.log(2)` is 1.  (Claims proved for
all `MathPrims` hold in particular for the real-valued primitives.) -/
def onePrims : MathPrims := ⟨fun _ => 1, fun _ => 1, 1⟩

/-- JS `Math.round`: round half toward positive infinity. -/
def jsRound (x : ℚ) : ℤ := ⌊x + 1/2⌋

/-! ### Constants (src/constants/constants.js, which also carries the
constants/sessionConstants.js block, src/constants/feedConstants.js, and
src/unnamed/part_004 = constants/scoringConfig.js) -/

def TOP_CAT_MAX : ℕ := 20
def RISING_CAT_MAX : ℕ := 12
def TOP_SUB_MAX : ℕ := 6
def RISING_SUB_MAX : ℕ := 4
def TOP_CREATOR_MAX : ℕ := 50
def RISING_CREATOR_MAX : ℕ := 25
def SPECIFIC_MAX : ℕ := 2

def SESSION_BLEND_ALPHA : ℚ := 1/4
def HARSKIP_THRESHOLD : ℤ := 10
def WATCHED_THRESHOLD : ℤ := 2
def REENTRY_DELAY_MS : ℤ := 7 * 24 * 60 * 60 * 1000

def MS_PER_DAY : ℚ := 1000 * 60 * 60 * 24
def HALF_LIFE_DAYS : ℚ := 1/2
def EMA_ALPHA_DB : ℚ := 1/4
def EMA_ALPHA_SESSION : ℚ := 7/10
def SKIP_WEIGHT : ℚ := -3/2
def SKIP_THRESHOLD : ℤ := 10
def MIN_INITIAL_RISING_WEIGHT : ℚ := 10
def RISING_RATE_MULTIPLIER : ℚ := 2
def RISING_WINDOW_MS : ℤ := 60 * 60 * 1000
def SHORT_HALF_LIFE_MS : ℚ := 1 * 60 * 60 * 1000
def LONG_HALF_LIFE_MS : ℚ := 24 * 60 * 60 * 1000
def TRENDING_WEIGHT : ℚ := 8
def TRENDING_EXPONENT : ℕ := 1
def TRENDING_ACTIVITY_NORMALIZER : ℚ := 10
def TRENDING_BURST_FACTOR : ℚ := 1/2
def PRIOR_CREATOR_WEIGHT : ℚ := 2/5
def PRIOR_MIN_COUNT : ℚ := 1
def PRIOR_HALF_LIFE_HOURS : ℚ := 2

/-- `PRIOR_DECAY_LAMBDA = Math.log(2) / (PRIOR_HALF_LIFE_HOURS * 3600 * 1000)` -/
def PRIOR_DECAY_LAMBDA (P : MathPrims) : ℚ := P.ln2 / (PRIOR_HALF_LIFE_HOURS * 3600 * 1000)

/-- `WEIGHTS` from constants/scoringConfig.js. -/
def WEIGHTS : String → ℚ := fun e =>
  if e = "view" then 1/2
  else if e = "like" then 1
  else if e = "comment" then 5/2
  else if e = "share" then 5
  else if e = "completion" then 4
  else 0

def FEED_SIZE : ℕ := 20
def SKIP_REENTRY_SLOTS : ℕ := 1
def WATCHED_SLOTS : ℕ := 1
def INTERESTS_SLOTS : ℕ := 3
def CREATORS_SLOTS : ℕ := 2
def FOLLOWING_SLOTS : ℕ := 2
def TRENDING_SLOTS : ℕ := 2
def RISING_SLOTS : ℕ := 1
def RECENT_SLOTS : ℕ := 1
def EVERGREEN_SLOTS : ℕ := 1
def RECENT_WINDOW_MS : ℤ := 60 * 60 * 1000

/-! ### Scoring primitives (src/utils/score.js, src/utils/smoothingUtils.js) -/

/-- `decayedScore(oldScore, lastUpdated)` from src/utils/score.js. -/
def decayedScore (P : MathPrims) (now : ℤ) (oldScore : ℚ) (lastUpdated : ℤ) : ℚ :=
  let deltaDays : ℚ := ((now : ℚ) - (lastUpdated : ℚ)) / MS_PER_DAY
  let lambda : ℚ := P.ln2 / HALF_LIFE_DAYS
  oldScore * P.exp (-(lambda * deltaDays))

/-- `emaUpdate(oldScore, lastUpdated, newEngagementScore, mode = "session")`
from src/utils/score.js.  The decayed term is bypassed when `oldScore == 0`. -/
def emaUpdate (P : MathPrims) (now : ℤ) (oldScore : ℚ) (lastUpdated : ℤ)
    (newEngagementScore : ℚ) (mode : String := "session") : ℚ :=
  let decayed : ℚ := if oldScore ≠ 0 then decayedScore P now oldScore lastUpdated else 0
  let alpha : ℚ := if mode = "session" then EMA_ALPHA_SESSION else EMA_ALPHA_DB
  alpha * newEngagementScore + (1 - alpha) * decayed

/-- `choosePriorCount(globalImpr)` from src/utils/smoothingUtils.js. -/
def choosePriorCount (P : MathPrims) (globalImpr : ℤ) : ℚ :=
  let MIN_PRIOR : ℚ := 20
  let MAX_PRIOR : ℚ := 500
  if globalImpr ≤ 0 then MIN_PRIOR
  else
    let p : ℚ := (⌊20 * P.log10 ((globalImpr : ℚ) + 1)⌋ : ℤ)
    max MIN_PRIOR (min MAX_PRIOR p)

/-! ### Pool manager (src/utils/nodeHelpers.js)

The helpers are generic over the node type; the JS functions receive the
key field name, the embedding receives a key projection `keyOf` and the
score projection `scoreOf` instead.  `identifiersEqual` reduces to string
equality for the string keys used throughout the model. -/

section PoolManager

variable {A : Type} (keyOf : A → String) (scoreOf : A → ℚ)

/-- `findOrInitNode(list1, list2, identifier, defaults, opts)`:
return the node of `list1 ++ list2` carrying the identifier, or a freshly
built default node (the caller supplies the fully built default). -/
def findOrInitNode (list1 list2 : List A) (identifier : String) (defaults : A) : A :=
  match list1.find? (fun x => keyOf x == identifier) with
  | some n => n
  | none =>
    match list2.find? (fun x => keyOf x == identifier) with
    | some n => n
    | none => defaults

/-- `removeExistingCandidate(arr, identifier, keyField)`: splice out the
first node carrying the identifier. -/
def removeExistingCandidate (arr : List A) (identifier : String) : List A :=
  arr.eraseP (fun x => keyOf x == identifier)

/-- The in-place `arr.sort((a, b) => b.score - a.score)`: a stable sort,
descending by score. -/
def sortByScoreDesc (l : List A) : List A :=
  l.mergeSort (fun a b => scoreOf b ≤ scoreOf a)

/-- `insertIntoPools(primaryArr, secondaryArr, maxPrimary, maxSecondary,
candidate, opts)` from src/utils/nodeHelpers.js, returning the pair (new
primary, new secondary).

The two `match … getLast?` fallbacks marked "unreachable" correspond to
reads of `arr[arr.length - 1]` on an empty array (the JS code would fault
on `.score` of `undefined` there); they can only be reached when
`maxPrimary = 0` (resp. never, since the secondary read is guarded by
`maxSecondary > 0`). -/
def insertIntoPools (maxPrimary maxSecondary : ℕ) (primary secondary : List A)
    (candidate : A) : List A × List A :=
  let primary1 := removeExistingCandidate keyOf primary (keyOf candidate)
  let secondary1 := removeExistingCandidate keyOf secondary (keyOf candidate)
  if scoreOf candidate < 0 then (primary1, secondary1)
  else if primary1.length < maxPrimary then
    (sortByScoreDesc scoreOf (primary1 ++ [candidate]), secondary1)
  else
    match primary1.getLast? with
    | none => (primary1, secondary1) -- unreachable for maxPrimary ≥ 1
    | some lowestPrimary =>
      if scoreOf lowestPrimary < scoreOf candidate then
        let primary2 := sortByScoreDesc scoreOf (primary1.dropLast ++ [candidate])
        if 0 < maxSecondary then
          if secondary1.length < maxSecondary then
            (primary2, sortByScoreDesc scoreOf (secondary1 ++ [lowestPrimary]))
          else
            match secondary1.getLast? with
            | none => (primary2, secondary1) -- unreachable
            | some lowestSecondary =>
              if scoreOf lowestSecondary < scoreOf lowestPrimary then
                (primary2, sortByScoreDesc scoreOf (secondary1.dropLast ++ [lowestPrimary]))
              else (primary2, secondary1)
        else (primary2, secondary1)
      else if maxSecondary = 0 then (primary1, secondary1)
      else if secondary1.length < maxSecondary then
        (primary1, sortByScoreDesc scoreOf (secondary1 ++ [candidate]))
      else
        match secondary1.getLast? with
        | none => (primary1, secondary1) -- unreachable
        | some lowestSecondary =>
          if scoreOf lowestSecondary < scoreOf candidate then
            (primary1, sortByScoreDesc scoreOf (secondary1.dropLast ++ [candidate]))
          else (primary1, secondary1)

/-- Keys of a pool are pairwise distinct (model hygiene predicate used as a
hypothesis: the services only ever hold one node per key in a pool pair). -/
def keysNodup (l : List A) : Prop := (l.map keyOf).Nodup

/-- Shorthand for the two `removeExistingCandidate` steps of
`insertIntoPools`: erase the candidate's key. -/
def poolErase (c : A) (l : List A) : List A := l.eraseP (fun y => keyOf y == keyOf c)

end PoolManager

/-! ### Data model (src/models/userModel.js shapes as used by the services)

Timestamps are epoch milliseconds (`ℤ`).  `FollowedEntry.score` is an
`Option` because the creator service can leave it `undefined` (see
`scoreCreatorDB` below); `reentryAt` on a followed entry is optional in
the document as well. -/

structure SpecNode where
  name : String
  score : ℚ
  lastUpdated : ℤ
deriving DecidableEq, Repr, Inhabited

structure SubNode where
  name : String
  score : ℚ
  lastUpdated : ℤ
  specific : List SpecNode
deriving DecidableEq, Repr, Inhabited

structure CatNode where
  name : String
  score : ℚ
  lastUpdated : ℤ
  topSubs : List SubNode
  risingSubs : List SubNode
deriving DecidableEq, Repr, Inhabited

structure CreatorNode where
  creatorId : String
  score : ℚ
  lastUpdated : ℤ
  skips : ℤ
  lastSkipAt : ℤ
deriving DecidableEq, Repr, Inhabited

structure WatchedEntry where
  creatorId : String
  skips : ℤ
  lastSkipUpdate : ℤ
  reentryAt : ℤ
deriving DecidableEq, Repr, Inhabited

structure FollowedEntry where
  userId : String
  score : Option ℚ
  lastUpdated : ℤ
  skips : ℤ
  lastSkipAt : ℤ
  reentryAt : Option ℤ
deriving DecidableEq, Repr, Inhabited

structure CreatorsInterests where
  topCreators : List CreatorNode
  risingCreators : List CreatorNode
  watchedCreatorsPool : List WatchedEntry
  skippedCreatorsPool : List WatchedEntry
deriving DecidableEq, Repr, Inhabited

structure UserState where
  topInterests : List CatNode
  risingInterests : List CatNode
  creatorsInterests : CreatorsInterests
  following : List FollowedEntry
deriving DecidableEq, Repr, Inhabited

/-- `updateNodeScore(node, engagementScore)` from src/utils/nodeHelpers.js
specialised to creator nodes (EMA in the default `"session"` mode, then
stamp `lastUpdated`). -/
def CreatorNode.updateNodeScore (P : MathPrims) (now : ℤ) (node : CreatorNode)
    (engagementScore : ℚ) : CreatorNode :=
  { node with score := emaUpdate P now node.score node.lastUpdated engagementScore,
              lastUpdated := now }

/-- `updateNodeScore` specialised to category nodes. -/
def CatNode.updateNodeScore (P : MathPrims) (now : ℤ) (node : CatNode)
    (engagementScore : ℚ) : CatNode :=
  { node with score := emaUpdate P now node.score node.lastUpdated engagementScore,
              lastUpdated := now }

/-- `updateNodeScore` specialised to subcategory nodes. -/
def SubNode.updateNodeScore (P : MathPrims) (now : ℤ) (node : SubNode)
    (engagementScore : ℚ) : SubNode :=
  { node with score := emaUpdate P now node.score node.lastUpdated engagementScore,
              lastUpdated := now }

/-- `updateNodeScore` specialised to specific nodes. -/
def SpecNode.updateNodeScore (P : MathPrims) (now : ℤ) (node : SpecNode)
    (engagementScore : ℚ) : SpecNode :=
  { node with score := emaUpdate P now node.score node.lastUpdated engagementScore,
              lastUpdated := now }

/-! ### Creator service, persistent path (src/services/creator/creatorServiceDB.js)

`Date.now()` is modelled by the single `now` parameter of a call.  The JS
decrement `Math.max((entry.skips || 1) - 1, 0)` is written out literally
(`entry.skips || 1` maps 0 to 1). -/

/-- `computeReentryAt()` from creatorServiceDB.js: now + one week. -/
def computeReentryAt (now : ℤ) : ℤ := now + 7 * 24 * 60 * 60 * 1000

/-- `Math.max((skips || 1) - 1, 0)`. -/
def jsSkipsDecrement (skips : ℤ) : ℤ := max ((if skips = 0 then 1 else skips) - 1) 0

/-- `Math.min((skips || 0) + 1, SKIP_THRESHOLD)`. -/
def jsSkipsIncrement (skips : ℤ) : ℤ := min (skips + 1) SKIP_THRESHOLD

/-- `scoreCreatorDB(userId, creatorId, engagementScore)` from
src/services/creator/creatorServiceDB.js (state-passing form; the user
document is the argument and the result).

In the FOLLOWED branch the source executes
`entry.score = updateNodeScore(entry, engagementScore)`; `updateNodeScore`
mutates the node but returns `undefined`, so the assignment leaves
`entry.score` undefined (`none`) — the threshold branch below may then
overwrite it with 0. -/
def scoreCreatorDB (P : MathPrims) (now : ℤ) (user : UserState) (creatorId : String)
    (engagementScore : ℚ) : UserState :=
  let ci := user.creatorsInterests
  -- Case 1: followed creator.
  match user.following.findIdx? (fun f => f.userId == creatorId) with
  | some i =>
    let entry := user.following.getD i default
    let entry :=
      if 0 < entry.skips then
        { entry with skips := jsSkipsDecrement entry.skips, lastSkipAt := now }
      else entry
    let entry := { entry with score := none, lastUpdated := now }
    let entry :=
      if SKIP_THRESHOLD ≤ entry.skips then
        { entry with score := some 0, reentryAt := some (computeReentryAt now) }
      else entry
    { user with following := user.following.set i entry }
  | none =>
  -- Case 2: previously skipped creator.
  match ci.skippedCreatorsPool.findIdx? (fun c => c.creatorId == creatorId) with
  | some i =>
    let entry := ci.skippedCreatorsPool.getD i default
    let entry := { entry with skips := jsSkipsDecrement entry.skips, lastSkipUpdate := now }
    if entry.skips < SKIP_THRESHOLD then
      if entry.reentryAt ≤ now then
        { user with creatorsInterests :=
          { ci with
            skippedCreatorsPool := (ci.skippedCreatorsPool.set i entry).eraseIdx i,
            watchedCreatorsPool := ci.watchedCreatorsPool ++
              [{ creatorId := creatorId, skips := entry.skips,
                 lastSkipUpdate := now, reentryAt := now }] } }
      else
        { user with creatorsInterests :=
          { ci with skippedCreatorsPool := ci.skippedCreatorsPool.set i entry } }
    else
      { user with creatorsInterests :=
        { ci with skippedCreatorsPool :=
            ci.skippedCreatorsPool.set i { entry with reentryAt := computeReentryAt now } } }
  | none =>
  -- Case 3: creator in the watched pool (fall through to Case 4 at 0 skips).
  let watchedStep :
      Option (List WatchedEntry) × List WatchedEntry :=
    match ci.watchedCreatorsPool.findIdx? (fun c => c.creatorId == creatorId) with
    | some i =>
      let entry := ci.watchedCreatorsPool.getD i default
      let entry := { entry with skips := jsSkipsDecrement entry.skips, lastSkipUpdate := now }
      if entry.skips = 0 then
        (none, (ci.watchedCreatorsPool.set i entry).eraseIdx i)
      else (some (ci.watchedCreatorsPool.set i entry), ci.watchedCreatorsPool)
    | none => (none, ci.watchedCreatorsPool)
  match watchedStep with
  | (some watched, _) =>
    { user with creatorsInterests := { ci with watchedCreatorsPool := watched } }
  | (none, watchedAfter) =>
    -- Case 4: score into the top/rising pools.
    let creator := findOrInitNode CreatorNode.creatorId ci.topCreators ci.risingCreators
      creatorId
      { creatorId := creatorId, score := 0, lastUpdated := now, skips := 0, lastSkipAt := now }
    let creator := creator.updateNodeScore P now engagementScore
    let pools := insertIntoPools CreatorNode.creatorId CreatorNode.score
      TOP_CREATOR_MAX RISING_CREATOR_MAX ci.topCreators ci.risingCreators creator
    { user with creatorsInterests :=
      { ci with topCreators := pools.1, risingCreators := pools.2,
                watchedCreatorsPool := watchedAfter } }

/-- `skipCreatorDB(userId, creatorId)` from
src/services/creator/creatorServiceDB.js (state-passing form).

As in `scoreCreatorDB`, the FOLLOWED branch's
`entry.score = updateNodeScore(entry, SKIP_WEIGHT)` stores `undefined`. -/
def skipCreatorDB (P : MathPrims) (now : ℤ) (user : UserState) (creatorId : String) :
    UserState :=
  let ci := user.creatorsInterests
  -- Case 1: followed creator.
  match user.following.findIdx? (fun f => f.userId == creatorId) with
  | some i =>
    let entry := user.following.getD i default
    let entry := { entry with skips := jsSkipsIncrement entry.skips, lastSkipAt := now }
    let entry := { entry with score := none, lastUpdated := now }
    let entry :=
      if SKIP_THRESHOLD ≤ entry.skips then
        { entry with score := some 0, reentryAt := some (computeReentryAt now) }
      else entry
    { user with following := user.following.set i entry }
  | none =>
  -- Case 2: already in the skipped pool.
  match ci.skippedCreatorsPool.findIdx? (fun c => c.creatorId == creatorId) with
  | some i =>
    let entry := ci.skippedCreatorsPool.getD i default
    let entry := { entry with skips := jsSkipsIncrement entry.skips,
                              lastSkipUpdate := now,
                              reentryAt := computeReentryAt now }
    { user with creatorsInterests :=
      { ci with skippedCreatorsPool := ci.skippedCreatorsPool.set i entry } }
  | none =>
  -- Case 3: in the watched pool.
  match ci.watchedCreatorsPool.findIdx? (fun c => c.creatorId == creatorId) with
  | some i =>
    let entry := ci.watchedCreatorsPool.getD i default
    let entry := { entry with skips := jsSkipsIncrement entry.skips, lastSkipUpdate := now }
    if SKIP_THRESHOLD ≤ entry.skips then
      { user with creatorsInterests :=
        { ci with
          watchedCreatorsPool := (ci.watchedCreatorsPool.set i entry).eraseIdx i,
          skippedCreatorsPool := ci.skippedCreatorsPool ++
            [{ creatorId := creatorId, skips := entry.skips,
               lastSkipUpdate := now, reentryAt := computeReentryAt now }] } }
    else
      { user with creatorsInterests :=
        { ci with watchedCreatorsPool := ci.watchedCreatorsPool.set i entry } }
  | none =>
  -- Case 4: in top/rising, or a completely new creator.
  let creator := findOrInitNode CreatorNode.creatorId ci.topCreators ci.risingCreators
    creatorId
    { creatorId := creatorId, score := 0, lastUpdated := now, skips := 0, lastSkipAt := now }
  let creator := { creator with skips := jsSkipsIncrement creator.skips, lastSkipAt := now }
  let creator := creator.updateNodeScore P now SKIP_WEIGHT
  if SKIP_THRESHOLD ≤ creator.skips then
    { user with creatorsInterests :=
      { ci with
        topCreators := ci.topCreators.filter (fun c => c.creatorId ≠ creatorId),
        risingCreators := ci.risingCreators.filter (fun c => c.creatorId ≠ creatorId),
        skippedCreatorsPool := ci.skippedCreatorsPool ++
          [{ creatorId := creatorId, skips := creator.skips,
             lastSkipUpdate := now, reentryAt := computeReentryAt now }] } }
  else if creator.score ≤ 0 ∧ 1 ≤ creator.skips then
    { user with creatorsInterests :=
      { ci with
        topCreators := ci.topCreators.filter (fun c => c.creatorId ≠ creatorId),
        risingCreators := ci.risingCreators.filter (fun c => c.creatorId ≠ creatorId),
        watchedCreatorsPool := ci.watchedCreatorsPool ++
          [{ creatorId := creatorId, skips := creator.skips,
             lastSkipUpdate := now, reentryAt := now }] } }
  else
    let pools := insertIntoPools CreatorNode.creatorId CreatorNode.score
      TOP_CREATOR_MAX RISING_CREATOR_MAX ci.topCreators ci.risingCreators creator
    { user with creatorsInterests :=
      { ci with topCreators := pools.1, risingCreators := pools.2 } }

/-- Repeated `skipCreatorDB` calls at the given call times (one `Date.now()`
value per call). -/
def iterSkipCreatorDB (P : MathPrims) (times : List ℤ) (u : UserState) (cid : String) :
    UserState :=
  times.foldl (fun st t => skipCreatorDB P t st cid) u

/-- Concrete user for C7's witness: completely empty profile. -/
def emptyUser : UserState :=
  { topInterests := [], risingInterests := [],
    creatorsInterests := ⟨[], [], [], []⟩, following := [] }

/-- Concrete user for C1: one followed creator "c1" with a defined score 5
and one recorded skip. -/
def cOneUser : UserState :=
  { topInterests := [], risingInterests := [],
    creatorsInterests := ⟨[], [], [], []⟩,
    following := [{ userId := "c1", score := some 5, lastUpdated := 0, skips := 1,
                    lastSkipAt := 0, reentryAt := none }] }

/-! ### Session blob and fast-store model (src/session/sessionStart.js;
key layout from utils/sessionHelpers.js = src/unnamed/part_000 and
src/constants/constants.js)

The blob mirrors the user profile with timestamps as integer milliseconds;
the creator pools use the field shapes produced by `startSession`. -/

structure SessCreator where
  creatorId : String
  score : ℚ
  skips : ℤ
  lastSkipUpdate : ℤ
  lastUpdated : ℤ
deriving DecidableEq, Repr, Inhabited

structure SessWatched where
  creatorId : String
  skips : ℤ
  lastSkipUpdate : ℤ
  reentryAt : ℤ
deriving DecidableEq, Repr, Inhabited

structure SessFollowed where
  creatorId : String
  score : ℚ
  lastUpdated : ℤ
  skips : ℤ
  lastSkipAt : ℤ
deriving DecidableEq, Repr, Inhabited

structure SessionBlob where
  userId : String
  topCategories : List CatNode
  risingCategories : List CatNode
  topCreators : List SessCreator
  risingCreators : List SessCreator
  watchedCreators : List SessWatched
  skippedCreators : List SessWatched
  followedCreators : List SessFollowed
deriving DecidableEq, Repr, Inhabited

/-- Counter document (`GlobalStats`, `UserInterestStats`, `CreatorStats`). -/
structure Stats where
  impressionCount : ℤ
  totalEngagement : ℚ
deriving DecidableEq, Repr, Inhabited

/-- State touched by the session-variant interest service: the fast store
(session blobs and the last-access sorted set, keyed by session id) and
the two counter collections.  `globalStats` is keyed by (entityType, name)
and `userInterestStats` by (userId, entityType, name). -/
structure InterestRedisState where
  sessions : String → Option SessionBlob
  lastAccess : String → Option ℤ
  globalStats : String → String → Option Stats
  userInterestStats : String → String → String → Option Stats

/-- `findOneAndUpdate(filter, { $inc: {impressionCount: 1, totalEngagement: e} },
{ upsert: true, new: true })`: the post-increment document. -/
def statsInc (st : Option Stats) (e : ℚ) : Stats :=
  let g := st.getD { impressionCount := 0, totalEngagement := 0 }
  { impressionCount := g.impressionCount + 1, totalEngagement := g.totalEngagement + e }

/-- Bayesian smoothing step shared by the category and subcategory levels of
`scoreInterestRedis` (lines 27–36 and 79–88 of interestServiceRedis.js). -/
def smoothedAverage (P : MathPrims) (g u : Stats) : ℚ :=
  let priorCount := choosePriorCount P g.impressionCount
  let globalAvg := if 0 < g.impressionCount then g.totalEngagement / (g.impressionCount : ℚ) else 0
  (globalAvg * priorCount + u.totalEngagement) / (priorCount + (u.impressionCount : ℚ))

/-- Replace the category node carrying `n` (the JS code mutates the found
node in place; pool keys are unique, see `keysNodup`). -/
def replaceCatByName (l : List CatNode) (n : String) (node : CatNode) : List CatNode :=
  l.map (fun x => if x.name = n then node else x)

/-- Replace the subcategory node carrying `n`. -/
def replaceSubByName (l : List SubNode) (n : String) (node : SubNode) : List SubNode :=
  l.map (fun x => if x.name = n then node else x)

/-! ### Interest service, session path (src/services/interest/interestServiceRedis.js)

`getSessionData` / `setSessionData` / `refreshUserSession` are translated
from utils/sessionHelpers.js (src/unnamed/part_000): `getSessionData` reads
and JSON-parses the value at `sess:<sessionId>` (null when the key is
absent), `setSessionData` JSON-stringifies and stores the blob at that key
with no TTL, and `refreshUserSession` zadd-updates the session id in the
`SESSION_LAST_ACCESS_ZSET` sorted set ("sessions:lastAccess", from
src/constants/constants.js) with the current time as score. -/

def getSessionData (st : InterestRedisState) (sessionId : String) : Option SessionBlob :=
  st.sessions sessionId

def setSessionData (st : InterestRedisState) (sessionId : String) (b : SessionBlob) :
    InterestRedisState :=
  { st with sessions := fun k => if k = sessionId then some b else st.sessions k }

def refreshUserSession (now : ℤ) (st : InterestRedisState) (sessionId : String) :
    InterestRedisState :=
  { st with lastAccess := fun k => if k = sessionId then some now else st.lastAccess k }

/-- Update `globalStats` at (entityType, name). -/
def setGlobalStats (st : InterestRedisState) (et n : String) (g : Stats) :
    InterestRedisState :=
  { st with globalStats := fun a b => if a = et ∧ b = n then some g else st.globalStats a b }

/-- Update `userInterestStats` at (userId, entityType, name). -/
def setUserStats (st : InterestRedisState) (u et n : String) (g : Stats) :
    InterestRedisState :=
  { st with userInterestStats :=
      fun a b c => if a = u ∧ b = et ∧ c = n then some g else st.userInterestStats a b c }

/-- The specific-level block of `scoreInterestRedis` (lines 117–137): no
Bayesian smoothing, the raw engagement score feeds the EMA. -/
def scoreSpecificStep (P : MathPrims) (now : ℤ) (specificName : String)
    (engagementScore : ℚ) (sub : SubNode) : SubNode :=
  let specificsArray := sub.specific
  let specificNode :=
    match specificsArray.find? (fun x => x.name == specificName) with
    | some n => n
    | none => { name := specificName, score := 0, lastUpdated := now }
  let specificNode := specificNode.updateNodeScore P now engagementScore
  let pools := insertIntoPools SpecNode.name SpecNode.score SPECIFIC_MAX 0
    specificsArray [] specificNode
  { sub with specific := pools.1 }

/-- `scoreInterestRedis(userId, sessionId, categoryName, subName,
specificName, engagementScore)` from interestServiceRedis.js, as a state
transformer.  Returns the state unchanged when no session blob exists. -/
def scoreInterestRedis (P : MathPrims) (now : ℤ) (userId sessionId : String)
    (categoryName : String) (subName specificName : Option String)
    (engagementScore : ℚ) (st : InterestRedisState) : InterestRedisState :=
  match getSessionData st sessionId with
  | none => st
  | some sessionData =>
    let globalCat := statsInc (st.globalStats "category" categoryName) engagementScore
    let st := setGlobalStats st "category" categoryName globalCat
    let userStatsCat := statsInc (st.userInterestStats userId "category" categoryName)
      engagementScore
    let st := setUserStats st userId "category" categoryName userStatsCat
    let smoothedAverageCat := smoothedAverage P globalCat userStatsCat
    let topCategories := sessionData.topCategories
    let risingCategories := sessionData.risingCategories
    let categoryNode := findOrInitNode CatNode.name topCategories risingCategories
      categoryName
      { name := categoryName, score := 0, lastUpdated := now, topSubs := [], risingSubs := [] }
    let categoryNode := categoryNode.updateNodeScore P now smoothedAverageCat
    let pools := insertIntoPools CatNode.name CatNode.score TOP_CAT_MAX RISING_CAT_MAX
      topCategories risingCategories categoryNode
    let topCategories := pools.1
    let risingCategories := pools.2
    let updatedCategoryNode :=
      (topCategories.find? (fun c => c.name == categoryName)).orElse
        (fun _ => risingCategories.find? (fun c => c.name == categoryName))
    match subName, updatedCategoryNode with
    | some subN, some updatedCat =>
      let globalSub := statsInc (st.globalStats "subcategory" subN) engagementScore
      let st := setGlobalStats st "subcategory" subN globalSub
      let userStatsSub := statsInc (st.userInterestStats userId "subcategory" subN)
        engagementScore
      let st := setUserStats st userId "subcategory" subN userStatsSub
      let smoothedAvgSub := smoothedAverage P globalSub userStatsSub
      let topSubsArray := updatedCat.topSubs
      let risingSubsArray := updatedCat.risingSubs
      let subcategoryNode := findOrInitNode SubNode.name topSubsArray risingSubsArray subN
        { name := subN, score := 0, lastUpdated := now, specific := [] }
      let subcategoryNode := subcategoryNode.updateNodeScore P now smoothedAvgSub
      let subPools := insertIntoPools SubNode.name SubNode.score TOP_SUB_MAX RISING_SUB_MAX
        topSubsArray risingSubsArray subcategoryNode
      let topSubsArray := subPools.1
      let risingSubsArray := subPools.2
      let updatedSubCategoryNode :=
        (topSubsArray.find? (fun x => x.name == subN)).orElse
          (fun _ => risingSubsArray.find? (fun x => x.name == subN))
      let finalSubPools :=
        match specificName, updatedSubCategoryNode with
        | some specN, some updatedSub =>
          let updatedSub := scoreSpecificStep P now specN engagementScore updatedSub
          (replaceSubByName topSubsArray subN updatedSub,
           replaceSubByName risingSubsArray subN updatedSub)
        | _, _ => (topSubsArray, risingSubsArray)
      let updatedCat := { updatedCat with topSubs := finalSubPools.1,
                                          risingSubs := finalSubPools.2 }
      let sessionData := { sessionData with
        topCategories := replaceCatByName topCategories categoryName updatedCat,
        risingCategories := replaceCatByName risingCategories categoryName updatedCat }
      refreshUserSession now (setSessionData st sessionId sessionData) sessionId
    | _, _ =>
      let sessionData := { sessionData with
        topCategories := topCategories, risingCategories := risingCategories }
      refreshUserSession now (setSessionData st sessionId sessionData) sessionId

/-- The specific-level block of `skipInterestRedis` (lines 229–245). -/
def skipSpecificStep (P : MathPrims) (now : ℤ) (specificName : String)
    (sub : SubNode) : SubNode :=
  let specArr := sub.specific
  match specArr.find? (fun x => x.name == specificName) with
  | none => sub
  | some spec =>
    let spec := spec.updateNodeScore P now SKIP_WEIGHT
    if spec.score ≤ 0 then
      { sub with specific := specArr.filter (fun x => x.name ≠ specificName) }
    else
      let pools := insertIntoPools SpecNode.name SpecNode.score SPECIFIC_MAX 0 specArr [] spec
      { sub with specific := pools.1 }

/-- `skipInterestRedis(userId, sessionId, categoryName, subCategoryName,
specificName)` from interestServiceRedis.js. -/
def skipInterestRedis (P : MathPrims) (now : ℤ) (userId sessionId : String)
    (categoryName : String) (subCategoryName specificName : Option String)
    (st : InterestRedisState) : InterestRedisState :=
  match getSessionData st sessionId with
  | none => st
  | some sessionData =>
    let topCats := sessionData.topCategories
    let risingCats := sessionData.risingCategories
    let inTop := topCats.any (fun c => c.name == categoryName)
    let inRising := risingCats.any (fun c => c.name == categoryName)
    if ¬ inTop ∧ ¬ inRising then st
    else
      let cat := findOrInitNode CatNode.name topCats risingCats categoryName
        { name := categoryName, score := 0, lastUpdated := now, topSubs := [], risingSubs := [] }
      let cat := cat.updateNodeScore P now SKIP_WEIGHT
      if cat.score ≤ 0 then
        let sessionData := { sessionData with
          topCategories := topCats.filter (fun c => c.name ≠ categoryName),
          risingCategories := risingCats.filter (fun c => c.name ≠ categoryName) }
        refreshUserSession now (setSessionData st sessionId sessionData) sessionId
      else
        let pools := insertIntoPools CatNode.name CatNode.score TOP_CAT_MAX RISING_CAT_MAX
          topCats risingCats cat
        let topCats := pools.1
        let risingCats := pools.2
        let updatedCat :=
          (topCats.find? (fun c => c.name == categoryName)).orElse
            (fun _ => risingCats.find? (fun c => c.name == categoryName))
        match updatedCat, subCategoryName with
        | some updatedCat, some subN =>
          let topSubs := updatedCat.topSubs
          let risingSubs := updatedCat.risingSubs
          let sub := findOrInitNode SubNode.name topSubs risingSubs subN
            { name := subN, score := 0, lastUpdated := now, specific := [] }
          let sub := sub.updateNodeScore P now SKIP_WEIGHT
          if sub.score ≤ 0 then
            let updatedCat := { updatedCat with
              topSubs := topSubs.filter (fun x => x.name ≠ subN),
              risingSubs := risingSubs.filter (fun x => x.name ≠ subN) }
            let sessionData := { sessionData with
              topCategories := replaceCatByName topCats categoryName updatedCat,
              risingCategories := replaceCatByName risingCats categoryName updatedCat }
            refreshUserSession now (setSessionData st sessionId sessionData) sessionId
          else
            let subPools := insertIntoPools SubNode.name SubNode.score TOP_SUB_MAX
              RISING_SUB_MAX topSubs risingSubs sub
            let topSubs := subPools.1
            let risingSubs := subPools.2
            let updatedSub :=
              (topSubs.find? (fun x => x.name == subN)).orElse
                (fun _ => risingSubs.find? (fun x => x.name == subN))
            let finalSubs :=
              match updatedSub, specificName with
              | some updatedSub, some specN =>
                let updatedSub := skipSpecificStep P now specN updatedSub
                (replaceSubByName topSubs subN updatedSub,
                 replaceSubByName risingSubs subN updatedSub)
              | _, _ => (topSubs, risingSubs)
            let updatedCat := { updatedCat with topSubs := finalSubs.1,
                                                risingSubs := finalSubs.2 }
            let sessionData := { sessionData with
              topCategories := replaceCatByName topCats categoryName updatedCat,
              risingCategories := replaceCatByName risingCats categoryName updatedCat }
            refreshUserSession now (setSessionData st sessionId sessionData) sessionId
        | _, _ =>
          let sessionData := { sessionData with
            topCategories := topCats, risingCategories := risingCats }
          refreshUserSession now (setSessionData st sessionId sessionData) sessionId

/-! ### Post metrics (request path src/unnamed/part_018 and hourly
aggregator src/unnamed/part_019, both `updatePostMetricsDB`)

The two variants are embedded separately.  Reads of other collections
(`GlobalStats.findOne…`/`CreatorStats.findOne…` with upsert of a zero
placeholder) are passed in as the `catStats`/`creatorStats` documents.  A
post field that JS reads through `|| 0` is an `Option ℚ` collapsed by
`jsOr0`. -/

structure WindowEvent where
  ts : ℤ
  weight : ℚ
deriving DecidableEq, Repr, Inhabited

structure PostDoc where
  createdAt : ℤ
  lastTrendingUpdate : Option ℤ
  shortTermVelocityEMA : Option ℚ
  historicalVelocityEMA : Option ℚ
  trendingScore : ℚ
  isRising : Bool
  isEvergreen : Bool
  bayesianScore : ℚ
  category : String
  creator : String
  impressionCount : ℤ
  engagementSum : ℚ
  cumulativeScore : ℚ
  windowEvents : List WindowEvent
deriving DecidableEq, Repr, Inhabited

/-- `x || 0` on a possibly-undefined JS number (undefined and 0 coincide). -/
def jsOr0 (x : Option ℚ) : ℚ := x.getD 0

/-- `eventTypes.reduce((sum, e) => sum + (WEIGHTS[e] || 0), 0)`. -/
def eventWeight (eventTypes : List String) : ℚ :=
  eventTypes.foldl (fun sum e => sum + WEIGHTS e) 0

/-- A zeroed counter document (the upserted placeholder). -/
def zeroStats : Stats := { impressionCount := 0, totalEngagement := 0 }

/-- `updatePostMetricsDB(postId, eventTypes, nowMs, scoreDelta)` from
src/unnamed/part_019 (the hourly-aggregator variant): returns the saved
post document and the returned `{trendingScore, isRising, bayesianScore}`. -/
def updatePostMetricsDB_aggregator (P : MathPrims) (post : PostDoc)
    (eventTypes : List String) (nowMs : ℤ) (scoreDelta : Option ℚ)
    (catStats creatorStats : Stats) : PostDoc × (ℚ × Bool × ℚ) :=
  let weight : ℚ := match scoreDelta with
    | some d => d
    | none => eventWeight eventTypes
  let createdAtMs := post.createdAt
  let lastUpdMs := post.lastTrendingUpdate.getD createdAtMs
  let deltaMs : ℚ := ((nowMs - lastUpdMs : ℤ) : ℚ)
  let ageMs : ℚ := ((nowMs - createdAtMs : ℤ) : ℚ)
  let ageDays := ageMs / MS_PER_DAY
  let oldShort := jsOr0 post.shortTermVelocityEMA
  let oldLong := jsOr0 post.historicalVelocityEMA
  let lambdaShort := P.ln2 / SHORT_HALF_LIFE_MS
  let lambdaLong := P.ln2 / LONG_HALF_LIFE_MS
  let alphaShort := 1 - P.exp (-(lambdaShort * deltaMs))
  let alphaLong := 1 - P.exp (-(lambdaLong * deltaMs))
  let newShortEMA := oldShort * (1 - alphaShort) + weight * alphaShort
  let newLongEMA := oldLong * (1 - alphaLong) + weight * alphaLong
  let eps : ℚ := 1 / 1000000
  let velocityRatio := newShortEMA / (newLongEMA + eps)
  let ratioScore := TRENDING_WEIGHT * velocityRatio ^ TRENDING_EXPONENT
  let normalizedAct := min 1 (newShortEMA / TRENDING_ACTIVITY_NORMALIZER)
  let burstScore := TRENDING_WEIGHT * TRENDING_BURST_FACTOR * normalizedAct
  let trendingScore := ratioScore + burstScore
  let isRising : Bool :=
    if lastUpdMs = createdAtMs then decide (MIN_INITIAL_RISING_WEIGHT ≤ weight)
    else decide (RISING_RATE_MULTIPLIER ≤ velocityRatio)
  let catAvg := if 0 < catStats.impressionCount
    then catStats.totalEngagement / (catStats.impressionCount : ℚ) else 0
  let creatorAvg := if 0 < creatorStats.impressionCount
    then creatorStats.totalEngagement / (creatorStats.impressionCount : ℚ) else catAvg
  let priorMean := PRIOR_CREATOR_WEIGHT * creatorAvg + (1 - PRIOR_CREATOR_WEIGHT) * catAvg
  let obsCount := post.impressionCount
  let obsSum := post.engagementSum
  let initPrior := choosePriorCount P obsCount
  let decayedPriorCount := max PRIOR_MIN_COUNT
    (initPrior * P.exp (-(PRIOR_DECAY_LAMBDA P * ageMs)))
  let smoothedAvg := (priorMean * decayedPriorCount + obsSum) /
    (decayedPriorCount + (obsCount : ℚ))
  let timeDecay := P.exp (-(P.ln2 / HALF_LIFE_DAYS) * ageDays)
  let bayesianScore := smoothedAvg * timeDecay
  ({ post with
      cumulativeScore := 0,
      shortTermVelocityEMA := some newShortEMA,
      historicalVelocityEMA := some newLongEMA,
      trendingScore := trendingScore,
      isRising := isRising,
      lastTrendingUpdate := some nowMs,
      bayesianScore := bayesianScore },
   (trendingScore, isRising, bayesianScore))

/-- `updatePostMetricsDB(postId, eventTypes, nowMs)` from
src/unnamed/part_018 (the request-path variant with the sliding
`windowEvents` window). -/
def updatePostMetricsDB_request (P : MathPrims) (post : PostDoc)
    (eventTypes : List String) (nowMs : ℤ)
    (catStats creatorStats : Stats) : PostDoc × (ℚ × Bool × ℚ) :=
  let weight : ℚ := eventWeight eventTypes
  let windowStart := nowMs - RISING_WINDOW_MS
  let windowEvents : List WindowEvent :=
    post.windowEvents.filter (fun e => windowStart ≤ e.ts)
  let windowEvents : List WindowEvent :=
    windowEvents ++ [{ ts := nowMs, weight := weight }]
  let windowEvents : List WindowEvent :=
    if 200 < windowEvents.length then windowEvents.drop 1 else windowEvents
  let createdAtMs := post.createdAt
  let lastUpdMs := post.lastTrendingUpdate.getD createdAtMs
  let delta : ℚ := ((nowMs - lastUpdMs : ℤ) : ℚ)
  let ageMs : ℚ := ((nowMs - createdAtMs : ℤ) : ℚ)
  let ageDays := ageMs / MS_PER_DAY
  let oldShort := jsOr0 post.shortTermVelocityEMA
  let oldLong := jsOr0 post.historicalVelocityEMA
  let lambdaShort := P.ln2 / SHORT_HALF_LIFE_MS
  let lambdaLong := P.ln2 / LONG_HALF_LIFE_MS
  let alphaShort := 1 - P.exp (-(lambdaShort * delta))
  let alphaLong := 1 - P.exp (-(lambdaLong * delta))
  let newShortEMA := oldShort * (1 - alphaShort) + weight * alphaShort
  let newLongEMA := oldLong * (1 - alphaLong) + weight * alphaLong
  let epsilon : ℚ := 1 / 1000000
  let velocityRatio := newShortEMA / (newLongEMA + epsilon)
  let ratioScore := TRENDING_WEIGHT * velocityRatio ^ TRENDING_EXPONENT
  let normalizedActivity := min 1 (newShortEMA / TRENDING_ACTIVITY_NORMALIZER)
  let burstScore := TRENDING_WEIGHT * TRENDING_BURST_FACTOR * normalizedActivity
  let trendingScore := ratioScore + burstScore
  let windowWeight := windowEvents.foldl (fun sum e => sum + e.weight) 0
  let windowHours : ℚ := (RISING_WINDOW_MS : ℚ) / (1000 * 3600)
  let windowRate := windowWeight / windowHours
  let baselineRate := newLongEMA * (1000 * 3600)
  let isRising : Bool :=
    if post.isEvergreen then false
    else decide (RISING_RATE_MULTIPLIER ≤ windowRate / (baselineRate + epsilon))
  let catAvg := if 0 < catStats.impressionCount
    then catStats.totalEngagement / (catStats.impressionCount : ℚ) else 0
  let creatorAvg := if 0 < creatorStats.impressionCount
    then creatorStats.totalEngagement / (creatorStats.impressionCount : ℚ) else catAvg
  let priorMean := PRIOR_CREATOR_WEIGHT * creatorAvg + (1 - PRIOR_CREATOR_WEIGHT) * catAvg
  let obsCount := post.impressionCount
  let obsSum := post.engagementSum
  let initialPriorCount := choosePriorCount P obsCount
  let decayedPriorCount := max PRIOR_MIN_COUNT
    (initialPriorCount * P.exp (-(PRIOR_DECAY_LAMBDA P * ageMs)))
  let smoothedAvg := (priorMean * decayedPriorCount + obsSum) /
    (decayedPriorCount + (obsCount : ℚ))
  let timeDecay := P.exp (-(P.ln2 / HALF_LIFE_DAYS) * ageDays)
  let bayesianScore := smoothedAvg * timeDecay
  ({ post with
      windowEvents := windowEvents,
      shortTermVelocityEMA := some newShortEMA,
      historicalVelocityEMA := some newLongEMA,
      trendingScore := trendingScore,
      isRising := isRising,
      lastTrendingUpdate := some nowMs,
      bayesianScore := bayesianScore },
   (trendingScore, isRising, bayesianScore))

/-- A concrete post exercising the metrics claims: cumulative score 5,
an established short/long EMA pair, not evergreen, empty window. -/
def cFourPost : PostDoc :=
  { createdAt := 0, lastTrendingUpdate := some 1,
    shortTermVelocityEMA := some 4, historicalVelocityEMA := some 1,
    trendingScore := 0, isRising := false, isEvergreen := false,
    bayesianScore := 0, category := "cat", creator := "c",
    impressionCount := 0, engagementSum := 0, cumulativeScore := 5,
    windowEvents := [] }

def NON_EXPLORE : ℕ := 15

/-! ### Feed assembly (src/utils/interleaveByBucket.js and
src/services/feed/feedService.js `assembleFeed`)

A candidate post as the interleaver sees it: its id, its `compositeScore`
(the default scoreKey of the exported `interleaveByBucket`) and its bucket
tag.  The random explore fetch (`fetchRandom` from utils/feedHelpers.js =
src/unnamed/part_013: an aggregate of `$match filter` then `$sample size
limit`, tagging each document with the bucket) is a function parameter
taking the excluded ids and the limit; the claim hypotheses state the
filter/limit/bucket properties that aggregate guarantees. -/

structure FeedItem where
  id : String
  compositeScore : ℚ
  bucket : String
deriving DecidableEq, Repr, Inhabited

/-- The `caps` table of `interleaveByBucket` (`caps[b] ?? nonExploreLimit`). -/
def bucketCap (nonExploreLimit : ℕ) (b : String) : ℕ :=
  if b = "SKIP_REENTRY" then SKIP_REENTRY_SLOTS
  else if b = "WATCHED" then WATCHED_SLOTS
  else if b = "CAT:TOP" then INTERESTS_SLOTS
  else if b = "CAT:RISING" then INTERESTS_SLOTS
  else if b = "CAT:EXTRA" then INTERESTS_SLOTS
  else if b = "CREATOR:TOP" then CREATORS_SLOTS
  else if b = "CREATOR:RISING" then CREATORS_SLOTS
  else if b = "CREATOR:EXTRA" then CREATORS_SLOTS
  else if b = "CREATOR:FOLLOWED" then FOLLOWING_SLOTS
  else if b = "RISING" then RISING_SLOTS
  else if b = "TRENDING" then TRENDING_SLOTS
  else if b = "RECENT" then RECENT_SLOTS
  else if b = "EVERGREEN" then EVERGREEN_SLOTS
  else if b = "UNKNOWN" then 1
  else nonExploreLimit

/-- One pass of the while loop of `interleaveByBucket`: filter the pool by
remaining bucket capacity, keep the least-filled buckets, sort those by
score and take the head (`eligible[0]`).  `none` exactly when `available`
is empty (the loop's `break`; the sorted `eligible` is never empty when
`available` is not). -/
def interleavePick (limit : ℕ) (counts : String → ℕ) (pool : List FeedItem) :
    Option FeedItem :=
  match pool.filter (fun item => counts item.bucket < bucketCap limit item.bucket) with
  | [] => none
  | a :: rest =>
    let minCount := rest.foldl (fun m item => min m (counts item.bucket))
      (counts a.bucket)
    let eligible := (a :: rest).filter (fun item => counts item.bucket = minCount)
    (sortByScoreDesc FeedItem.compositeScore eligible).head?

/-- The while loop of `interleaveByBucket`; each pass removes the pick from
the pool, so `pool.length` fuel runs it to completion. -/
def interleaveGo (limit : ℕ) : ℕ → List FeedItem → (String → ℕ) → List FeedItem →
    List FeedItem
  | 0, chosen, _, _ => chosen
  | fuel + 1, chosen, counts, pool =>
    if chosen.length < limit ∧ pool ≠ [] then
      match interleavePick limit counts pool with
      | none => chosen
      | some pick =>
        interleaveGo limit fuel (chosen ++ [pick])
          (fun b => if b = pick.bucket then counts b + 1 else counts b)
          (pool.erase pick)
    else chosen

/-- `interleaveByBucket(candidates, nonExploreLimit)` (scoreKey
`compositeScore`, bucketKey `bucket`). -/
def interleaveByBucket (candidates : List FeedItem) (nonExploreLimit : ℕ) :
    List FeedItem :=
  let pool := sortByScoreDesc FeedItem.compositeScore candidates
  interleaveGo nonExploreLimit pool.length [] (fun _ => 0) pool

/-- `assembleFeed(scoredPosts, seenPostIds, fetchRandomFn)` from
src/services/feed/feedService.js: the core interleave plus the explore
fill (`_id ∉ seenPostIds`, `limit = FEED_SIZE - coreFeed.length`). -/
def assembleFeed (fetchRandomFn : List String → ℕ → List FeedItem)
    (scoredPosts : List FeedItem) (seenPostIds : List String) : List FeedItem :=
  let coreFeed := interleaveByBucket scoredPosts NON_EXPLORE
  let need := FEED_SIZE - coreFeed.length
  coreFeed ++ (if 0 < need then fetchRandomFn seenPostIds need else [])

/-- Concrete items exercising the feed claims: one trending candidate and an
explore item carrying the same post id. -/
def feedCore : FeedItem := { id := "p", compositeScore := 1, bucket := "TRENDING" }

def feedDup : FeedItem := { id := "p", compositeScore := 0, bucket := "EXPLORE" }

/-- A random fetch admissible for the `assembleFeed` call on an empty seen
set: it returns one unseen EXPLORE post — which happens to be a post also in
the candidate list. -/
def dupFetch : List String → ℕ → List FeedItem := fun _ _ => [feedDup]

/-- A random fetch returning nothing. -/
def emptyFetch : List String → ℕ → List FeedItem := fun _ _ => []

/-! ### Session start and merge-back (src/session/sessionStart.js,
src/session/mergeSession.js, src/session/sessionExpiryWorker.js)

Timestamps are already ℤ milliseconds in the model, so the
`.getTime() || Date.now()` conversions of the JS projection are identities;
`f.score || 0` on a followed entry collapses a missing score to 0
(`Option.getD 0`).  The constants `SESSION_BLEND_ALPHA = 0.25`,
`HARSKIP_THRESHOLD = 10`, `WATCHED_THRESHOLD = 2` and
`REENTRY_DELAY_MS = 7 days` are the exported values of
src/constants/constants.js. -/

/-- `emaBlend(oldValue, sessionValue, alpha) = (1 - alpha)*oldValue +
alpha*sessionValue` from mergeSession.js. -/
def emaBlend (oldValue sessionValue : ℚ) (alpha : ℚ) : ℚ :=
  (1 - alpha) * oldValue + alpha * sessionValue

/-- `blendScores` is `emaBlend` with defaulted arguments. -/
def blendScores (oldScore sessionScore : ℚ) (alpha : ℚ) : ℚ :=
  emaBlend oldScore sessionScore alpha

/-- `blendSkipCounts`: blended and rounded to a whole number. -/
def blendSkipCounts (oldSkips sessionSkips : ℤ) (alpha : ℚ) : ℤ :=
  jsRound (emaBlend (oldSkips : ℚ) (sessionSkips : ℚ) alpha)

/-- `computeNextReentry()` = now + REENTRY_DELAY_MS. -/
def computeNextReentry (now : ℤ) : ℤ := now + REENTRY_DELAY_MS

/-- `startSession(userId, sessionId)`: project the user document into the
session blob (sessionStart.js lines 44–163). -/
def startSession (userId : String) (user : UserState) : SessionBlob :=
  { userId := userId,
    topCategories := user.topInterests,
    risingCategories := user.risingInterests,
    topCreators := user.creatorsInterests.topCreators.map (fun c =>
      { creatorId := c.creatorId, score := c.score, skips := c.skips,
        lastSkipUpdate := c.lastSkipAt, lastUpdated := c.lastUpdated }),
    risingCreators := user.creatorsInterests.risingCreators.map (fun c =>
      { creatorId := c.creatorId, score := c.score, skips := c.skips,
        lastSkipUpdate := c.lastSkipAt, lastUpdated := c.lastUpdated }),
    watchedCreators := user.creatorsInterests.watchedCreatorsPool.map (fun c =>
      { creatorId := c.creatorId, skips := c.skips,
        lastSkipUpdate := c.lastSkipUpdate, reentryAt := c.reentryAt }),
    skippedCreators := user.creatorsInterests.skippedCreatorsPool.map (fun c =>
      { creatorId := c.creatorId, skips := c.skips,
        lastSkipUpdate := c.lastSkipUpdate, reentryAt := c.reentryAt }),
    followedCreators := user.following.map (fun f =>
      { creatorId := f.userId, score := f.score.getD 0,
        lastUpdated := f.lastUpdated, skips := f.skips,
        lastSkipAt := f.lastSkipAt }) }

/-- The specifics loop of the merge (mergeSession.js lines 246–273). -/
def mergeSpecStep (now : ℤ) (liveSub : SubNode) (sp : SpecNode) : SubNode :=
  let persistentSpec := findOrInitNode SpecNode.name liveSub.specific [] sp.name
    { name := sp.name, score := 0, lastUpdated := now }
  let persistentSpec := { persistentSpec with
    score := blendScores persistentSpec.score sp.score SESSION_BLEND_ALPHA,
    lastUpdated := now }
  let pools := insertIntoPools SpecNode.name SpecNode.score SPECIFIC_MAX 0
    liveSub.specific [] persistentSpec
  { liveSub with specific := pools.1 }

/-- The subcategory loop of the merge (lines 207–274): blend, re-pool, then
recurse into the live subcategory's specifics (the JS mutates the node held
inside the live category's arrays; the pure model writes it back by name). -/
def mergeSubStep (now : ℤ) (liveCat : CatNode) (sub : SubNode) : CatNode :=
  let persistentSub := findOrInitNode SubNode.name liveCat.topSubs liveCat.risingSubs
    sub.name { name := sub.name, score := 0, lastUpdated := now, specific := [] }
  let persistentSub := { persistentSub with
    score := blendScores persistentSub.score sub.score SESSION_BLEND_ALPHA,
    lastUpdated := now }
  let subPools := insertIntoPools SubNode.name SubNode.score TOP_SUB_MAX RISING_SUB_MAX
    liveCat.topSubs liveCat.risingSubs persistentSub
  let topSubs := subPools.1
  let risingSubs := subPools.2
  match (topSubs.find? (fun x => x.name == sub.name)).orElse
      (fun _ => risingSubs.find? (fun x => x.name == sub.name)) with
  | none => { liveCat with topSubs := topSubs, risingSubs := risingSubs }
  | some liveSub =>
    let liveSub2 := (sub.specific).foldl (mergeSpecStep now) liveSub
    { liveCat with topSubs := replaceSubByName topSubs sub.name liveSub2,
                   risingSubs := replaceSubByName risingSubs sub.name liveSub2 }

/-- The category loop of the merge (lines 157–275). -/
def mergeCatStep (now : ℤ) (acc : List CatNode × List CatNode) (cat : CatNode) :
    List CatNode × List CatNode :=
  let tops := acc.1
  let risings := acc.2
  let persistentCat := findOrInitNode CatNode.name tops risings cat.name
    { name := cat.name, score := 0, lastUpdated := now, topSubs := [], risingSubs := [] }
  let persistentCat := { persistentCat with
    score := blendScores persistentCat.score cat.score SESSION_BLEND_ALPHA,
    lastUpdated := now }
  let pools := insertIntoPools CatNode.name CatNode.score TOP_CAT_MAX RISING_CAT_MAX
    tops risings persistentCat
  let tops := pools.1
  let risings := pools.2
  match (tops.find? (fun c => c.name == cat.name)).orElse
      (fun _ => risings.find? (fun c => c.name == cat.name)) with
  | none => (tops, risings)
  | some liveCat =>
    let liveCat2 := (cat.topSubs ++ cat.risingSubs).foldl (mergeSubStep now) liveCat
    (replaceCatByName tops cat.name liveCat2,
     replaceCatByName risings cat.name liveCat2)

/-- One creator signal of the priority `sessionMap` (type is one of
"followed", "positive", "watched", "skipped"). -/
structure SessSignal where
  type : String
  score : ℚ
  skips : ℤ
  lastUpdated : ℤ
  lastSkipAt : ℤ
deriving DecidableEq, Repr, Inhabited

/-- `sessionMap.set` guarded by `sessionMap.has` (first wins). -/
def insertIfAbsentSig (m : List (String × SessSignal)) (k : String)
    (v : SessSignal) : List (String × SessSignal) :=
  if m.any (fun p => p.1 == k) then m else m ++ [(k, v)]

/-- Build the priority map of session creator signals (lines 293–339):
followed > positive > watched > skipped, first wins.  The session's followed
entries carry `lastSkipAt`, so the read of `f.lastSkipUpdate` is undefined
and defaults to now. -/
def buildSessionMap (now : ℤ) (session : SessionBlob) :
    List (String × SessSignal) :=
  let m := session.followedCreators.foldl (fun m f =>
    insertIfAbsentSig m f.creatorId
      { type := "followed", score := f.score, skips := f.skips,
        lastUpdated := f.lastUpdated, lastSkipAt := now }) []
  let m := (session.topCreators ++ session.risingCreators).foldl (fun m c =>
    insertIfAbsentSig m c.creatorId
      { type := "positive", score := c.score, skips := 0,
        lastUpdated := c.lastUpdated, lastSkipAt := now }) m
  let m := session.watchedCreators.foldl (fun m w =>
    insertIfAbsentSig m w.creatorId
      { type := "watched", score := 0, skips := w.skips,
        lastUpdated := now, lastSkipAt := w.lastSkipUpdate }) m
  session.skippedCreators.foldl (fun m w =>
    insertIfAbsentSig m w.creatorId
      { type := "skipped", score := 0, skips := w.skips,
        lastUpdated := now, lastSkipAt := w.lastSkipUpdate }) m

/-- `removeById` on a creator pool. -/
def poolRemoveById (l : List CreatorNode) (idStr : String) : List CreatorNode :=
  l.eraseP (fun x => x.creatorId == idStr)

/-- `removeById` on a watched/skipped pool. -/
def watchRemoveById (l : List WatchedEntry) (idStr : String) : List WatchedEntry :=
  l.eraseP (fun x => x.creatorId == idStr)

/-- The per-creator decision tree of the merge (lines 352–494). -/
def mergeCreatorStep (now : ℤ) (acc : UserState) (e : String × SessSignal) :
    UserState :=
  let idStr := e.1
  let data := e.2
  let ci := acc.creatorsInterests
  let dbFollowedIdx := acc.following.findIdx? (fun f => f.userId == idStr)
  let dbFollowed := dbFollowedIdx.map (fun i => acc.following.getD i default)
  let dbSkippedEntry := ci.skippedCreatorsPool.find? (fun x => x.creatorId == idStr)
  let dbWatchedEntry := ci.watchedCreatorsPool.find? (fun x => x.creatorId == idStr)
  let dbTopEntry := ci.topCreators.find? (fun x => x.creatorId == idStr)
  let dbRiseEntry := ci.risingCreators.find? (fun x => x.creatorId == idStr)
  let oldSkips := ((((dbSkippedEntry.map WatchedEntry.skips).orElse
    (fun _ => dbWatchedEntry.map WatchedEntry.skips)).orElse
    (fun _ => dbTopEntry.map CreatorNode.skips)).orElse
    (fun _ => (dbRiseEntry.map CreatorNode.skips).orElse
      (fun _ => dbFollowed.map FollowedEntry.skips))).getD 0
  let oldScore := (((dbTopEntry.map CreatorNode.score).orElse
    (fun _ => dbRiseEntry.map CreatorNode.score)).orElse
    (fun _ => dbFollowed.bind FollowedEntry.score)).getD 0
  let newSkips := blendSkipCounts oldSkips data.skips SESSION_BLEND_ALPHA
  let newScore := blendScores oldScore data.score SESSION_BLEND_ALPHA
  if data.type = "followed" then
    let following :=
      match dbFollowedIdx with
      | none => acc.following
      | some i =>
        let f := acc.following.getD i default
        let f := { f with skips := newSkips, lastSkipAt := data.lastSkipAt,
                          lastUpdated := data.lastUpdated }
        let f :=
          if HARSKIP_THRESHOLD ≤ newSkips then
            { f with score := some 0, reentryAt := some (computeNextReentry now) }
          else
            { f with score := some newScore, reentryAt := some now }
        acc.following.set i f
    { acc with following := following,
               creatorsInterests := { ci with
                 topCreators := poolRemoveById ci.topCreators idStr,
                 risingCreators := poolRemoveById ci.risingCreators idStr,
                 watchedCreatorsPool := watchRemoveById ci.watchedCreatorsPool idStr,
                 skippedCreatorsPool := watchRemoveById ci.skippedCreatorsPool idStr } }
  else if HARSKIP_THRESHOLD ≤ newSkips then
    let skipped :=
      match ci.skippedCreatorsPool.findIdx? (fun x => x.creatorId == idStr) with
      | some i =>
        let entry := ci.skippedCreatorsPool.getD i default
        let entry := { entry with
          skips := newSkips,
          lastSkipUpdate := data.lastSkipAt,
          reentryAt := computeNextReentry now }
        ci.skippedCreatorsPool.set i entry
      | none =>
        ci.skippedCreatorsPool ++ [{
          creatorId := idStr,
          skips := newSkips,
          lastSkipUpdate := data.lastSkipAt,
          reentryAt := computeNextReentry now }]
    { acc with creatorsInterests := { ci with
        skippedCreatorsPool := skipped,
        watchedCreatorsPool := watchRemoveById ci.watchedCreatorsPool idStr,
        topCreators := poolRemoveById ci.topCreators idStr,
        risingCreators := poolRemoveById ci.risingCreators idStr } }
  else if WATCHED_THRESHOLD < newSkips then
    let watched :=
      match ci.watchedCreatorsPool.findIdx? (fun x => x.creatorId == idStr) with
      | some i =>
        let entry := ci.watchedCreatorsPool.getD i default
        let entry := { entry with
          skips := newSkips,
          lastSkipUpdate := data.lastSkipAt,
          reentryAt := now }
        ci.watchedCreatorsPool.set i entry
      | none =>
        ci.watchedCreatorsPool ++ [{
          creatorId := idStr,
          skips := newSkips,
          lastSkipUpdate := data.lastSkipAt,
          reentryAt := now }]
    { acc with creatorsInterests := { ci with
        watchedCreatorsPool := watched,
        skippedCreatorsPool := watchRemoveById ci.skippedCreatorsPool idStr,
        topCreators := poolRemoveById ci.topCreators idStr,
        risingCreators := poolRemoveById ci.risingCreators idStr } }
  else
    let skippedPool := watchRemoveById ci.skippedCreatorsPool idStr
    let watchedPool := watchRemoveById ci.watchedCreatorsPool idStr
    if data.type = "positive" then
      let persistentCreator := findOrInitNode CreatorNode.creatorId ci.topCreators
        ci.risingCreators idStr
        { creatorId := idStr, score := 0, lastUpdated := now, skips := 0,
          lastSkipAt := now }
      let persistentCreator := { persistentCreator with
        score := newScore, lastUpdated := data.lastUpdated, skips := 0,
        lastSkipAt := now }
      let pools := insertIntoPools CreatorNode.creatorId CreatorNode.score
        TOP_CREATOR_MAX RISING_CREATOR_MAX ci.topCreators ci.risingCreators
        persistentCreator
      { acc with creatorsInterests := { ci with
          topCreators := pools.1, risingCreators := pools.2,
          skippedCreatorsPool := skippedPool, watchedCreatorsPool := watchedPool } }
    else
      { acc with creatorsInterests := { ci with
          skippedCreatorsPool := skippedPool, watchedCreatorsPool := watchedPool } }

/-- The user-document transformation of `mergeSessionIntoUser` (steps 4–5). -/
def mergeSessionBody (now : ℤ) (session : SessionBlob) (user : UserState) :
    UserState :=
  let catPools := (session.topCategories ++ session.risingCategories).foldl
    (mergeCatStep now) (user.topInterests, user.risingInterests)
  let user := { user with topInterests := catPools.1, risingInterests := catPools.2 }
  (buildSessionMap now session).foldl (mergeCreatorStep now) user

/-- A raw fast-store value for `sess:<sid>`: either JSON that fails to parse
or a parsed blob. -/
inductive RawBlob where
  | corrupt : RawBlob
  | parsed : SessionBlob → RawBlob
deriving DecidableEq, Repr, Inhabited

/-- State touched by the expiry path: blobs, the last-access sorted set and
the user collection.  A missing `userId` in a blob is the empty string. -/
structure SessionStore where
  blobs : String → Option RawBlob
  lastAccess : String → Option ℤ
  users : String → Option UserState

/-- `mergeSessionIntoUser(userId, sessionId)` (mergeSession.js lines
108–509): re-reads the blob, refuses on absence, corruption or userId
mismatch (returning the store untouched), throws (`Except.error`) when the
user document is missing, otherwise writes the merged user document.  The
merge itself never deletes the session blob. -/
def mergeSessionIntoUser (now : ℤ) (userId sessionId : String)
    (st : SessionStore) : Except String SessionStore :=
  match st.blobs sessionId with
  | none => .ok st
  | some .corrupt => .ok st
  | some (.parsed session) =>
    if session.userId = "" ∨ session.userId ≠ userId then .ok st
    else
      match st.users userId with
      | none => .error "mergeSessionIntoUser: User not found"
      | some user =>
        .ok { st with users := fun k =>
          if k = userId then some (mergeSessionBody now session user)
          else st.users k }

/-- `handleSession(sid)` from sessionExpiryWorker.js, with the interleaving
point made explicit: the worker reads and parses the blob, then (await
boundary) `interfere` is any store change performed concurrently before
`mergeSessionIntoUser` re-reads the blob.  After the merge returns, the
worker unconditionally deletes the blob and the last-access entry; a thrown
merge error is caught and only the last-access entry is removed. -/
def handleSessionRaced (now : ℤ) (sid : String)
    (interfere : SessionStore → SessionStore) (st : SessionStore) :
    SessionStore :=
  match st.blobs sid with
  | none => { st with lastAccess := fun k => if k = sid then none else st.lastAccess k }
  | some .corrupt =>
    { st with blobs := fun k => if k = sid then none else st.blobs k,
              lastAccess := fun k => if k = sid then none else st.lastAccess k }
  | some (.parsed sessionData) =>
    if sessionData.userId = "" then
      { st with blobs := fun k => if k = sid then none else st.blobs k,
                lastAccess := fun k => if k = sid then none else st.lastAccess k }
    else
      let st1 := interfere st
      match mergeSessionIntoUser now sessionData.userId sid st1 with
      | .error _ =>
        { st1 with lastAccess := fun k => if k = sid then none else st1.lastAccess k }
      | .ok st2 =>
        { st2 with blobs := fun k => if k = sid then none else st2.blobs k,
                   lastAccess := fun k => if k = sid then none else st2.lastAccess k }

/-- `handleSession` without concurrent interference. -/
def handleSession (now : ℤ) (sid : String) (st : SessionStore) : SessionStore :=
  handleSessionRaced now sid id st

/-- Concrete expiry-race scenario: the blob at `sess:s` belongs to "alice",
a user document for "alice" exists. -/
def blobAlice : SessionBlob :=
  { userId := "alice", topCategories := [], risingCategories := [],
    topCreators := [], risingCreators := [], watchedCreators := [],
    skippedCreators := [], followedCreators := [] }

def blobBob : SessionBlob :=
  { userId := "bob", topCategories := [], risingCategories := [],
    topCreators := [], risingCreators := [], watchedCreators := [],
    skippedCreators := [], followedCreators := [] }

def cTwoStore : SessionStore :=
  { blobs := fun k => if k = "s" then some (.parsed blobAlice) else none,
    lastAccess := fun k => if k = "s" then some 0 else none,
    users := fun k => if k = "alice" then some emptyUser else none }

/-- The concurrent write between the worker's read and the merge's re-read:
the session blob is replaced by one belonging to "bob" (e.g. the session id
was reused). -/
def cTwoInterfere : SessionStore → SessionStore := fun st =>
  { st with blobs := fun k => if k = "s" then some (.parsed blobBob) else st.blobs k }

/-! ### Operation sequences for the invariant claims -/

/-- Cap discipline of a subcategory node: at most `SPECIFIC_MAX` specifics. -/
def SubCapsOK (sub : SubNode) : Prop := sub.specific.length ≤ SPECIFIC_MAX

/-- Cap discipline of a category node: subcategory pools within their caps
and every subcategory node disciplined. -/
def CatCapsOK (cat : CatNode) : Prop :=
  cat.topSubs.length ≤ TOP_SUB_MAX ∧ cat.risingSubs.length ≤ RISING_SUB_MAX ∧
  ∀ sub ∈ cat.topSubs ++ cat.risingSubs, SubCapsOK sub

/-- Cap discipline of a session blob's interest tree. -/
def BlobCapsOK (b : SessionBlob) : Prop :=
  b.topCategories.length ≤ TOP_CAT_MAX ∧ b.risingCategories.length ≤ RISING_CAT_MAX ∧
  ∀ cat ∈ b.topCategories ++ b.risingCategories, CatCapsOK cat

/-- Cap discipline of the creator pools on the user document. -/
def CreatorCapsOK (u : UserState) : Prop :=
  u.creatorsInterests.topCreators.length ≤ TOP_CREATOR_MAX ∧
  u.creatorsInterests.risingCreators.length ≤ RISING_CREATOR_MAX

/-- Every session blob held by the fast store satisfies the cap discipline. -/
def SessionsCapsOK (st : InterestRedisState) : Prop :=
  ∀ sid b, st.sessions sid = some b → BlobCapsOK b

/-- A fast store holding nothing at all. -/
def emptyRedisState : InterestRedisState :=
  { sessions := fun _ => none, lastAccess := fun _ => none,
    globalStats := fun _ _ => none, userInterestStats := fun _ _ _ => none }

/-- Concrete specific nodes exercising the pool-cap theorem. -/
def specOne : SpecNode := { name := "a", score := 1, lastUpdated := 0 }

def specTwo : SpecNode := { name := "b", score := 0, lastUpdated := 0 }

def specNeg : SpecNode := { name := "c", score := -1, lastUpdated := 0 }

/-- One call of the session-variant interest service. -/
inductive InterestOp where
  | score (now : ℤ) (userId sessionId categoryName : String)
      (subName specificName : Option String) (e : ℚ)
  | skip (now : ℤ) (userId sessionId categoryName : String)
      (subName specificName : Option String)

def applyInterestOp (P : MathPrims) (st : InterestRedisState) :
    InterestOp → InterestRedisState
  | .score now userId sessionId categoryName subName specificName e =>
    scoreInterestRedis P now userId sessionId categoryName subName specificName e st
  | .skip now userId sessionId categoryName subName specificName =>
    skipInterestRedis P now userId sessionId categoryName subName specificName st

def iterInterestOps (P : MathPrims) (ops : List InterestOp) (st : InterestRedisState) :
    InterestRedisState :=
  ops.foldl (applyInterestOp P) st

/-- One call of the persistent-variant creator service. -/
inductive CreatorOp where
  | score (now : ℤ) (creatorId : String) (e : ℚ)
  | skip (now : ℤ) (creatorId : String)

def applyCreatorOp (P : MathPrims) (u : UserState) : CreatorOp → UserState
  | .score now creatorId e => scoreCreatorDB P now u creatorId e
  | .skip now creatorId => skipCreatorDB P now u creatorId

def iterCreatorOps (P : MathPrims) (ops : List CreatorOp) (u : UserState) : UserState :=
  ops.foldl (applyCreatorOp P) u

/-- The observable of the interest tree's top level: (name, score) pairs. -/
def catPairs (l : List CatNode) : List (String × ℚ) :=
  l.map (fun c => (c.name, c.score))

/-- The observable of a creator pool: (creatorId, score) pairs. -/
def creatorPairs (l : List CreatorNode) : List (String × ℚ) :=
  l.map (fun c => (c.creatorId, c.score))

/-- The positive-signal segment of the creator merge phase, indexed by the
original creator nodes it was projected from. -/
def foldPositive (now : ℤ) (cs : List CreatorNode) (acc : UserState) : UserState :=
  cs.foldl (fun a c => mergeCreatorStep now a
    (c.creatorId, ⟨"positive", c.score, 0, c.lastUpdated, now⟩)) acc

/-- A profile with one top creator whose accumulated skip count (4) decays to
3 on merge-back, crossing WATCHED_THRESHOLD: the round trip demotes it. -/
def cEightUser : UserState :=
  { topInterests := [],
    risingInterests := [],
    creatorsInterests :=
      { topCreators := [{
          creatorId := "c",
          score := 8,
          lastUpdated := 0,
          skips := 4,
          lastSkipAt := 0 }],
        risingCreators := [],
        watchedCreatorsPool := [],
        skippedCreatorsPool := [] },
    following := [] }

/-- A profile inside all the round-trip hypotheses, exercising the
followed/watched coexistence the invariants permit: a category with a
subcategory and a specific, one top creator with no skips, a watched entry
for creator "b" who is also followed, and a clean followed creator "z". -/
def cEightFit : UserState :=
  { topInterests := [{
      name := "music",
      score := 3,
      lastUpdated := 0,
      topSubs := [{
        name := "rock",
        score := 2,
        lastUpdated := 0,
        specific := [{
          name := "indie",
          score := 1,
          lastUpdated := 0 }] }],
      risingSubs := [] }],
    risingInterests := [],
    creatorsInterests :=
      { topCreators := [{
          creatorId := "a",
          score := 8,
          lastUpdated := 0,
          skips := 0,
          lastSkipAt := 0 }],
        risingCreators := [],
        watchedCreatorsPool := [{
          creatorId := "b",
          skips := 1,
          lastSkipUpdate := 0,
          reentryAt := 0 }],
        skippedCreatorsPool := [] },
    following := [{
      userId := "z",
      score := some 5,
      lastUpdated := 0,
      skips := 1,
      lastSkipAt := 0,
      reentryAt := none }, {
      userId := "b",
      score := some 4,
      lastUpdated := 0,
      skips := 0,
      lastSkipAt := 0,
      reentryAt := none }] }

/-- The observable of a specific pool as a multiset: (name, score) pairs. -/
def specMS (l : List SpecNode) : Multiset (String × ℚ) :=
  ↑(l.map (fun s => (s.name, s.score)))

/-- The observable of a subcategory pool pair as a multiset: name, score and
the specifics observable. -/
def subMS (l : List SubNode) : Multiset (String × ℚ × Multiset (String × ℚ)) :=
  ↑(l.map (fun s => (s.name, s.score, specMS s.specific)))

/-- The observable of an interest tree as a multiset: category name, score
and the combined subcategory observable. -/
def catMS (l : List CatNode) :
    Multiset (String × ℚ × Multiset (String × ℚ × Multiset (String × ℚ))) :=
  ↑(l.map (fun c => (c.name, c.score, subMS (c.topSubs ++ c.risingSubs))))

/-- Hygiene of an interest tree (model hypothesis, spec 3.1/3.2): caps at
every level, pairwise-distinct names at every level and nonnegative scores
below the top level. -/
def CatTreeSane (l : List CatNode) : Prop :=
  ∀ c ∈ l, CatCapsOK c ∧
    keysNodup SubNode.name (c.topSubs ++ c.risingSubs) ∧
    ∀ s ∈ c.topSubs ++ c.risingSubs, 0 ≤ s.score ∧
      keysNodup SpecNode.name s.specific ∧ ∀ sp ∈ s.specific, 0 ≤ sp.score

/-! ## Theorems -/

theorem eraseIdx_append_length (w : List WatchedEntry) (e : WatchedEntry) :
    (w ++ [e]).eraseIdx w.length = w := by
  induction w with
  | nil => rfl
  | cons a l ih => simp [List.eraseIdx, ih]

theorem findIdx?_append_singleton {p : WatchedEntry → Bool} (w : List WatchedEntry)
    (e : WatchedEntry) (h : ∀ x ∈ w, p x = false) (he : p e = true) :
    (w ++ [e]).findIdx? p = some w.length := by
  induction w with
  | nil => simp [List.findIdx?_cons, he]
  | cons a l ih =>
    have ha := h a (by simp)
    simp [List.findIdx?_cons, ha, ih (fun x hx => h x (by simp [hx]))]

/-- First skip on a creator absent from every pool: the creator lands in the
watched pool with one skip. -/
theorem skipCreatorDB_absent (P : MathPrims) (t : ℤ) (u : UserState) (cid : String)
    (hf : ∀ f ∈ u.following, f.userId ≠ cid)
    (hs : ∀ c ∈ u.creatorsInterests.skippedCreatorsPool, c.creatorId ≠ cid)
    (hw : ∀ c ∈ u.creatorsInterests.watchedCreatorsPool, c.creatorId ≠ cid)
    (ht : ∀ c ∈ u.creatorsInterests.topCreators, c.creatorId ≠ cid)
    (hr : ∀ c ∈ u.creatorsInterests.risingCreators, c.creatorId ≠ cid) :
    skipCreatorDB P t u cid =
      { topInterests := u.topInterests, risingInterests := u.risingInterests,
        creatorsInterests :=
          { topCreators := u.creatorsInterests.topCreators,
            risingCreators := u.creatorsInterests.risingCreators,
            watchedCreatorsPool := u.creatorsInterests.watchedCreatorsPool ++
              [{ creatorId := cid, skips := 1, lastSkipUpdate := t, reentryAt := t }],
            skippedCreatorsPool := u.creatorsInterests.skippedCreatorsPool },
        following := u.following } := by
  have h1 : u.following.findIdx? (fun f => f.userId == cid) = none := by
    rw [List.findIdx?_eq_none_iff]; intro x hx; simpa using hf x hx
  have h2 : u.creatorsInterests.skippedCreatorsPool.findIdx? (fun c => c.creatorId == cid) = none := by
    rw [List.findIdx?_eq_none_iff]; intro x hx; simpa using hs x hx
  have h3 : u.creatorsInterests.watchedCreatorsPool.findIdx? (fun c => c.creatorId == cid) = none := by
    rw [List.findIdx?_eq_none_iff]; intro x hx; simpa using hw x hx
  have h4 : u.creatorsInterests.topCreators.find? (fun c => c.creatorId == cid) = none := by
    rw [List.find?_eq_none]; intro x hx; simpa using ht x hx
  have h5 : u.creatorsInterests.risingCreators.find? (fun c => c.creatorId == cid) = none := by
    rw [List.find?_eq_none]; intro x hx; simpa using hr x hx
  have hft : u.creatorsInterests.topCreators.filter (fun c => decide (c.creatorId ≠ cid)) =
      u.creatorsInterests.topCreators := by
    rw [List.filter_eq_self]; intro a ha; simpa using ht a ha
  have hfr : u.creatorsInterests.risingCreators.filter (fun c => decide (c.creatorId ≠ cid)) =
      u.creatorsInterests.risingCreators := by
    rw [List.filter_eq_self]; intro a ha; simpa using hr a ha
  simp only [skipCreatorDB, h1, h2, h3, findOrInitNode, h4, h5]
  norm_num [jsSkipsIncrement, SKIP_THRESHOLD, CreatorNode.updateNodeScore, emaUpdate,
    EMA_ALPHA_SESSION, SKIP_WEIGHT, hft, hfr]
  exact ⟨ht, hr⟩

/-- A later skip on a creator sitting at the end of the watched pool with
`s + 1 < SKIP_THRESHOLD` skips: the skip count increments in place. -/
theorem skipCreatorDB_watched_step (P : MathPrims) (t : ℤ) (u : UserState) (cid : String)
    (w : List WatchedEntry) (s ts r : ℤ)
    (hpool : u.creatorsInterests.watchedCreatorsPool =
      w ++ [{ creatorId := cid, skips := s, lastSkipUpdate := ts, reentryAt := r }])
    (hf : ∀ f ∈ u.following, f.userId ≠ cid)
    (hs : ∀ c ∈ u.creatorsInterests.skippedCreatorsPool, c.creatorId ≠ cid)
    (hw : ∀ c ∈ w, c.creatorId ≠ cid)
    (hlo : 0 ≤ s) (hhi : s + 1 < SKIP_THRESHOLD) :
    skipCreatorDB P t u cid =
      { topInterests := u.topInterests, risingInterests := u.risingInterests,
        creatorsInterests :=
          { topCreators := u.creatorsInterests.topCreators,
            risingCreators := u.creatorsInterests.risingCreators,
            watchedCreatorsPool :=
              w ++ [{ creatorId := cid, skips := s + 1, lastSkipUpdate := t, reentryAt := r }],
            skippedCreatorsPool := u.creatorsInterests.skippedCreatorsPool },
        following := u.following } := by
  have h1 : u.following.findIdx? (fun f => f.userId == cid) = none := by
    rw [List.findIdx?_eq_none_iff]; intro x hx; simpa using hf x hx
  have h2 : u.creatorsInterests.skippedCreatorsPool.findIdx? (fun c => c.creatorId == cid) = none := by
    rw [List.findIdx?_eq_none_iff]; intro x hx; simpa using hs x hx
  have h3 : u.creatorsInterests.watchedCreatorsPool.findIdx? (fun c => c.creatorId == cid) =
      some w.length := by
    rw [hpool]
    exact findIdx?_append_singleton w _ (fun x hx => by simpa using hw x hx) (by simp)
  have hget : u.creatorsInterests.watchedCreatorsPool.getD w.length default =
      { creatorId := cid, skips := s, lastSkipUpdate := ts, reentryAt := r } := by
    rw [hpool]; simp [List.getD]
  have hinc : jsSkipsIncrement s = s + 1 := by
    simp [jsSkipsIncrement]; omega
  have hset : u.creatorsInterests.watchedCreatorsPool.set w.length
      { creatorId := cid, skips := s + 1, lastSkipUpdate := t, reentryAt := r } =
      w ++ [{ creatorId := cid, skips := s + 1, lastSkipUpdate := t, reentryAt := r }] := by
    rw [hpool]; simp [List.set_append]
  simp only [skipCreatorDB, h1, h2, h3, hget, hinc]
  rw [if_neg (by omega)]
  simp [hset]

/-- The skip that reaches the threshold: the creator moves from the watched
pool to the skipped pool with a fresh re-entry delay. -/
theorem skipCreatorDB_watched_to_skipped (P : MathPrims) (t : ℤ) (u : UserState) (cid : String)
    (w : List WatchedEntry) (s ts r : ℤ)
    (hpool : u.creatorsInterests.watchedCreatorsPool =
      w ++ [{ creatorId := cid, skips := s, lastSkipUpdate := ts, reentryAt := r }])
    (hf : ∀ f ∈ u.following, f.userId ≠ cid)
    (hs : ∀ c ∈ u.creatorsInterests.skippedCreatorsPool, c.creatorId ≠ cid)
    (hw : ∀ c ∈ w, c.creatorId ≠ cid)
    (hlo : 0 ≤ s) (hhi : SKIP_THRESHOLD ≤ s + 1) (hcap : s < SKIP_THRESHOLD) :
    skipCreatorDB P t u cid =
      { topInterests := u.topInterests, risingInterests := u.risingInterests,
        creatorsInterests :=
          { topCreators := u.creatorsInterests.topCreators,
            risingCreators := u.creatorsInterests.risingCreators,
            watchedCreatorsPool := w,
            skippedCreatorsPool := u.creatorsInterests.skippedCreatorsPool ++
              [{ creatorId := cid, skips := s + 1, lastSkipUpdate := t,
                 reentryAt := computeReentryAt t }] },
        following := u.following } := by
  have h1 : u.following.findIdx? (fun f => f.userId == cid) = none := by
    rw [List.findIdx?_eq_none_iff]; intro x hx; simpa using hf x hx
  have h2 : u.creatorsInterests.skippedCreatorsPool.findIdx? (fun c => c.creatorId == cid) = none := by
    rw [List.findIdx?_eq_none_iff]; intro x hx; simpa using hs x hx
  have h3 : u.creatorsInterests.watchedCreatorsPool.findIdx? (fun c => c.creatorId == cid) =
      some w.length := by
    rw [hpool]
    exact findIdx?_append_singleton w _ (fun x hx => by simpa using hw x hx) (by simp)
  have hget : u.creatorsInterests.watchedCreatorsPool.getD w.length default =
      { creatorId := cid, skips := s, lastSkipUpdate := ts, reentryAt := r } := by
    rw [hpool]; simp [List.getD]
  have hinc : jsSkipsIncrement s = s + 1 := by
    simp [jsSkipsIncrement, SKIP_THRESHOLD] at *; omega
  have hset : (u.creatorsInterests.watchedCreatorsPool.set w.length
      { creatorId := cid, skips := s + 1, lastSkipUpdate := t, reentryAt := r }).eraseIdx w.length =
      w := by
    rw [hpool, List.set_append]
    simp only [lt_irrefl, if_false, Nat.sub_self, List.set_cons_zero]
    exact eraseIdx_append_length w _
  simp only [skipCreatorDB, h1, h2, h3, hget, hinc]
  rw [if_pos (by omega)]
  simp [hset]

/-- Iterated watched-pool skips below the threshold. -/
theorem iterSkip_watched (P : MathPrims) (times : List ℤ) (u : UserState) (cid : String)
    (w : List WatchedEntry) (s ts r : ℤ)
    (hpool : u.creatorsInterests.watchedCreatorsPool =
      w ++ [{ creatorId := cid, skips := s, lastSkipUpdate := ts, reentryAt := r }])
    (hf : ∀ f ∈ u.following, f.userId ≠ cid)
    (hs : ∀ c ∈ u.creatorsInterests.skippedCreatorsPool, c.creatorId ≠ cid)
    (hw : ∀ c ∈ w, c.creatorId ≠ cid)
    (hlo : 0 ≤ s) (hhi : s + times.length < SKIP_THRESHOLD) :
    iterSkipCreatorDB P times u cid =
      { topInterests := u.topInterests, risingInterests := u.risingInterests,
        creatorsInterests :=
          { topCreators := u.creatorsInterests.topCreators,
            risingCreators := u.creatorsInterests.risingCreators,
            watchedCreatorsPool :=
              w ++ [{ creatorId := cid, skips := s + times.length,
                      lastSkipUpdate := times.getLastD ts, reentryAt := r }],
            skippedCreatorsPool := u.creatorsInterests.skippedCreatorsPool },
        following := u.following } := by
  induction times generalizing u s ts with
  | nil =>
    simp only [iterSkipCreatorDB, List.foldl_nil, List.length_nil, List.getLastD_nil,
      Nat.cast_zero, add_zero, ← hpool]
  | cons t rest ih =>
    have hlen : (((t :: rest).length : ℕ) : ℤ) = (rest.length : ℤ) + 1 := by
      simp [List.length_cons]
    simp only [iterSkipCreatorDB, List.foldl_cons] at ih ⊢
    rw [skipCreatorDB_watched_step P t u cid w s ts r hpool hf hs hw hlo (by omega)]
    refine (ih _ (s + 1) t ?_ ?_ ?_ ?_ ?_).trans ?_
    · rfl
    · exact hf
    · exact hs
    · omega
    · omega
    · have h9 : s + 1 + (rest.length : ℤ) = s + ((rest.length : ℤ) + 1) := by ring
      simp only [List.length_cons, List.getLastD_cons]
      push_cast
      rw [h9]

/-- Ten consecutive skips on an absent creator land it in the skipped pool. -/
theorem ten_skips_result (P : MathPrims) (u : UserState) (cid : String)
    (t1 t2 t3 t4 t5 t6 t7 t8 t9 t10 : ℤ)
    (hf : ∀ f ∈ u.following, f.userId ≠ cid)
    (hs : ∀ c ∈ u.creatorsInterests.skippedCreatorsPool, c.creatorId ≠ cid)
    (hw : ∀ c ∈ u.creatorsInterests.watchedCreatorsPool, c.creatorId ≠ cid)
    (ht : ∀ c ∈ u.creatorsInterests.topCreators, c.creatorId ≠ cid)
    (hr : ∀ c ∈ u.creatorsInterests.risingCreators, c.creatorId ≠ cid) :
    iterSkipCreatorDB P [t1, t2, t3, t4, t5, t6, t7, t8, t9, t10] u cid =
      { topInterests := u.topInterests, risingInterests := u.risingInterests,
        creatorsInterests :=
          { topCreators := u.creatorsInterests.topCreators,
            risingCreators := u.creatorsInterests.risingCreators,
            watchedCreatorsPool := u.creatorsInterests.watchedCreatorsPool,
            skippedCreatorsPool := u.creatorsInterests.skippedCreatorsPool ++
              [{ creatorId := cid, skips := 10, lastSkipUpdate := t10,
                 reentryAt := computeReentryAt t10 }] },
        following := u.following } := by
  have hmid := iterSkip_watched P [t2, t3, t4, t5, t6, t7, t8, t9]
    { topInterests := u.topInterests, risingInterests := u.risingInterests,
      creatorsInterests :=
        { topCreators := u.creatorsInterests.topCreators,
          risingCreators := u.creatorsInterests.risingCreators,
          watchedCreatorsPool := u.creatorsInterests.watchedCreatorsPool ++
            [{ creatorId := cid, skips := 1, lastSkipUpdate := t1, reentryAt := t1 }],
          skippedCreatorsPool := u.creatorsInterests.skippedCreatorsPool },
      following := u.following }
    cid u.creatorsInterests.watchedCreatorsPool 1 t1 t1 rfl hf hs hw (by omega)
    (by simp [SKIP_THRESHOLD])
  have e1 : iterSkipCreatorDB P [t1, t2, t3, t4, t5, t6, t7, t8, t9, t10] u cid =
      skipCreatorDB P t10
        (iterSkipCreatorDB P [t2, t3, t4, t5, t6, t7, t8, t9]
          (skipCreatorDB P t1 u cid) cid) cid := by
    simp only [iterSkipCreatorDB, List.foldl_cons, List.foldl_nil]
  rw [e1, skipCreatorDB_absent P t1 u cid hf hs hw ht hr, hmid]
  norm_num [List.getLastD_cons, List.getLastD_nil]
  refine (skipCreatorDB_watched_to_skipped P t10 _ cid
      u.creatorsInterests.watchedCreatorsPool 9 t9 t1 ?_ ?_ ?_ ?_ ?_ ?_ ?_).trans ?_
  · rfl
  · exact hf
  · exact hs
  · exact hw
  · norm_num
  · norm_num [SKIP_THRESHOLD]
  · norm_num [SKIP_THRESHOLD]
  · rfl

/-- Claim C7: for a creator absent from all of a user's creator pools
(following, top, rising, watched, skipped), ten consecutive `skipCreatorDB`
calls leave the creator in `skippedCreatorsPool` with `skips = 10` and
`reentryAt = now + 7 days` (now being the time of the tenth call), and
absent from `topCreators`, `risingCreators` and `watchedCreatorsPool`. -/
theorem ten_consecutive_skips_hard_skip (P : MathPrims) (u : UserState) (cid : String)
    (t1 t2 t3 t4 t5 t6 t7 t8 t9 t10 : ℤ)
    (hf : ∀ f ∈ u.following, f.userId ≠ cid)
    (hs : ∀ c ∈ u.creatorsInterests.skippedCreatorsPool, c.creatorId ≠ cid)
    (hw : ∀ c ∈ u.creatorsInterests.watchedCreatorsPool, c.creatorId ≠ cid)
    (ht : ∀ c ∈ u.creatorsInterests.topCreators, c.creatorId ≠ cid)
    (hr : ∀ c ∈ u.creatorsInterests.risingCreators, c.creatorId ≠ cid) :
    ((iterSkipCreatorDB P [t1, t2, t3, t4, t5, t6, t7, t8, t9, t10] u cid).creatorsInterests.skippedCreatorsPool.find?
        (fun c => c.creatorId == cid) =
      some { creatorId := cid, skips := 10, lastSkipUpdate := t10,
             reentryAt := t10 + REENTRY_DELAY_MS })
    ∧ (∀ c ∈ (iterSkipCreatorDB P [t1, t2, t3, t4, t5, t6, t7, t8, t9, t10] u cid).creatorsInterests.topCreators,
        c.creatorId ≠ cid)
    ∧ (∀ c ∈ (iterSkipCreatorDB P [t1, t2, t3, t4, t5, t6, t7, t8, t9, t10] u cid).creatorsInterests.risingCreators,
        c.creatorId ≠ cid)
    ∧ (∀ c ∈ (iterSkipCreatorDB P [t1, t2, t3, t4, t5, t6, t7, t8, t9, t10] u cid).creatorsInterests.watchedCreatorsPool,
        c.creatorId ≠ cid) := by
  rw [ten_skips_result P u cid t1 t2 t3 t4 t5 t6 t7 t8 t9 t10 hf hs hw ht hr]
  refine ⟨?_, ht, hr, hw⟩
  have hnone : u.creatorsInterests.skippedCreatorsPool.find? (fun c => c.creatorId == cid) = none := by
    rw [List.find?_eq_none]; intro x hx; simpa using hs x hx
  rw [List.find?_append, hnone]
  simp [computeReentryAt, REENTRY_DELAY_MS]

/-- Witness for C7 at a concrete empty profile and call times 1..10. -/
theorem ten_consecutive_skips_hard_skip_witness :
    (iterSkipCreatorDB onePrims [1, 2, 3, 4, 5, 6, 7, 8, 9, 10] emptyUser "c9").creatorsInterests.skippedCreatorsPool.find?
        (fun c => c.creatorId == "c9") =
      some { creatorId := "c9", skips := 10, lastSkipUpdate := 10,
             reentryAt := 10 + REENTRY_DELAY_MS } :=
  (ten_consecutive_skips_hard_skip onePrims emptyUser "c9" 1 2 3 4 5 6 7 8 9 10
    (by simp [emptyUser]) (by simp [emptyUser]) (by simp [emptyUser])
    (by simp [emptyUser]) (by simp [emptyUser])).1

/-- Claim C1 (code bug): in the FOLLOWED branches of `scoreCreatorDB` and
`skipCreatorDB`, the assignment `entry.score = updateNodeScore(entry, …)`
stores the helper's return value, which is `undefined`; below the skip
threshold the followed entry's score is therefore cleared instead of being
set to `emaUpdate(oldScore, lastUpdated, engagementScore)` (respectively
`emaUpdate(oldScore, lastUpdated, SKIP_WEIGHT)`).  Evaluated here on a
followed creator with score 5 and one recorded skip: after a positive
engagement of 2 the stored score is `none` (the claim expects
`some (emaUpdate P 0 5 0 2)`, a defined value), and likewise after a skip.
The skip-count halves of the claim do hold: the positive engagement
decrements `skips` 1 → 0 and the skip increments 1 → 2, and the entry
stays in `following`. -/
theorem scoreCreatorDB_followed_score_undefined (P : MathPrims) :
    (scoreCreatorDB P 0 cOneUser "c1" 2).following =
      [{ userId := "c1", score := none, lastUpdated := 0, skips := 0,
         lastSkipAt := 0, reentryAt := none }]
    ∧ (skipCreatorDB P 0 cOneUser "c1").following =
      [{ userId := "c1", score := none, lastUpdated := 0, skips := 2,
         lastSkipAt := 0, reentryAt := none }] := by
  constructor <;> rfl

section PoolLemmas

variable {A : Type} [DecidableEq A] (keyOf : A → String) (scoreOf : A → ℚ)


theorem sortByScoreDesc_length (l : List A) :
    (sortByScoreDesc scoreOf l).length = l.length := List.length_mergeSort l

theorem sortByScoreDesc_perm (l : List A) :
    (sortByScoreDesc scoreOf l).Perm l := List.mergeSort_perm l _

theorem getLast?_some_length {l : List A} {x : A} (h : l.getLast? = some x) :
    1 ≤ l.length := by
  cases l with
  | nil => simp at h
  | cons a t => simp [Nat.succ_le_succ]

/-- Cap preservation for `insertIntoPools`. -/
theorem insertIntoPools_length (maxP maxS : ℕ) (p s : List A) (c : A)
    (hp : p.length ≤ maxP) (hs : s.length ≤ maxS) :
    (insertIntoPools keyOf scoreOf maxP maxS p s c).1.length ≤ maxP ∧
    (insertIntoPools keyOf scoreOf maxP maxS p s c).2.length ≤ maxS := by
  have hp1 := List.length_eraseP_le (p := fun x => keyOf x == keyOf c) p
  have hs1 := List.length_eraseP_le (p := fun x => keyOf x == keyOf c) s
  unfold insertIntoPools removeExistingCandidate sortByScoreDesc
  dsimp only
  split
  · exact ⟨le_trans hp1 hp, le_trans hs1 hs⟩
  · split
    · refine ⟨?_, le_trans hs1 hs⟩
      simp only [List.length_mergeSort, List.length_append, List.length_cons, List.length_nil]
      omega
    · split
      · exact ⟨le_trans hp1 hp, le_trans hs1 hs⟩
      · rename_i hfull lowP hlast
        have hne1 := getLast?_some_length (A := A) hlast
        have hplen : ∀ x : List A, x = List.eraseP (fun x => keyOf x == keyOf c) p →
            ((x.dropLast ++ [c]).mergeSort (fun a b => scoreOf b ≤ scoreOf a)).length ≤ maxP := by
          intro x hx
          subst hx
          simp only [List.length_mergeSort, List.length_append, List.length_cons,
            List.length_nil, List.length_dropLast]
          omega
        split
        · split
          · split
            · exact ⟨hplen _ rfl, by
                simp only [List.length_mergeSort, List.length_append, List.length_cons,
                  List.length_nil]; omega⟩
            · split
              · exact ⟨hplen _ rfl, le_trans hs1 hs⟩
              · rename_i hsfull lowS hslast
                have hne2 := getLast?_some_length (A := A) hslast
                split
                · exact ⟨hplen _ rfl, by
                    simp only [List.length_mergeSort, List.length_append, List.length_cons,
                      List.length_nil, List.length_dropLast]; omega⟩
                · exact ⟨hplen _ rfl, le_trans hs1 hs⟩
          · exact ⟨hplen _ rfl, le_trans hs1 hs⟩
        · split
          · exact ⟨le_trans hp1 hp, le_trans hs1 hs⟩
          · split
            · exact ⟨le_trans hp1 hp, by
                simp only [List.length_mergeSort, List.length_append, List.length_cons,
                  List.length_nil]; omega⟩
            · split
              · exact ⟨le_trans hp1 hp, le_trans hs1 hs⟩
              · rename_i hsfull lowS hslast
                have hne2 := getLast?_some_length (A := A) hslast
                split
                · exact ⟨le_trans hp1 hp, by
                    simp only [List.length_mergeSort, List.length_append, List.length_cons,
                      List.length_nil, List.length_dropLast]; omega⟩
                · exact ⟨le_trans hp1 hp, le_trans hs1 hs⟩

theorem eraseP_key_of_not_mem {l : List A} {k : String}
    (h : ∀ x ∈ l, keyOf x ≠ k) :
    l.eraseP (fun y => keyOf y == k) = l :=
  List.eraseP_of_forall_not (fun a ha => by simpa using h a ha)

theorem mem_eraseP_key_ne {l : List A} {k : String} (hnodup : keysNodup keyOf l)
    {x : A} (hx : x ∈ l.eraseP (fun y => keyOf y == k)) : keyOf x ≠ k := by
  induction l with
  | nil => simp [List.eraseP] at hx
  | cons a t ih =>
    have hnd : keysNodup keyOf t := by
      simpa [keysNodup] using (List.nodup_cons.mp hnodup).2
    by_cases hak : keyOf a = k
    · simp only [List.eraseP_cons, hak, beq_self_eq_true, cond_true] at hx
      intro hxk
      have : keyOf a ∉ t.map keyOf := (List.nodup_cons.mp hnodup).1
      exact this (by rw [hak, ← hxk]; exact List.mem_map_of_mem keyOf hx)
    · rw [List.eraseP_cons, show (keyOf a == k) = false from by simpa using hak,
        cond_false] at hx
      rcases List.mem_cons.mp hx with h1 | h1
      · rw [h1]; exact hak
      · exact ih hnd h1

theorem perm_cons_eraseP_key {l : List A} {c : A} (hc : c ∈ l)
    (hnodup : keysNodup keyOf l) :
    l.Perm (c :: l.eraseP (fun y => keyOf y == keyOf c)) := by
  induction l with
  | nil => simp at hc
  | cons a t ih =>
    by_cases hac : a = c
    · subst hac
      simp [List.eraseP_cons]
    · have hct : c ∈ t := by
        rcases List.mem_cons.mp hc with h | h
        · exact absurd h.symm hac
        · exact h
      have hak : keyOf a ≠ keyOf c := by
        intro he
        have : keyOf a ∉ t.map keyOf := (List.nodup_cons.mp hnodup).1
        exact this (he ▸ List.mem_map_of_mem keyOf hct)
      rw [List.eraseP_cons, show (keyOf a == keyOf c) = false from by simpa using hak,
        cond_false]
      have hnd : keysNodup keyOf t := by
        simpa [keysNodup] using (List.nodup_cons.mp hnodup).2
      exact ((ih hct hnd).cons a).trans (List.Perm.swap c a _)

section InsertBranches

variable (maxP maxS : ℕ) (p s : List A) (c : A)

theorem insert_branch_neg (h : scoreOf c < 0) :
    insertIntoPools keyOf scoreOf maxP maxS p s c =
      (poolErase keyOf c p, poolErase keyOf c s) := by
  unfold insertIntoPools poolErase removeExistingCandidate
  simp only [if_pos h]

theorem insert_branch_room (h0 : ¬ scoreOf c < 0)
    (h : (poolErase keyOf c p).length < maxP) :
    insertIntoPools keyOf scoreOf maxP maxS p s c =
      (sortByScoreDesc scoreOf (poolErase keyOf c p ++ [c]), poolErase keyOf c s) := by
  unfold insertIntoPools poolErase removeExistingCandidate at *
  simp only [if_neg h0, if_pos h]

theorem insert_branch_none (h0 : ¬ scoreOf c < 0)
    (h : ¬ (poolErase keyOf c p).length < maxP)
    (hl : (poolErase keyOf c p).getLast? = none) :
    insertIntoPools keyOf scoreOf maxP maxS p s c =
      (poolErase keyOf c p, poolErase keyOf c s) := by
  unfold insertIntoPools poolErase removeExistingCandidate at *
  simp only [if_neg h0, if_neg h, hl]

theorem insert_branch_swap_room (h0 : ¬ scoreOf c < 0)
    (h : ¬ (poolErase keyOf c p).length < maxP) {lowP : A}
    (hl : (poolErase keyOf c p).getLast? = some lowP)
    (hlt : scoreOf lowP < scoreOf c) (hms : 0 < maxS)
    (hsr : (poolErase keyOf c s).length < maxS) :
    insertIntoPools keyOf scoreOf maxP maxS p s c =
      (sortByScoreDesc scoreOf ((poolErase keyOf c p).dropLast ++ [c]),
       sortByScoreDesc scoreOf (poolErase keyOf c s ++ [lowP])) := by
  unfold insertIntoPools poolErase removeExistingCandidate at *
  simp only [if_neg h0, if_neg h, hl, if_pos hlt, if_pos hms, if_pos hsr]

theorem insert_branch_swap_swap (h0 : ¬ scoreOf c < 0)
    (h : ¬ (poolErase keyOf c p).length < maxP) {lowP lowS : A}
    (hl : (poolErase keyOf c p).getLast? = some lowP)
    (hlt : scoreOf lowP < scoreOf c) (hms : 0 < maxS)
    (hsr : ¬ (poolErase keyOf c s).length < maxS)
    (hsl : (poolErase keyOf c s).getLast? = some lowS)
    (hlt2 : scoreOf lowS < scoreOf lowP) :
    insertIntoPools keyOf scoreOf maxP maxS p s c =
      (sortByScoreDesc scoreOf ((poolErase keyOf c p).dropLast ++ [c]),
       sortByScoreDesc scoreOf ((poolErase keyOf c s).dropLast ++ [lowP])) := by
  unfold insertIntoPools poolErase removeExistingCandidate at *
  simp only [if_neg h0, if_neg h, hl, if_pos hlt, if_pos hms, if_neg hsr, hsl, if_pos hlt2]

theorem insert_branch_swap_drop (h0 : ¬ scoreOf c < 0)
    (h : ¬ (poolErase keyOf c p).length < maxP) {lowP lowS : A}
    (hl : (poolErase keyOf c p).getLast? = some lowP)
    (hlt : scoreOf lowP < scoreOf c) (hms : 0 < maxS)
    (hsr : ¬ (poolErase keyOf c s).length < maxS)
    (hsl : (poolErase keyOf c s).getLast? = some lowS)
    (hlt2 : ¬ scoreOf lowS < scoreOf lowP) :
    insertIntoPools keyOf scoreOf maxP maxS p s c =
      (sortByScoreDesc scoreOf ((poolErase keyOf c p).dropLast ++ [c]),
       poolErase keyOf c s) := by
  unfold insertIntoPools poolErase removeExistingCandidate at *
  simp only [if_neg h0, if_neg h, hl, if_pos hlt, if_pos hms, if_neg hsr, hsl, if_neg hlt2]

theorem insert_branch_swap_nosec (h0 : ¬ scoreOf c < 0)
    (h : ¬ (poolErase keyOf c p).length < maxP) {lowP : A}
    (hl : (poolErase keyOf c p).getLast? = some lowP)
    (hlt : scoreOf lowP < scoreOf c) (hms : ¬ 0 < maxS) :
    insertIntoPools keyOf scoreOf maxP maxS p s c =
      (sortByScoreDesc scoreOf ((poolErase keyOf c p).dropLast ++ [c]),
       poolErase keyOf c s) := by
  unfold insertIntoPools poolErase removeExistingCandidate at *
  simp only [if_neg h0, if_neg h, hl, if_pos hlt, if_neg hms]

theorem insert_branch_tosec_room (h0 : ¬ scoreOf c < 0)
    (h : ¬ (poolErase keyOf c p).length < maxP) {lowP : A}
    (hl : (poolErase keyOf c p).getLast? = some lowP)
    (hlt : ¬ scoreOf lowP < scoreOf c) (hms : ¬ maxS = 0)
    (hsr : (poolErase keyOf c s).length < maxS) :
    insertIntoPools keyOf scoreOf maxP maxS p s c =
      (poolErase keyOf c p, sortByScoreDesc scoreOf (poolErase keyOf c s ++ [c])) := by
  unfold insertIntoPools poolErase removeExistingCandidate at *
  simp only [if_neg h0, if_neg h, hl, if_neg hlt, if_neg hms, if_pos hsr]

theorem insert_branch_tosec_swap (h0 : ¬ scoreOf c < 0)
    (h : ¬ (poolErase keyOf c p).length < maxP) {lowP lowS : A}
    (hl : (poolErase keyOf c p).getLast? = some lowP)
    (hlt : ¬ scoreOf lowP < scoreOf c) (hms : ¬ maxS = 0)
    (hsr : ¬ (poolErase keyOf c s).length < maxS)
    (hsl : (poolErase keyOf c s).getLast? = some lowS)
    (hlt2 : scoreOf lowS < scoreOf c) :
    insertIntoPools keyOf scoreOf maxP maxS p s c =
      (poolErase keyOf c p,
       sortByScoreDesc scoreOf ((poolErase keyOf c s).dropLast ++ [c])) := by
  unfold insertIntoPools poolErase removeExistingCandidate at *
  simp only [if_neg h0, if_neg h, hl, if_neg hlt, if_neg hms, if_neg hsr, hsl, if_pos hlt2]

theorem insert_branch_tosec_drop (h0 : ¬ scoreOf c < 0)
    (h : ¬ (poolErase keyOf c p).length < maxP) {lowP lowS : A}
    (hl : (poolErase keyOf c p).getLast? = some lowP)
    (hlt : ¬ scoreOf lowP < scoreOf c) (hms : ¬ maxS = 0)
    (hsr : ¬ (poolErase keyOf c s).length < maxS)
    (hsl : (poolErase keyOf c s).getLast? = some lowS)
    (hlt2 : ¬ scoreOf lowS < scoreOf c) :
    insertIntoPools keyOf scoreOf maxP maxS p s c =
      (poolErase keyOf c p, poolErase keyOf c s) := by
  unfold insertIntoPools poolErase removeExistingCandidate at *
  simp only [if_neg h0, if_neg h, hl, if_neg hlt, if_neg hms, if_neg hsr, hsl, if_neg hlt2]

theorem insert_branch_tosec_nosec (h0 : ¬ scoreOf c < 0)
    (h : ¬ (poolErase keyOf c p).length < maxP) {lowP : A}
    (hl : (poolErase keyOf c p).getLast? = some lowP)
    (hlt : ¬ scoreOf lowP < scoreOf c) (hms : maxS = 0) :
    insertIntoPools keyOf scoreOf maxP maxS p s c =
      (poolErase keyOf c p, poolErase keyOf c s) := by
  unfold insertIntoPools poolErase removeExistingCandidate at *
  simp only [if_neg h0, if_neg h, hl, if_neg hlt, if_pos hms]

end InsertBranches

end PoolLemmas



section PermMain

variable {A : Type} [DecidableEq A] (keyOf : A → String) (scoreOf : A → ℚ)


/-- When the candidate's key is already present in one of the pools, the
pools are within their caps and the candidate's score is non-negative,
`insertIntoPools` never drops an entry: the combined contents after the
call are the combined contents before with the candidate's old node
replaced by the candidate. -/
theorem insertIntoPools_perm_of_present (maxP maxS : ℕ) (p s : List A) (c : A)
    (hnodup : keysNodup keyOf (p ++ s))
    (hpres : ∃ e ∈ p ++ s, keyOf e = keyOf c)
    (hpos : ¬ scoreOf c < 0)
    (hp : p.length ≤ maxP) (hs : s.length ≤ maxS) (hP1 : 1 ≤ maxP) :
    ((insertIntoPools keyOf scoreOf maxP maxS p s c).1 ++
     (insertIntoPools keyOf scoreOf maxP maxS p s c).2).Perm
      (c :: (poolErase keyOf c p ++ poolErase keyOf c s)) := by
  obtain ⟨e, he, hek⟩ := hpres
  have hnodup2 : ((p ++ s).map keyOf).Nodup := hnodup
  have hdisj := List.nodup_append.mp (by
    rw [← List.map_append]; exact hnodup2)
  rcases List.mem_append.mp he with hep | hes
  · -- the key lives in the primary pool: room is guaranteed
    have hlen : (poolErase keyOf c p).length = p.length - 1 := by
      unfold poolErase
      exact List.length_eraseP_of_mem hep (by simpa using hek)
    have hlp : 1 ≤ p.length := List.length_pos.mpr (List.ne_nil_of_mem hep)
    have hroom : (poolErase keyOf c p).length < maxP := by omega
    rw [insert_branch_room keyOf scoreOf maxP maxS p s c hpos hroom]
    refine ((sortByScoreDesc_perm scoreOf _).append_right _).trans ?_
    rw [← Multiset.coe_eq_coe]
    simp only [← Multiset.coe_add, ← Multiset.cons_coe, ← Multiset.singleton_add]
    simp only [Multiset.coe_nil, zero_add, add_zero, ← Multiset.coe_add, add_comm, add_left_comm, add_assoc]
  · -- the key lives in the secondary pool
    have hnotp : ∀ x ∈ p, keyOf x ≠ keyOf c := by
      intro x hx hxk
      exact hdisj.2.2 (List.mem_map_of_mem keyOf hx)
        (by rw [hxk, ← hek]; exact List.mem_map_of_mem keyOf hes)
    have hp1 : poolErase keyOf c p = p := eraseP_key_of_not_mem keyOf hnotp
    have hslen : (poolErase keyOf c s).length = s.length - 1 := by
      unfold poolErase
      exact List.length_eraseP_of_mem hes (by simpa using hek)
    have hls : 1 ≤ s.length := List.length_pos.mpr (List.ne_nil_of_mem hes)
    have hsroom : (poolErase keyOf c s).length < maxS := by omega
    by_cases hroom : (poolErase keyOf c p).length < maxP
    · rw [insert_branch_room keyOf scoreOf maxP maxS p s c hpos hroom]
      refine ((sortByScoreDesc_perm scoreOf _).append_right _).trans ?_
      rw [← Multiset.coe_eq_coe]
      simp only [← Multiset.coe_add, ← Multiset.cons_coe, ← Multiset.singleton_add]
      simp only [Multiset.coe_nil, zero_add, add_zero, ← Multiset.coe_add, add_comm, add_left_comm, add_assoc]
    · have hpne : p ≠ [] := by
        intro h0
        rw [hp1, h0] at hroom
        simp at hroom
        omega
      have hlast : (poolErase keyOf c p).getLast? = some (p.getLast hpne) := by
        rw [hp1]; exact List.getLast?_eq_getLast p hpne
      have hdecomp : p.dropLast ++ [p.getLast hpne] = p :=
        List.dropLast_append_getLast hpne
      by_cases hlt : scoreOf (p.getLast hpne) < scoreOf c
      · rw [insert_branch_swap_room keyOf scoreOf maxP maxS p s c hpos hroom hlast hlt
          (by omega) hsroom]
        refine ((sortByScoreDesc_perm scoreOf _).append
          (sortByScoreDesc_perm scoreOf _)).trans ?_
        rw [hp1, ← Multiset.coe_eq_coe]
        conv_rhs => rw [← hdecomp]
        simp only [← Multiset.coe_add, ← Multiset.cons_coe, ← Multiset.singleton_add]
        simp only [Multiset.coe_nil, zero_add, add_zero, ← Multiset.coe_add, add_comm, add_left_comm, add_assoc]
      · rw [insert_branch_tosec_room keyOf scoreOf maxP maxS p s c hpos hroom hlast hlt
          (by omega) hsroom]
        refine (List.Perm.append_left _ (sortByScoreDesc_perm scoreOf _)).trans ?_
        rw [← Multiset.coe_eq_coe]
        simp only [← Multiset.coe_add, ← Multiset.cons_coe, ← Multiset.singleton_add]
        simp only [Multiset.coe_nil, zero_add, add_zero, ← Multiset.coe_add, add_comm, add_left_comm, add_assoc]

end PermMain

section Idem

variable {A : Type} [DecidableEq A] (keyOf : A → String) (scoreOf : A → ℚ)

theorem keysNodup_of_perm {l l' : List A} (h : l.Perm l') (hn : keysNodup keyOf l) :
    keysNodup keyOf l' := ((h.map keyOf).nodup_iff).mp hn

theorem keysNodup_eraseP {l : List A} {k : String} (hn : keysNodup keyOf l) :
    keysNodup keyOf (l.eraseP (fun y => keyOf y == k)) :=
  ((List.eraseP_sublist l).map keyOf).nodup hn

theorem keysNodup_append_left {l m : List A} (hn : keysNodup keyOf (l ++ m)) :
    keysNodup keyOf l := by
  unfold keysNodup at *
  rw [List.map_append] at hn
  exact hn.of_append_left

theorem keysNodup_append_right {l m : List A} (hn : keysNodup keyOf (l ++ m)) :
    keysNodup keyOf m := by
  unfold keysNodup at *
  rw [List.map_append] at hn
  exact hn.of_append_right

/-- Re-inserting a candidate that already sits in the primary pool (with no
key clash anywhere) permutes the primary pool and leaves the secondary
untouched. -/
theorem insert_self_primary (maxP maxS : ℕ) (P S : List A) (c : A)
    (hc : c ∈ P) (hnP : keysNodup keyOf P)
    (hkS : ∀ x ∈ S, keyOf x ≠ keyOf c)
    (hlen : P.length ≤ maxP) (hpos : ¬ scoreOf c < 0) :
    (insertIntoPools keyOf scoreOf maxP maxS P S c).1.Perm P ∧
    (insertIntoPools keyOf scoreOf maxP maxS P S c).2 = S := by
  have hle : (poolErase keyOf c P).length = P.length - 1 :=
    List.length_eraseP_of_mem hc (by simp)
  have h1 : 1 ≤ P.length := List.length_pos.mpr (List.ne_nil_of_mem hc)
  have hroom : (poolErase keyOf c P).length < maxP := by omega
  have hS : poolErase keyOf c S = S := eraseP_key_of_not_mem keyOf hkS
  rw [insert_branch_room keyOf scoreOf maxP maxS P S c hpos hroom]
  refine ⟨?_, hS⟩
  refine (sortByScoreDesc_perm scoreOf _).trans ?_
  refine (List.perm_append_singleton c _).trans ?_
  exact (perm_cons_eraseP_key keyOf hc hnP).symm

/-- Re-inserting a candidate that already sits in the secondary pool of a
full primary reproduces the original branch and permutes the secondary. -/
theorem insert_self_secondary (maxP maxS : ℕ) (P S : List A) (c : A) {lowP : A}
    (hc : c ∈ S) (hnS : keysNodup keyOf S)
    (hkP : ∀ x ∈ P, keyOf x ≠ keyOf c)
    (hfull : ¬ P.length < maxP) (hlast : P.getLast? = some lowP)
    (hlt : ¬ scoreOf lowP < scoreOf c)
    (hlen : S.length ≤ maxS) (hpos : ¬ scoreOf c < 0) :
    (insertIntoPools keyOf scoreOf maxP maxS P S c).1 = P ∧
    (insertIntoPools keyOf scoreOf maxP maxS P S c).2.Perm S := by
  have hP : poolErase keyOf c P = P := eraseP_key_of_not_mem keyOf hkP
  have hle : (poolErase keyOf c S).length = S.length - 1 :=
    List.length_eraseP_of_mem hc (by simp)
  have h1 : 1 ≤ S.length := List.length_pos.mpr (List.ne_nil_of_mem hc)
  have hms : ¬ maxS = 0 := by omega
  have hsr : (poolErase keyOf c S).length < maxS := by omega
  rw [insert_branch_tosec_room keyOf scoreOf maxP maxS P S c hpos (by rw [hP]; exact hfull)
    (by rw [hP]; exact hlast) hlt hms hsr]
  refine ⟨hP, ?_⟩
  refine (sortByScoreDesc_perm scoreOf _).trans ?_
  refine (List.perm_append_singleton c _).trans ?_
  exact (perm_cons_eraseP_key keyOf hc hnS).symm

end Idem

section IdemMain

variable {A : Type} [DecidableEq A] (keyOf : A → String) (scoreOf : A → ℚ)

theorem getLast?_mem {l : List A} {x : A} (h : l.getLast? = some x) : x ∈ l := by
  cases l with
  | nil => simp at h
  | cons a t =>
    rw [List.getLast?_eq_getLast _ (by simp)] at h
    rw [← Option.some_inj.mp h]
    exact List.getLast_mem _

/-- Claim C9 support: a second insertion of the same candidate reproduces
the pools of the first insertion up to the order of equal-score ties
(which the stable sort leaves unobservable). -/
theorem insertIntoPools_idem (maxP maxS : ℕ) (p s : List A) (c : A)
    (hnodup : keysNodup keyOf (p ++ s))
    (hp : p.length ≤ maxP) (hs : s.length ≤ maxS) (hP1 : 1 ≤ maxP) :
    ((insertIntoPools keyOf scoreOf maxP maxS
        (insertIntoPools keyOf scoreOf maxP maxS p s c).1
        (insertIntoPools keyOf scoreOf maxP maxS p s c).2 c).1.Perm
      (insertIntoPools keyOf scoreOf maxP maxS p s c).1) ∧
    ((insertIntoPools keyOf scoreOf maxP maxS
        (insertIntoPools keyOf scoreOf maxP maxS p s c).1
        (insertIntoPools keyOf scoreOf maxP maxS p s c).2 c).2.Perm
      (insertIntoPools keyOf scoreOf maxP maxS p s c).2) := by
  have hnp : keysNodup keyOf p := keysNodup_append_left keyOf hnodup
  have hns : keysNodup keyOf s := keysNodup_append_right keyOf hnodup
  have hkp1 : ∀ x ∈ poolErase keyOf c p, keyOf x ≠ keyOf c :=
    fun x hx => mem_eraseP_key_ne keyOf hnp hx
  have hks1 : ∀ x ∈ poolErase keyOf c s, keyOf x ≠ keyOf c :=
    fun x hx => mem_eraseP_key_ne keyOf hns hx
  have hnp1 : keysNodup keyOf (poolErase keyOf c p) := keysNodup_eraseP keyOf hnp
  have hns1 : keysNodup keyOf (poolErase keyOf c s) := keysNodup_eraseP keyOf hns
  have hp1le : (poolErase keyOf c p).length ≤ p.length := List.length_eraseP_le _
  have hs1le : (poolErase keyOf c s).length ≤ s.length := List.length_eraseP_le _
  have hpid : poolErase keyOf c (poolErase keyOf c p) = poolErase keyOf c p :=
    eraseP_key_of_not_mem keyOf hkp1
  have hsid : poolErase keyOf c (poolErase keyOf c s) = poolErase keyOf c s :=
    eraseP_key_of_not_mem keyOf hks1
  by_cases hneg : scoreOf c < 0
  · rw [insert_branch_neg keyOf scoreOf maxP maxS p s c hneg]
    dsimp only
    rw [insert_branch_neg keyOf scoreOf maxP maxS _ _ c hneg, hpid, hsid]
    exact ⟨List.Perm.refl _, List.Perm.refl _⟩
  · by_cases hroom : (poolErase keyOf c p).length < maxP
    · -- candidate entered the primary pool
      rw [insert_branch_room keyOf scoreOf maxP maxS p s c hneg hroom]
      dsimp only
      have hcmem : c ∈ sortByScoreDesc scoreOf (poolErase keyOf c p ++ [c]) := by
        simp [sortByScoreDesc, List.mem_mergeSort]
      have hnsort : keysNodup keyOf (sortByScoreDesc scoreOf (poolErase keyOf c p ++ [c])) := by
        refine keysNodup_of_perm keyOf (sortByScoreDesc_perm scoreOf _).symm ?_
        unfold keysNodup
        rw [List.map_append]
        simp only [List.map_cons, List.map_nil]
        rw [List.nodup_append]
        refine ⟨hnp1, by simp, ?_⟩
        intro a ha
        simp only [List.mem_singleton]
        rcases List.mem_map.mp ha with ⟨x, hx, hxa⟩
        intro hcon
        exact hkp1 x hx (by rw [hxa, hcon])
      have hlen2 : (sortByScoreDesc scoreOf (poolErase keyOf c p ++ [c])).length ≤ maxP := by
        rw [sortByScoreDesc_length]
        simp only [List.length_append, List.length_cons, List.length_nil]
        omega
      obtain ⟨h1, h2⟩ := insert_self_primary keyOf scoreOf maxP maxS _ _ c hcmem hnsort
        hks1 hlen2 hneg
      exact ⟨h1, by rw [h2]⟩
    · match hlast : (poolErase keyOf c p).getLast? with
      | none =>
        rw [insert_branch_none keyOf scoreOf maxP maxS p s c hneg hroom hlast]
        dsimp only
        rw [insert_branch_none keyOf scoreOf maxP maxS _ _ c hneg (by rw [hpid]; exact hroom)
          (by rw [hpid]; exact hlast), hpid, hsid]
        exact ⟨List.Perm.refl _, List.Perm.refl _⟩
      | some lowP =>
        have hlowmem : lowP ∈ poolErase keyOf c p := getLast?_mem hlast
        have hklow : keyOf lowP ≠ keyOf c := hkp1 _ hlowmem
        by_cases hlt : scoreOf lowP < scoreOf c
        · -- candidate replaces the primary tail
          have hmain : ∀ S2 : List A, (∀ x ∈ S2, keyOf x ≠ keyOf c) →
              (insertIntoPools keyOf scoreOf maxP maxS
                (sortByScoreDesc scoreOf ((poolErase keyOf c p).dropLast ++ [c])) S2 c).1.Perm
                (sortByScoreDesc scoreOf ((poolErase keyOf c p).dropLast ++ [c])) ∧
              (insertIntoPools keyOf scoreOf maxP maxS
                (sortByScoreDesc scoreOf ((poolErase keyOf c p).dropLast ++ [c])) S2 c).2 = S2 := by
            intro S2 hkS2
            have hsub : ∀ x ∈ (poolErase keyOf c p).dropLast, keyOf x ≠ keyOf c :=
              fun x hx => hkp1 x (List.dropLast_sublist _ |>.mem hx)
            have hcm : c ∈ sortByScoreDesc scoreOf ((poolErase keyOf c p).dropLast ++ [c]) := by
              simp [sortByScoreDesc, List.mem_mergeSort]
            have hnd2 : keysNodup keyOf
                (sortByScoreDesc scoreOf ((poolErase keyOf c p).dropLast ++ [c])) := by
              refine keysNodup_of_perm keyOf (sortByScoreDesc_perm scoreOf _).symm ?_
              unfold keysNodup
              rw [List.map_append]
              simp only [List.map_cons, List.map_nil]
              rw [List.nodup_append]
              refine ⟨((List.dropLast_sublist _).map keyOf).nodup hnp1, by simp, ?_⟩
              intro a ha
              simp only [List.mem_singleton]
              rcases List.mem_map.mp ha with ⟨x, hx, hxa⟩
              intro hcon
              exact hsub x hx (by rw [hxa, hcon])
            have hlen2 : (sortByScoreDesc scoreOf
                ((poolErase keyOf c p).dropLast ++ [c])).length ≤ maxP := by
              rw [sortByScoreDesc_length]
              simp only [List.length_append, List.length_cons, List.length_nil,
                List.length_dropLast]
              omega
            exact insert_self_primary keyOf scoreOf maxP maxS _ _ c hcm hnd2 hkS2 hlen2 hneg
          by_cases hms : 0 < maxS
          · by_cases hsr : (poolErase keyOf c s).length < maxS
            · rw [insert_branch_swap_room keyOf scoreOf maxP maxS p s c hneg hroom hlast hlt
                hms hsr]
              dsimp only
              obtain ⟨h1, h2⟩ := hmain
                (sortByScoreDesc scoreOf (poolErase keyOf c s ++ [lowP]))
                (by
                  intro x hx
                  simp only [sortByScoreDesc, List.mem_mergeSort] at hx
                  rcases List.mem_append.mp hx with h1 | h1
                  · exact hks1 x h1
                  · rw [List.mem_singleton.mp h1]; exact hklow)
              exact ⟨h1, by rw [h2]⟩
            · match hslast : (poolErase keyOf c s).getLast? with
              | none =>
                exfalso
                have := List.getLast?_eq_none_iff.mp hslast
                rw [this] at hsr
                simp at hsr
                omega
              | some lowS =>
                by_cases hlt2 : scoreOf lowS < scoreOf lowP
                · rw [insert_branch_swap_swap keyOf scoreOf maxP maxS p s c hneg hroom hlast
                    hlt hms hsr hslast hlt2]
                  dsimp only
                  obtain ⟨h1, h2⟩ := hmain
                    (sortByScoreDesc scoreOf ((poolErase keyOf c s).dropLast ++ [lowP]))
                    (by
                      intro x hx
                      simp only [sortByScoreDesc, List.mem_mergeSort] at hx
                      rcases List.mem_append.mp hx with h1 | h1
                      · exact hks1 x ((List.dropLast_sublist _).mem h1)
                      · rw [List.mem_singleton.mp h1]; exact hklow)
                  exact ⟨h1, by rw [h2]⟩
                · rw [insert_branch_swap_drop keyOf scoreOf maxP maxS p s c hneg hroom hlast
                    hlt hms hsr hslast hlt2]
                  dsimp only
                  obtain ⟨h1, h2⟩ := hmain (poolErase keyOf c s) hks1
                  exact ⟨h1, by rw [h2]⟩
          · rw [insert_branch_swap_nosec keyOf scoreOf maxP maxS p s c hneg hroom hlast hlt hms]
            dsimp only
            obtain ⟨h1, h2⟩ := hmain (poolErase keyOf c s) hks1
            exact ⟨h1, by rw [h2]⟩
        · -- candidate goes toward the secondary pool
          by_cases hms : maxS = 0
          · rw [insert_branch_tosec_nosec keyOf scoreOf maxP maxS p s c hneg hroom hlast hlt hms]
            dsimp only
            rw [insert_branch_tosec_nosec keyOf scoreOf maxP maxS _ _ c hneg
              (by rw [hpid]; exact hroom) (by rw [hpid]; exact hlast) hlt hms, hpid, hsid]
            exact ⟨List.Perm.refl _, List.Perm.refl _⟩
          · by_cases hsr : (poolErase keyOf c s).length < maxS
            · rw [insert_branch_tosec_room keyOf scoreOf maxP maxS p s c hneg hroom hlast hlt
                hms hsr]
              dsimp only
              have hcm : c ∈ sortByScoreDesc scoreOf (poolErase keyOf c s ++ [c]) := by
                simp [sortByScoreDesc, List.mem_mergeSort]
              have hnd2 : keysNodup keyOf
                  (sortByScoreDesc scoreOf (poolErase keyOf c s ++ [c])) := by
                refine keysNodup_of_perm keyOf (sortByScoreDesc_perm scoreOf _).symm ?_
                unfold keysNodup
                rw [List.map_append]
                simp only [List.map_cons, List.map_nil]
                rw [List.nodup_append]
                refine ⟨hns1, by simp, ?_⟩
                intro a ha
                simp only [List.mem_singleton]
                rcases List.mem_map.mp ha with ⟨x, hx, hxa⟩
                intro hcon
                exact hks1 x hx (by rw [hxa, hcon])
              have hlen2 : (sortByScoreDesc scoreOf
                  (poolErase keyOf c s ++ [c])).length ≤ maxS := by
                rw [sortByScoreDesc_length]
                simp only [List.length_append, List.length_cons, List.length_nil]
                omega
              obtain ⟨h1, h2⟩ := insert_self_secondary keyOf scoreOf maxP maxS
                (poolErase keyOf c p) _ c hcm hnd2 hkp1 hroom hlast hlt hlen2 hneg
              exact ⟨by rw [h1], h2⟩
            · match hslast : (poolErase keyOf c s).getLast? with
              | none =>
                exfalso
                have := List.getLast?_eq_none_iff.mp hslast
                rw [this] at hsr
                simp at hsr
                omega
              | some lowS =>
                have hlowsmem : lowS ∈ poolErase keyOf c s := getLast?_mem hslast
                by_cases hlt2 : scoreOf lowS < scoreOf c
                · rw [insert_branch_tosec_swap keyOf scoreOf maxP maxS p s c hneg hroom hlast
                    hlt hms hsr hslast hlt2]
                  dsimp only
                  have hcm : c ∈ sortByScoreDesc scoreOf
                      ((poolErase keyOf c s).dropLast ++ [c]) := by
                    simp [sortByScoreDesc, List.mem_mergeSort]
                  have hsub : ∀ x ∈ (poolErase keyOf c s).dropLast, keyOf x ≠ keyOf c :=
                    fun x hx => hks1 x (List.dropLast_sublist _ |>.mem hx)
                  have hnd2 : keysNodup keyOf
                      (sortByScoreDesc scoreOf ((poolErase keyOf c s).dropLast ++ [c])) := by
                    refine keysNodup_of_perm keyOf (sortByScoreDesc_perm scoreOf _).symm ?_
                    unfold keysNodup
                    rw [List.map_append]
                    simp only [List.map_cons, List.map_nil]
                    rw [List.nodup_append]
                    refine ⟨((List.dropLast_sublist _).map keyOf).nodup hns1, by simp, ?_⟩
                    intro a ha
                    simp only [List.mem_singleton]
                    rcases List.mem_map.mp ha with ⟨x, hx, hxa⟩
                    intro hcon
                    exact hsub x hx (by rw [hxa, hcon])
                  have hlen2 : (sortByScoreDesc scoreOf
                      ((poolErase keyOf c s).dropLast ++ [c])).length ≤ maxS := by
                    rw [sortByScoreDesc_length]
                    simp only [List.length_append, List.length_cons, List.length_nil,
                      List.length_dropLast]
                    omega
                  obtain ⟨h1, h2⟩ := insert_self_secondary keyOf scoreOf maxP maxS
                    (poolErase keyOf c p) _ c hcm hnd2 hkp1 hroom hlast hlt hlen2 hneg
                  exact ⟨by rw [h1], h2⟩
                · rw [insert_branch_tosec_drop keyOf scoreOf maxP maxS p s c hneg hroom hlast
                    hlt hms hsr hslast hlt2]
                  dsimp only
                  rw [insert_branch_tosec_drop keyOf scoreOf maxP maxS _ _ c hneg
                    (by rw [hpid]; exact hroom) (by rw [hpid]; exact hlast) hlt hms
                    (by rw [hsid]; exact hsr) (by rw [hsid]; exact hslast) hlt2, hpid, hsid]
                  exact ⟨List.Perm.refl _, List.Perm.refl _⟩

end IdemMain

end Mates



namespace Mates
section MemLemma

variable {A : Type} [DecidableEq A] (keyOf : A → String) (scoreOf : A → ℚ)

/-- Every node of the pools after `insertIntoPools` is the candidate or one
of the previous nodes. -/
theorem insertIntoPools_mem (maxP maxS : ℕ) (p s : List A) (c : A) (x : A)
    (hx : x ∈ (insertIntoPools keyOf scoreOf maxP maxS p s c).1 ++
          (insertIntoPools keyOf scoreOf maxP maxS p s c).2) :
    x = c ∨ x ∈ p ∨ x ∈ s := by
  have hps : ∀ y : A, y ∈ poolErase keyOf c p → y ∈ p :=
    fun y hy => (List.eraseP_sublist p).mem hy
  have hss : ∀ y : A, y ∈ poolErase keyOf c s → y ∈ s :=
    fun y hy => (List.eraseP_sublist s).mem hy
  have hpd : ∀ y : A, y ∈ (poolErase keyOf c p).dropLast → y ∈ p :=
    fun y hy => hps y ((List.dropLast_sublist _).mem hy)
  have hsd : ∀ y : A, y ∈ (poolErase keyOf c s).dropLast → y ∈ s :=
    fun y hy => hss y ((List.dropLast_sublist _).mem hy)
  by_cases hneg : scoreOf c < 0
  · rw [insert_branch_neg keyOf scoreOf maxP maxS p s c hneg] at hx
    rcases List.mem_append.mp hx with h | h
    · exact Or.inr (Or.inl (hps _ h))
    · exact Or.inr (Or.inr (hss _ h))
  · by_cases hroom : (poolErase keyOf c p).length < maxP
    · rw [insert_branch_room keyOf scoreOf maxP maxS p s c hneg hroom] at hx
      dsimp only at hx
      simp only [sortByScoreDesc, List.mem_append, List.mem_mergeSort,
        List.mem_singleton] at hx
      rcases hx with (h | h) | h
      · exact Or.inr (Or.inl (hps _ h))
      · exact Or.inl h
      · exact Or.inr (Or.inr (hss _ h))
    · match hlast : (poolErase keyOf c p).getLast? with
      | none =>
        rw [insert_branch_none keyOf scoreOf maxP maxS p s c hneg hroom hlast] at hx
        rcases List.mem_append.mp hx with h | h
        · exact Or.inr (Or.inl (hps _ h))
        · exact Or.inr (Or.inr (hss _ h))
      | some lowP =>
        have hlp : lowP ∈ p := hps _ (getLast?_mem hlast)
        by_cases hlt : scoreOf lowP < scoreOf c
        · by_cases hms : 0 < maxS
          · by_cases hsr : (poolErase keyOf c s).length < maxS
            · rw [insert_branch_swap_room keyOf scoreOf maxP maxS p s c hneg hroom hlast
                hlt hms hsr] at hx
              dsimp only at hx
              simp only [sortByScoreDesc, List.mem_append, List.mem_mergeSort,
                List.mem_singleton] at hx
              rcases hx with (h | h) | h | h
              · exact Or.inr (Or.inl (hpd _ h))
              · exact Or.inl h
              · exact Or.inr (Or.inr (hss _ h))
              · exact Or.inr (Or.inl (h ▸ hlp))
            · match hslast : (poolErase keyOf c s).getLast? with
              | none =>
                exfalso
                rw [List.getLast?_eq_none_iff.mp hslast] at hsr
                simp at hsr
                omega
              | some lowS =>
                by_cases hlt2 : scoreOf lowS < scoreOf lowP
                · rw [insert_branch_swap_swap keyOf scoreOf maxP maxS p s c hneg hroom hlast
                    hlt hms hsr hslast hlt2] at hx
                  dsimp only at hx
                  simp only [sortByScoreDesc, List.mem_append, List.mem_mergeSort,
                    List.mem_singleton] at hx
                  rcases hx with (h | h) | h | h
                  · exact Or.inr (Or.inl (hpd _ h))
                  · exact Or.inl h
                  · exact Or.inr (Or.inr (hsd _ h))
                  · exact Or.inr (Or.inl (h ▸ hlp))
                · rw [insert_branch_swap_drop keyOf scoreOf maxP maxS p s c hneg hroom hlast
                    hlt hms hsr hslast hlt2] at hx
                  dsimp only at hx
                  simp only [sortByScoreDesc, List.mem_append, List.mem_mergeSort,
                    List.mem_singleton] at hx
                  rcases hx with (h | h) | h
                  · exact Or.inr (Or.inl (hpd _ h))
                  · exact Or.inl h
                  · exact Or.inr (Or.inr (hss _ h))
          · rw [insert_branch_swap_nosec keyOf scoreOf maxP maxS p s c hneg hroom hlast
              hlt hms] at hx
            dsimp only at hx
            simp only [sortByScoreDesc, List.mem_append, List.mem_mergeSort,
              List.mem_singleton] at hx
            rcases hx with (h | h) | h
            · exact Or.inr (Or.inl (hpd _ h))
            · exact Or.inl h
            · exact Or.inr (Or.inr (hss _ h))
        · by_cases hms : maxS = 0
          · rw [insert_branch_tosec_nosec keyOf scoreOf maxP maxS p s c hneg hroom hlast
              hlt hms] at hx
            rcases List.mem_append.mp hx with h | h
            · exact Or.inr (Or.inl (hps _ h))
            · exact Or.inr (Or.inr (hss _ h))
          · by_cases hsr : (poolErase keyOf c s).length < maxS
            · rw [insert_branch_tosec_room keyOf scoreOf maxP maxS p s c hneg hroom hlast
                hlt hms hsr] at hx
              dsimp only at hx
              simp only [sortByScoreDesc, List.mem_append, List.mem_mergeSort,
                List.mem_singleton] at hx
              rcases hx with h | h | h
              · exact Or.inr (Or.inl (hps _ h))
              · exact Or.inr (Or.inr (hss _ h))
              · exact Or.inl h
            · match hslast : (poolErase keyOf c s).getLast? with
              | none =>
                exfalso
                rw [List.getLast?_eq_none_iff.mp hslast] at hsr
                simp at hsr
                omega
              | some lowS =>
                by_cases hlt2 : scoreOf lowS < scoreOf c
                · rw [insert_branch_tosec_swap keyOf scoreOf maxP maxS p s c hneg hroom hlast
                    hlt hms hsr hslast hlt2] at hx
                  dsimp only at hx
                  simp only [sortByScoreDesc, List.mem_append, List.mem_mergeSort,
                    List.mem_singleton] at hx
                  rcases hx with h | h | h
                  · exact Or.inr (Or.inl (hps _ h))
                  · exact Or.inr (Or.inr (hsd _ h))
                  · exact Or.inl h
                · rw [insert_branch_tosec_drop keyOf scoreOf maxP maxS p s c hneg hroom hlast
                    hlt hms hsr hslast hlt2] at hx
                  rcases List.mem_append.mp hx with h | h
                  · exact Or.inr (Or.inl (hps _ h))
                  · exact Or.inr (Or.inr (hss _ h))

end MemLemma
end Mates



namespace Mates

/-- `scoreCreatorDB` keeps the top/rising creator pools within their caps. -/
theorem scoreCreatorDB_caps (P : MathPrims) (now : ℤ) (u : UserState) (cid : String)
    (e : ℚ) (h : CreatorCapsOK u) : CreatorCapsOK (scoreCreatorDB P now u cid e) := by
  obtain ⟨h1, h2⟩ := h
  have hlen := insertIntoPools_length CreatorNode.creatorId CreatorNode.score
    TOP_CREATOR_MAX RISING_CREATOR_MAX u.creatorsInterests.topCreators
    u.creatorsInterests.risingCreators
    ((findOrInitNode CreatorNode.creatorId u.creatorsInterests.topCreators
        u.creatorsInterests.risingCreators cid
        { creatorId := cid, score := 0, lastUpdated := now, skips := 0,
          lastSkipAt := now }).updateNodeScore P now e) h1 h2
  unfold scoreCreatorDB
  dsimp only
  repeat' split
  all_goals first
    | exact ⟨h1, h2⟩
    | exact hlen

/-- `skipCreatorDB` keeps the top/rising creator pools within their caps. -/
theorem skipCreatorDB_caps (P : MathPrims) (now : ℤ) (u : UserState) (cid : String)
    (h : CreatorCapsOK u) : CreatorCapsOK (skipCreatorDB P now u cid) := by
  obtain ⟨h1, h2⟩ := h
  have hlen := insertIntoPools_length CreatorNode.creatorId CreatorNode.score
    TOP_CREATOR_MAX RISING_CREATOR_MAX u.creatorsInterests.topCreators
    u.creatorsInterests.risingCreators
    ({ (findOrInitNode CreatorNode.creatorId u.creatorsInterests.topCreators
          u.creatorsInterests.risingCreators cid
          { creatorId := cid, score := 0, lastUpdated := now, skips := 0,
            lastSkipAt := now }) with
        skips := jsSkipsIncrement (findOrInitNode CreatorNode.creatorId
          u.creatorsInterests.topCreators u.creatorsInterests.risingCreators cid
          { creatorId := cid, score := 0, lastUpdated := now, skips := 0,
            lastSkipAt := now }).skips,
        lastSkipAt := now }.updateNodeScore P now SKIP_WEIGHT) h1 h2
  have hf1 : (u.creatorsInterests.topCreators.filter
      (fun c => decide (c.creatorId ≠ cid))).length ≤ TOP_CREATOR_MAX :=
    le_trans (List.length_filter_le _ _) h1
  have hf2 : (u.creatorsInterests.risingCreators.filter
      (fun c => decide (c.creatorId ≠ cid))).length ≤ RISING_CREATOR_MAX :=
    le_trans (List.length_filter_le _ _) h2
  unfold skipCreatorDB
  dsimp only
  repeat' split
  all_goals first
    | exact ⟨h1, h2⟩
    | exact ⟨hf1, hf2⟩
    | exact hlen

/-! ### Cap preservation along the interest service (for the pool-cap claim) -/

theorem mem_replaceCatByName {l : List CatNode} {n : String} {node x : CatNode}
    (hx : x ∈ replaceCatByName l n node) : x = node ∨ x ∈ l := by
  unfold replaceCatByName at hx
  obtain ⟨y, hy, hxy⟩ := List.mem_map.1 hx
  by_cases hn : y.name = n
  · rw [if_pos hn] at hxy
    exact Or.inl hxy.symm
  · rw [if_neg hn] at hxy
    exact Or.inr (hxy ▸ hy)

theorem mem_replaceSubByName {l : List SubNode} {n : String} {node x : SubNode}
    (hx : x ∈ replaceSubByName l n node) : x = node ∨ x ∈ l := by
  unfold replaceSubByName at hx
  obtain ⟨y, hy, hxy⟩ := List.mem_map.1 hx
  by_cases hn : y.name = n
  · rw [if_pos hn] at hxy
    exact Or.inl hxy.symm
  · rw [if_neg hn] at hxy
    exact Or.inr (hxy ▸ hy)

theorem length_replaceCatByName (l : List CatNode) (n : String) (node : CatNode) :
    (replaceCatByName l n node).length = l.length := by
  simp [replaceCatByName]

theorem length_replaceSubByName (l : List SubNode) (n : String) (node : SubNode) :
    (replaceSubByName l n node).length = l.length := by
  simp [replaceSubByName]

theorem CatCapsOK_updateNodeScore {c : CatNode} (P : MathPrims) (now : ℤ) (q : ℚ)
    (h : CatCapsOK c) : CatCapsOK (CatNode.updateNodeScore P now c q) := h

theorem SubCapsOK_updateNodeScore {c : SubNode} (P : MathPrims) (now : ℤ) (q : ℚ)
    (h : SubCapsOK c) : SubCapsOK (SubNode.updateNodeScore P now c q) := h

theorem CatCapsOK_findOrInitNode (l1 l2 : List CatNode) (id : String) (d : CatNode)
    (hC : ∀ c ∈ l1 ++ l2, CatCapsOK c) (hd : CatCapsOK d) :
    CatCapsOK (findOrInitNode CatNode.name l1 l2 id d) := by
  unfold findOrInitNode
  cases h1 : l1.find? (fun x => CatNode.name x == id) with
  | some n => exact hC n (List.mem_append_left _ (List.mem_of_find?_eq_some h1))
  | none =>
    cases h2 : l2.find? (fun x => CatNode.name x == id) with
    | some n => exact hC n (List.mem_append_right _ (List.mem_of_find?_eq_some h2))
    | none => exact hd

theorem SubCapsOK_findOrInitNode (l1 l2 : List SubNode) (id : String) (d : SubNode)
    (hC : ∀ c ∈ l1 ++ l2, SubCapsOK c) (hd : SubCapsOK d) :
    SubCapsOK (findOrInitNode SubNode.name l1 l2 id d) := by
  unfold findOrInitNode
  cases h1 : l1.find? (fun x => SubNode.name x == id) with
  | some n => exact hC n (List.mem_append_left _ (List.mem_of_find?_eq_some h1))
  | none =>
    cases h2 : l2.find? (fun x => SubNode.name x == id) with
    | some n => exact hC n (List.mem_append_right _ (List.mem_of_find?_eq_some h2))
    | none => exact hd

theorem orElse_find?_eq_some {A : Type} {l1 l2 : List A} {p : A → Bool} {x : A}
    (h : ((l1.find? p).orElse fun _ => l2.find? p) = some x) : x ∈ l1 ∨ x ∈ l2 := by
  cases h1 : l1.find? p with
  | some y =>
    rw [h1] at h
    exact Or.inl ((Option.some.inj h) ▸ List.mem_of_find?_eq_some h1)
  | none =>
    rw [h1] at h
    exact Or.inr (List.mem_of_find?_eq_some h)

theorem scoreSpecificStep_caps (P : MathPrims) (now : ℤ) (specN : String) (e : ℚ)
    {sub : SubNode} (h : SubCapsOK sub) : SubCapsOK (scoreSpecificStep P now specN e sub) := by
  unfold scoreSpecificStep SubCapsOK at *
  dsimp only
  exact (insertIntoPools_length SpecNode.name SpecNode.score SPECIFIC_MAX 0
    sub.specific [] _ h (by simp)).1

theorem skipSpecificStep_caps (P : MathPrims) (now : ℤ) (specN : String)
    {sub : SubNode} (h : SubCapsOK sub) : SubCapsOK (skipSpecificStep P now specN sub) := by
  unfold skipSpecificStep
  dsimp only
  cases hf : sub.specific.find? (fun x => x.name == specN) with
  | none => exact h
  | some spec =>
    dsimp only
    unfold SubCapsOK
    by_cases hsc : (SpecNode.updateNodeScore P now spec SKIP_WEIGHT).score ≤ 0
    · rw [if_pos hsc]
      exact le_trans (List.length_filter_le _ _) h
    · rw [if_neg hsc]
      exact (insertIntoPools_length SpecNode.name SpecNode.score SPECIFIC_MAX 0
        sub.specific [] _ h (by simp)).1

theorem iterCreatorOps_caps (P : MathPrims) (ops : List CreatorOp) (u : UserState)
    (h : CreatorCapsOK u) : CreatorCapsOK (iterCreatorOps P ops u) := by
  induction ops generalizing u with
  | nil => exact h
  | cons op rest ih =>
    have h1 : CreatorCapsOK (applyCreatorOp P u op) := by
      cases op with
      | score now cid e => exact scoreCreatorDB_caps P now u cid e h
      | skip now cid => exact skipCreatorDB_caps P now u cid h
    exact ih (applyCreatorOp P u op) h1

/-- `scoreInterestRedis` keeps every stored session blob within the pool caps. -/
theorem scoreInterestRedis_sessionsCaps (P : MathPrims) (now : ℤ)
    (userId sessionId categoryName : String) (subName specificName : Option String)
    (e : ℚ) (st : InterestRedisState) (h : SessionsCapsOK st) :
    SessionsCapsOK (scoreInterestRedis P now userId sessionId categoryName
      subName specificName e st) := by
  unfold scoreInterestRedis
  cases hsd : getSessionData st sessionId with
  | none => exact h
  | some sessionData =>
    obtain ⟨hT, hR, hC⟩ := h sessionId sessionData hsd
    have hcat : ∀ q : ℚ, CatCapsOK (CatNode.updateNodeScore P now
        (findOrInitNode CatNode.name sessionData.topCategories
          sessionData.risingCategories categoryName
          { name := categoryName, score := 0, lastUpdated := now,
            topSubs := [], risingSubs := [] }) q) := by
      intro q
      exact CatCapsOK_updateNodeScore P now q
        (CatCapsOK_findOrInitNode _ _ _ _ hC ⟨by simp [TOP_SUB_MAX], by simp [RISING_SUB_MAX], by simp⟩)
    have hpool : ∀ cnode : CatNode, CatCapsOK cnode → ∀ x : CatNode,
        x ∈ (insertIntoPools CatNode.name CatNode.score TOP_CAT_MAX RISING_CAT_MAX
              sessionData.topCategories sessionData.risingCategories cnode).1 ++
            (insertIntoPools CatNode.name CatNode.score TOP_CAT_MAX RISING_CAT_MAX
              sessionData.topCategories sessionData.risingCategories cnode).2 →
        CatCapsOK x := by
      intro cnode hcnode x hx
      rcases insertIntoPools_mem CatNode.name CatNode.score _ _ _ _ _ x hx with rfl | hm | hm
      · exact hcnode
      · exact hC x (List.mem_append_left _ hm)
      · exact hC x (List.mem_append_right _ hm)
    have hplen : ∀ cnode : CatNode,
        (insertIntoPools CatNode.name CatNode.score TOP_CAT_MAX RISING_CAT_MAX
          sessionData.topCategories sessionData.risingCategories cnode).1.length ≤
            TOP_CAT_MAX ∧
        (insertIntoPools CatNode.name CatNode.score TOP_CAT_MAX RISING_CAT_MAX
          sessionData.topCategories sessionData.risingCategories cnode).2.length ≤
            RISING_CAT_MAX :=
      fun cnode => insertIntoPools_length CatNode.name CatNode.score _ _ _ _ cnode hT hR
    intro sid' b hb
    dsimp only at hb
    split at hb
    case _ subN ucat heq1 =>
      obtain ⟨huT, huR, huC⟩ : CatCapsOK ucat := by
        rcases orElse_find?_eq_some heq1 with hm | hm
        · exact hpool _ (hcat _) ucat (List.mem_append_left _ hm)
        · exact hpool _ (hcat _) ucat (List.mem_append_right _ hm)
      have hsubcat : ∀ q : ℚ, SubCapsOK (SubNode.updateNodeScore P now
          (findOrInitNode SubNode.name ucat.topSubs ucat.risingSubs subN
            { name := subN, score := 0, lastUpdated := now, specific := [] }) q) := by
        intro q
        exact SubCapsOK_updateNodeScore P now q
          (SubCapsOK_findOrInitNode _ _ _ _ huC (by simp [SubCapsOK]))
      have hsubpool : ∀ snode : SubNode, SubCapsOK snode → ∀ x : SubNode,
          x ∈ (insertIntoPools SubNode.name SubNode.score TOP_SUB_MAX RISING_SUB_MAX
                ucat.topSubs ucat.risingSubs snode).1 ++
              (insertIntoPools SubNode.name SubNode.score TOP_SUB_MAX RISING_SUB_MAX
                ucat.topSubs ucat.risingSubs snode).2 →
          SubCapsOK x := by
        intro snode hsnode x hx
        rcases insertIntoPools_mem SubNode.name SubNode.score _ _ _ _ _ x hx with rfl | hm | hm
        · exact hsnode
        · exact huC x (List.mem_append_left _ hm)
        · exact huC x (List.mem_append_right _ hm)
      have hslen : ∀ snode : SubNode,
          (insertIntoPools SubNode.name SubNode.score TOP_SUB_MAX RISING_SUB_MAX
            ucat.topSubs ucat.risingSubs snode).1.length ≤ TOP_SUB_MAX ∧
          (insertIntoPools SubNode.name SubNode.score TOP_SUB_MAX RISING_SUB_MAX
            ucat.topSubs ucat.risingSubs snode).2.length ≤ RISING_SUB_MAX :=
        fun snode => insertIntoPools_length SubNode.name SubNode.score _ _ _ _ snode huT huR
      split at hb
      case _ specN usub heq2 =>
        have husub : SubCapsOK usub := by
          rcases orElse_find?_eq_some heq2 with hm | hm
          · exact hsubpool _ (hsubcat _) usub (List.mem_append_left _ hm)
          · exact hsubpool _ (hsubcat _) usub (List.mem_append_right _ hm)
        have husub2 : SubCapsOK (scoreSpecificStep P now specN e usub) :=
          scoreSpecificStep_caps P now specN e husub
        simp only [refreshUserSession, setSessionData, setGlobalStats, setUserStats] at hb
        by_cases hks : sid' = sessionId
        · rw [if_pos hks] at hb
          obtain rfl := Option.some.inj hb
          refine ⟨?_, ?_, ?_⟩
          · rw [length_replaceCatByName]
            exact (hplen _).1
          · rw [length_replaceCatByName]
            exact (hplen _).2
          · intro cat hcm
            rcases List.mem_append.1 hcm with hm | hm <;>
              rcases mem_replaceCatByName hm with rfl | hm2
            · refine ⟨?_, ?_, ?_⟩
              · rw [length_replaceSubByName]
                exact (hslen _).1
              · rw [length_replaceSubByName]
                exact (hslen _).2
              · intro sub hsm
                rcases List.mem_append.1 hsm with hm3 | hm3 <;>
                  rcases mem_replaceSubByName hm3 with rfl | hm4
                · exact husub2
                · exact hsubpool _ (hsubcat _) _ (List.mem_append_left _ hm4)
                · exact husub2
                · exact hsubpool _ (hsubcat _) _ (List.mem_append_right _ hm4)
            · exact hpool _ (hcat _) _ (List.mem_append_left _ hm2)
            · refine ⟨?_, ?_, ?_⟩
              · rw [length_replaceSubByName]
                exact (hslen _).1
              · rw [length_replaceSubByName]
                exact (hslen _).2
              · intro sub hsm
                rcases List.mem_append.1 hsm with hm3 | hm3 <;>
                  rcases mem_replaceSubByName hm3 with rfl | hm4
                · exact husub2
                · exact hsubpool _ (hsubcat _) _ (List.mem_append_left _ hm4)
                · exact husub2
                · exact hsubpool _ (hsubcat _) _ (List.mem_append_right _ hm4)
            · exact hpool _ (hcat _) _ (List.mem_append_right _ hm2)
        · rw [if_neg hks] at hb
          exact h sid' b hb
      all_goals
        simp only [refreshUserSession, setSessionData, setGlobalStats, setUserStats] at hb
      all_goals
        by_cases hks : sid' = sessionId
      case pos =>
        rw [if_pos hks] at hb
        obtain rfl := Option.some.inj hb
        refine ⟨?_, ?_, ?_⟩
        · rw [length_replaceCatByName]
          exact (hplen _).1
        · rw [length_replaceCatByName]
          exact (hplen _).2
        · intro cat hcm
          rcases List.mem_append.1 hcm with hm | hm <;>
            rcases mem_replaceCatByName hm with rfl | hm2
          · exact ⟨(hslen _).1, (hslen _).2, fun sub hsm => hsubpool _ (hsubcat _) _ hsm⟩
          · exact hpool _ (hcat _) _ (List.mem_append_left _ hm2)
          · exact ⟨(hslen _).1, (hslen _).2, fun sub hsm => hsubpool _ (hsubcat _) _ hsm⟩
          · exact hpool _ (hcat _) _ (List.mem_append_right _ hm2)
      case neg =>
        rw [if_neg hks] at hb
        exact h sid' b hb
    all_goals
      simp only [refreshUserSession, setSessionData, setGlobalStats, setUserStats] at hb
    all_goals
      by_cases hks : sid' = sessionId
    all_goals first
      | (rw [if_neg hks] at hb
         exact h sid' b hb)
      | (rw [if_pos hks] at hb
         obtain rfl := Option.some.inj hb
         exact ⟨(hplen _).1, (hplen _).2, fun cat hcm => hpool _ (hcat _) _ hcm⟩)

/-- `skipInterestRedis` keeps every stored session blob within the pool caps. -/
theorem skipInterestRedis_sessionsCaps (P : MathPrims) (now : ℤ)
    (userId sessionId categoryName : String) (subCategoryName specificName : Option String)
    (st : InterestRedisState) (h : SessionsCapsOK st) :
    SessionsCapsOK (skipInterestRedis P now userId sessionId categoryName
      subCategoryName specificName st) := by
  unfold skipInterestRedis
  cases hsd : getSessionData st sessionId with
  | none => exact h
  | some sessionData =>
    obtain ⟨hT, hR, hC⟩ := h sessionId sessionData hsd
    have hcat : ∀ q : ℚ, CatCapsOK (CatNode.updateNodeScore P now
        (findOrInitNode CatNode.name sessionData.topCategories
          sessionData.risingCategories categoryName
          { name := categoryName, score := 0, lastUpdated := now,
            topSubs := [], risingSubs := [] }) q) := by
      intro q
      exact CatCapsOK_updateNodeScore P now q
        (CatCapsOK_findOrInitNode _ _ _ _ hC ⟨by simp [TOP_SUB_MAX], by simp [RISING_SUB_MAX], by simp⟩)
    have hpool : ∀ cnode : CatNode, CatCapsOK cnode → ∀ x : CatNode,
        x ∈ (insertIntoPools CatNode.name CatNode.score TOP_CAT_MAX RISING_CAT_MAX
              sessionData.topCategories sessionData.risingCategories cnode).1 ++
            (insertIntoPools CatNode.name CatNode.score TOP_CAT_MAX RISING_CAT_MAX
              sessionData.topCategories sessionData.risingCategories cnode).2 →
        CatCapsOK x := by
      intro cnode hcnode x hx
      rcases insertIntoPools_mem CatNode.name CatNode.score _ _ _ _ _ x hx with rfl | hm | hm
      · exact hcnode
      · exact hC x (List.mem_append_left _ hm)
      · exact hC x (List.mem_append_right _ hm)
    have hplen : ∀ cnode : CatNode,
        (insertIntoPools CatNode.name CatNode.score TOP_CAT_MAX RISING_CAT_MAX
          sessionData.topCategories sessionData.risingCategories cnode).1.length ≤
            TOP_CAT_MAX ∧
        (insertIntoPools CatNode.name CatNode.score TOP_CAT_MAX RISING_CAT_MAX
          sessionData.topCategories sessionData.risingCategories cnode).2.length ≤
            RISING_CAT_MAX :=
      fun cnode => insertIntoPools_length CatNode.name CatNode.score _ _ _ _ cnode hT hR
    intro sid' b hb
    dsimp only at hb
    split at hb
    · exact h sid' b hb
    · split at hb
      · -- category dropped: both pools filtered
        simp only [refreshUserSession, setSessionData] at hb
        by_cases hks : sid' = sessionId
        · rw [if_pos hks] at hb
          obtain rfl := Option.some.inj hb
          refine ⟨?_, ?_, ?_⟩
          · exact le_trans (List.length_filter_le _ _) hT
          · exact le_trans (List.length_filter_le _ _) hR
          · intro cat hcm
            rcases List.mem_append.1 hcm with hm | hm
            · exact hC _ (List.mem_append_left _ (List.mem_of_mem_filter hm))
            · exact hC _ (List.mem_append_right _ (List.mem_of_mem_filter hm))
        · rw [if_neg hks] at hb
          exact h sid' b hb
      · split at hb
        case _ ucat subN heq1 =>
          obtain ⟨huT, huR, huC⟩ : CatCapsOK ucat := by
            rcases orElse_find?_eq_some heq1 with hm | hm
            · exact hpool _ (hcat _) ucat (List.mem_append_left _ hm)
            · exact hpool _ (hcat _) ucat (List.mem_append_right _ hm)
          have hsubcat : ∀ q : ℚ, SubCapsOK (SubNode.updateNodeScore P now
              (findOrInitNode SubNode.name ucat.topSubs ucat.risingSubs subN
                { name := subN, score := 0, lastUpdated := now, specific := [] }) q) := by
            intro q
            exact SubCapsOK_updateNodeScore P now q
              (SubCapsOK_findOrInitNode _ _ _ _ huC (by simp [SubCapsOK]))
          have hsubpool : ∀ snode : SubNode, SubCapsOK snode → ∀ x : SubNode,
              x ∈ (insertIntoPools SubNode.name SubNode.score TOP_SUB_MAX RISING_SUB_MAX
                    ucat.topSubs ucat.risingSubs snode).1 ++
                  (insertIntoPools SubNode.name SubNode.score TOP_SUB_MAX RISING_SUB_MAX
                    ucat.topSubs ucat.risingSubs snode).2 →
              SubCapsOK x := by
            intro snode hsnode x hx
            rcases insertIntoPools_mem SubNode.name SubNode.score _ _ _ _ _ x hx with rfl | hm | hm
            · exact hsnode
            · exact huC x (List.mem_append_left _ hm)
            · exact huC x (List.mem_append_right _ hm)
          have hslen : ∀ snode : SubNode,
              (insertIntoPools SubNode.name SubNode.score TOP_SUB_MAX RISING_SUB_MAX
                ucat.topSubs ucat.risingSubs snode).1.length ≤ TOP_SUB_MAX ∧
              (insertIntoPools SubNode.name SubNode.score TOP_SUB_MAX RISING_SUB_MAX
                ucat.topSubs ucat.risingSubs snode).2.length ≤ RISING_SUB_MAX :=
            fun snode => insertIntoPools_length SubNode.name SubNode.score _ _ _ _ snode huT huR
          split at hb
          · -- subcategory dropped: sub pools filtered inside the category node
            simp only [refreshUserSession, setSessionData] at hb
            by_cases hks : sid' = sessionId
            · rw [if_pos hks] at hb
              obtain rfl := Option.some.inj hb
              refine ⟨?_, ?_, ?_⟩
              · rw [length_replaceCatByName]
                exact (hplen _).1
              · rw [length_replaceCatByName]
                exact (hplen _).2
              · intro cat hcm
                rcases List.mem_append.1 hcm with hm | hm <;>
                  rcases mem_replaceCatByName hm with rfl | hm2
                · refine ⟨le_trans (List.length_filter_le _ _) huT,
                    le_trans (List.length_filter_le _ _) huR, ?_⟩
                  intro sub hsm
                  rcases List.mem_append.1 hsm with hm3 | hm3
                  · exact huC _ (List.mem_append_left _ (List.mem_of_mem_filter hm3))
                  · exact huC _ (List.mem_append_right _ (List.mem_of_mem_filter hm3))
                · exact hpool _ (hcat _) _ (List.mem_append_left _ hm2)
                · refine ⟨le_trans (List.length_filter_le _ _) huT,
                    le_trans (List.length_filter_le _ _) huR, ?_⟩
                  intro sub hsm
                  rcases List.mem_append.1 hsm with hm3 | hm3
                  · exact huC _ (List.mem_append_left _ (List.mem_of_mem_filter hm3))
                  · exact huC _ (List.mem_append_right _ (List.mem_of_mem_filter hm3))
                · exact hpool _ (hcat _) _ (List.mem_append_right _ hm2)
            · rw [if_neg hks] at hb
              exact h sid' b hb
          · split at hb
            case _ usub specN heq2 =>
              have husub : SubCapsOK usub := by
                rcases orElse_find?_eq_some heq2 with hm | hm
                · exact hsubpool _ (hsubcat _) usub (List.mem_append_left _ hm)
                · exact hsubpool _ (hsubcat _) usub (List.mem_append_right _ hm)
              have husub2 : SubCapsOK (skipSpecificStep P now specN usub) :=
                skipSpecificStep_caps P now specN husub
              simp only [refreshUserSession, setSessionData] at hb
              by_cases hks : sid' = sessionId
              · rw [if_pos hks] at hb
                obtain rfl := Option.some.inj hb
                refine ⟨?_, ?_, ?_⟩
                · rw [length_replaceCatByName]
                  exact (hplen _).1
                · rw [length_replaceCatByName]
                  exact (hplen _).2
                · intro cat hcm
                  rcases List.mem_append.1 hcm with hm | hm <;>
                    rcases mem_replaceCatByName hm with rfl | hm2
                  · refine ⟨?_, ?_, ?_⟩
                    · rw [length_replaceSubByName]
                      exact (hslen _).1
                    · rw [length_replaceSubByName]
                      exact (hslen _).2
                    · intro sub hsm
                      rcases List.mem_append.1 hsm with hm3 | hm3 <;>
                        rcases mem_replaceSubByName hm3 with rfl | hm4
                      · exact husub2
                      · exact hsubpool _ (hsubcat _) _ (List.mem_append_left _ hm4)
                      · exact husub2
                      · exact hsubpool _ (hsubcat _) _ (List.mem_append_right _ hm4)
                  · exact hpool _ (hcat _) _ (List.mem_append_left _ hm2)
                  · refine ⟨?_, ?_, ?_⟩
                    · rw [length_replaceSubByName]
                      exact (hslen _).1
                    · rw [length_replaceSubByName]
                      exact (hslen _).2
                    · intro sub hsm
                      rcases List.mem_append.1 hsm with hm3 | hm3 <;>
                        rcases mem_replaceSubByName hm3 with rfl | hm4
                      · exact husub2
                      · exact hsubpool _ (hsubcat _) _ (List.mem_append_left _ hm4)
                      · exact husub2
                      · exact hsubpool _ (hsubcat _) _ (List.mem_append_right _ hm4)
                  · exact hpool _ (hcat _) _ (List.mem_append_right _ hm2)
              · rw [if_neg hks] at hb
                exact h sid' b hb
            all_goals
              simp only [refreshUserSession, setSessionData] at hb
            all_goals
              by_cases hks : sid' = sessionId
            case pos =>
              rw [if_pos hks] at hb
              obtain rfl := Option.some.inj hb
              refine ⟨?_, ?_, ?_⟩
              · rw [length_replaceCatByName]
                exact (hplen _).1
              · rw [length_replaceCatByName]
                exact (hplen _).2
              · intro cat hcm
                rcases List.mem_append.1 hcm with hm | hm <;>
                  rcases mem_replaceCatByName hm with rfl | hm2
                · exact ⟨(hslen _).1, (hslen _).2, fun sub hsm => hsubpool _ (hsubcat _) _ hsm⟩
                · exact hpool _ (hcat _) _ (List.mem_append_left _ hm2)
                · exact ⟨(hslen _).1, (hslen _).2, fun sub hsm => hsubpool _ (hsubcat _) _ hsm⟩
                · exact hpool _ (hcat _) _ (List.mem_append_right _ hm2)
            case neg =>
              rw [if_neg hks] at hb
              exact h sid' b hb
        all_goals
          simp only [refreshUserSession, setSessionData] at hb
        all_goals
          by_cases hks : sid' = sessionId
        all_goals first
          | (rw [if_neg hks] at hb
             exact h sid' b hb)
          | (rw [if_pos hks] at hb
             obtain rfl := Option.some.inj hb
             exact ⟨(hplen _).1, (hplen _).2, fun cat hcm => hpool _ (hcat _) _ hcm⟩)

/-- Any sequence of session-variant interest calls keeps every stored blob
within the pool caps. -/
theorem iterInterestOps_caps (P : MathPrims) (ops : List InterestOp)
    (st : InterestRedisState) (h : SessionsCapsOK st) :
    SessionsCapsOK (iterInterestOps P ops st) := by
  induction ops generalizing st with
  | nil => exact h
  | cons op rest ih =>
    have h1 : SessionsCapsOK (applyInterestOp P st op) := by
      cases op with
      | score now userId sessionId categoryName subName specificName e =>
        exact scoreInterestRedis_sessionsCaps P now userId sessionId categoryName
          subName specificName e st h
      | skip now userId sessionId categoryName subName specificName =>
        exact skipInterestRedis_sessionsCaps P now userId sessionId categoryName
          subName specificName st h
    exact ih (applyInterestOp P st op) h1

section NegOverflow

variable {A : Type} [DecidableEq A] (keyOf : A → String) (scoreOf : A → ℚ)

/-- A candidate with negative score lands in neither pool. -/
theorem insertIntoPools_negative (maxP maxS : ℕ) (p s : List A) (c : A)
    (hp : keysNodup keyOf p) (hs : keysNodup keyOf s) (hneg : scoreOf c < 0) :
    (∀ x ∈ (insertIntoPools keyOf scoreOf maxP maxS p s c).1, keyOf x ≠ keyOf c) ∧
    (∀ x ∈ (insertIntoPools keyOf scoreOf maxP maxS p s c).2, keyOf x ≠ keyOf c) := by
  unfold insertIntoPools removeExistingCandidate
  dsimp only
  rw [if_pos hneg]
  exact ⟨fun x hx => mem_eraseP_key_ne keyOf hp hx,
         fun x hx => mem_eraseP_key_ne keyOf hs hx⟩

/-- In a descending-sorted list the last element has minimal score. -/
theorem getLast?_min_of_pairwise {l : List A} {m : A}
    (hl : l.Pairwise (fun a b => scoreOf b ≤ scoreOf a)) (hm : l.getLast? = some m) :
    ∀ x ∈ l, scoreOf m ≤ scoreOf x := by
  induction l with
  | nil => simp at hm
  | cons a t ih =>
    intro x hx
    cases t with
    | nil =>
      simp at hm hx
      subst hm
      subst hx
      exact le_refl _
    | cons b t2 =>
      have hm' : (b :: t2).getLast? = some m := hm
      have hpair := List.pairwise_cons.1 hl
      rcases List.mem_cons.1 hx with rfl | hx2
      · exact hpair.1 m (getLast?_mem hm')
      · exact ih hpair.2 hm' x hx2

/-- Overflow discipline: inserting a fresh nonnegative candidate into a full
primary pool evicts exactly the lowest-scored entry of the pool-plus-candidate
from the primary pool (swap-with-tail then demote or drop); the rest survive. -/
theorem insertIntoPools_overflow (maxP maxS : ℕ) (p s : List A) (c : A)
    (hk : ∀ x ∈ p, keyOf x ≠ keyOf c) (hnodup : keysNodup keyOf p)
    (hfull : p.length = maxP) (hmax : 1 ≤ maxP) (hnn : 0 ≤ scoreOf c)
    (hsorted : p.Pairwise (fun a b => scoreOf b ≤ scoreOf a)) :
    ∃ d, d ∈ p ++ [c] ∧ (∀ x ∈ p ++ [c], scoreOf d ≤ scoreOf x) ∧
      d ∉ (insertIntoPools keyOf scoreOf maxP maxS p s c).1 ∧
      ((insertIntoPools keyOf scoreOf maxP maxS p s c).1).Perm ((p ++ [c]).erase d) := by
  have hne : p ≠ [] := by
    intro hceq
    rw [hceq] at hfull
    simp at hfull
    omega
  have hcp : c ∉ p := fun hcp => hk c hcp rfl
  have hnodup' : p.Nodup := List.Nodup.of_map _ hnodup
  have hp1 : removeExistingCandidate keyOf p (keyOf c) = p :=
    eraseP_key_of_not_mem keyOf hk
  obtain ⟨d, hlasteq⟩ : ∃ d, p.getLast? = some d :=
    ⟨p.getLast hne, List.getLast?_eq_getLast p hne⟩
  have hlastmem : d ∈ p := getLast?_mem hlasteq
  have hmin : ∀ x ∈ p, scoreOf d ≤ scoreOf x :=
    getLast?_min_of_pairwise scoreOf hsorted hlasteq
  have hnotfull : ¬ p.length < maxP := by omega
  have hgl : p.getLast hne = d := by
    rw [List.getLast?_eq_getLast p hne] at hlasteq
    exact Option.some.inj hlasteq
  have hdrop : p.dropLast ++ [d] = p := by
    rw [← hgl]
    exact List.dropLast_append_getLast hne
  have hlastdrop : d ∉ p.dropLast := by
    intro hmem
    have h2 := hnodup'
    rw [← hdrop] at h2
    rcases (List.nodup_append.1 h2) with ⟨_, _, hdisj⟩
    exact hdisj hmem (List.mem_singleton.2 rfl)
  unfold insertIntoPools
  dsimp only
  rw [hp1, if_neg (not_lt.2 hnn), if_neg hnotfull, hlasteq]
  dsimp only
  by_cases hbeat : scoreOf d < scoreOf c
  · rw [if_pos hbeat]
    have hmem2 : d ∈ p ++ [c] := List.mem_append_left _ hlastmem
    have hmin2 : ∀ x ∈ p ++ [c], scoreOf d ≤ scoreOf x := by
      intro x hx
      rcases List.mem_append.1 hx with hx | hx
      · exact hmin x hx
      · rw [List.mem_singleton.1 hx]
        exact le_of_lt hbeat
    have herase : (p ++ [c]).erase d = p.dropLast ++ [c] := by
      conv_lhs => rw [← hdrop]
      rw [List.append_assoc, List.erase_append_right _ hlastdrop]
      simp [List.erase_cons_head]
    have hperm : (sortByScoreDesc scoreOf (p.dropLast ++ [c])).Perm
        ((p ++ [c]).erase d) := by
      rw [herase]
      exact sortByScoreDesc_perm scoreOf _
    have hnotm : d ∉ sortByScoreDesc scoreOf (p.dropLast ++ [c]) := by
      intro hmem3
      have := hperm.mem_iff.1 hmem3
      rw [herase] at this
      rcases List.mem_append.1 this with hx | hx
      · exact hlastdrop hx
      · exact hk _ hlastmem (by rw [List.mem_singleton.1 hx])
    repeat' split
    all_goals exact ⟨d, hmem2, hmin2, hnotm, hperm⟩
  · rw [if_neg hbeat]
    have hmem2 : c ∈ p ++ [c] := List.mem_append_right _ (List.mem_singleton.2 rfl)
    have hmin2 : ∀ x ∈ p ++ [c], scoreOf c ≤ scoreOf x := by
      intro x hx
      rcases List.mem_append.1 hx with hx | hx
      · exact le_trans (not_lt.1 hbeat) (hmin x hx)
      · rw [List.mem_singleton.1 hx]
    have herase : (p ++ [c]).erase c = p := by
      rw [List.erase_append_right _ hcp]
      simp [List.erase_cons_head]
    have hperm : p.Perm ((p ++ [c]).erase c) := by
      rw [herase]
    repeat' split
    all_goals exact ⟨c, hmem2, hmin2, hcp, hperm⟩

end NegOverflow

/-- C5: pool caps are hard upper bounds — `insertIntoPools` keeps both pools
within their caps; a candidate with negative score appears in neither pool; on
overflow (full primary pool, fresh nonnegative candidate) the lowest-scored
entry of the pool-plus-candidate leaves the primary pool (demoted to the
secondary pool or dropped) while the rest survive; consequently any sequence
of score/skip calls keeps the creator pools of the user document and the
category/subcategory/specific pools of every stored session blob within
`TOP_CREATOR_MAX`/`RISING_CREATOR_MAX` resp. `TOP_CAT_MAX`/`RISING_CAT_MAX`/
`TOP_SUB_MAX`/`RISING_SUB_MAX`/`SPECIFIC_MAX`. -/
theorem pool_caps_and_eviction :
    (∀ (A : Type) (keyOf : A → String) (scoreOf : A → ℚ) (maxP maxS : ℕ)
        (p s : List A) (c : A), p.length ≤ maxP → s.length ≤ maxS →
        (insertIntoPools keyOf scoreOf maxP maxS p s c).1.length ≤ maxP ∧
        (insertIntoPools keyOf scoreOf maxP maxS p s c).2.length ≤ maxS) ∧
    (∀ (A : Type) (keyOf : A → String) (scoreOf : A → ℚ) (maxP maxS : ℕ)
        (p s : List A) (c : A), keysNodup keyOf p → keysNodup keyOf s →
        scoreOf c < 0 →
        (∀ x ∈ (insertIntoPools keyOf scoreOf maxP maxS p s c).1,
          keyOf x ≠ keyOf c) ∧
        (∀ x ∈ (insertIntoPools keyOf scoreOf maxP maxS p s c).2,
          keyOf x ≠ keyOf c)) ∧
    (∀ (A : Type) [DecidableEq A], ∀ (keyOf : A → String) (scoreOf : A → ℚ)
        (maxP maxS : ℕ) (p s : List A) (c : A),
        (∀ x ∈ p, keyOf x ≠ keyOf c) → keysNodup keyOf p → p.length = maxP →
        1 ≤ maxP → 0 ≤ scoreOf c →
        p.Pairwise (fun a b => scoreOf b ≤ scoreOf a) →
        ∃ d, d ∈ p ++ [c] ∧ (∀ x ∈ p ++ [c], scoreOf d ≤ scoreOf x) ∧
          d ∉ (insertIntoPools keyOf scoreOf maxP maxS p s c).1 ∧
          ((insertIntoPools keyOf scoreOf maxP maxS p s c).1).Perm
            ((p ++ [c]).erase d)) ∧
    (∀ (P : MathPrims) (ops : List CreatorOp) (u : UserState),
        CreatorCapsOK u → CreatorCapsOK (iterCreatorOps P ops u)) ∧
    (∀ (P : MathPrims) (ops : List InterestOp) (st : InterestRedisState),
        SessionsCapsOK st → SessionsCapsOK (iterInterestOps P ops st)) := by
  refine ⟨?_, ?_, ?_, ?_, ?_⟩
  · intro A keyOf scoreOf maxP maxS p s c hp hs
    letI := Classical.decEq A
    exact insertIntoPools_length keyOf scoreOf maxP maxS p s c hp hs
  · intro A keyOf scoreOf maxP maxS p s c hp hs hneg
    letI := Classical.decEq A
    exact insertIntoPools_negative keyOf scoreOf maxP maxS p s c hp hs hneg
  · intro A instA keyOf scoreOf maxP maxS p s c hk hnodup hfull hmax hnn hsorted
    exact insertIntoPools_overflow keyOf scoreOf maxP maxS p s c hk hnodup hfull
      hmax hnn hsorted
  · exact iterCreatorOps_caps
  · exact iterInterestOps_caps

/-- Witness: the pool-cap theorem applied at concrete inputs. -/
theorem pool_caps_and_eviction_witness :
    ((insertIntoPools SpecNode.name SpecNode.score 1 1 [specOne] [] specTwo).1.length ≤ 1 ∧
     (insertIntoPools SpecNode.name SpecNode.score 1 1 [specOne] [] specTwo).2.length ≤ 1) ∧
    ((∀ x ∈ (insertIntoPools SpecNode.name SpecNode.score 1 1 [specOne] [] specNeg).1,
        SpecNode.name x ≠ SpecNode.name specNeg) ∧
     (∀ x ∈ (insertIntoPools SpecNode.name SpecNode.score 1 1 [specOne] [] specNeg).2,
        SpecNode.name x ≠ SpecNode.name specNeg)) ∧
    (∃ d, d ∈ [specOne] ++ [specTwo] ∧
      (∀ x ∈ [specOne] ++ [specTwo], SpecNode.score d ≤ SpecNode.score x) ∧
      d ∉ (insertIntoPools SpecNode.name SpecNode.score 1 1 [specOne] [] specTwo).1 ∧
      ((insertIntoPools SpecNode.name SpecNode.score 1 1 [specOne] [] specTwo).1).Perm
        (([specOne] ++ [specTwo]).erase d)) ∧
    CreatorCapsOK (iterCreatorOps onePrims [] emptyUser) ∧
    SessionsCapsOK (iterInterestOps onePrims [] emptyRedisState) := by
  refine ⟨?_, ?_, ?_, ?_, ?_⟩
  · exact pool_caps_and_eviction.1 SpecNode SpecNode.name SpecNode.score 1 1
      [specOne] [] specTwo (by simp) (by simp)
  · exact pool_caps_and_eviction.2.1 SpecNode SpecNode.name SpecNode.score 1 1
      [specOne] [] specNeg (by simp [keysNodup]) (by simp [keysNodup])
      (by norm_num [specNeg])
  · exact pool_caps_and_eviction.2.2.1 SpecNode SpecNode.name SpecNode.score 1 1
      [specOne] [] specTwo (by simp [specOne, specTwo]) (by simp [keysNodup, specOne])
      (by decide) (by decide) (by norm_num [specTwo]) (by simp)
  · exact pool_caps_and_eviction.2.2.2.1 onePrims [] emptyUser
      (by constructor <;> simp [emptyUser, TOP_CREATOR_MAX, RISING_CREATOR_MAX])
  · exact pool_caps_and_eviction.2.2.2.2 onePrims [] emptyRedisState
      (by intro sid b hb; simp [emptyRedisState] at hb)

/-- C9: `insertIntoPools` is idempotent — applying it a second time with the
same candidate (unchanged score) to the pools produced by the first
application reproduces the pool contents of the single application (as
multisets; the stable sort makes the order of equal-score ties
unobservable). -/
theorem insertIntoPools_idempotent {A : Type} [DecidableEq A]
    (keyOf : A → String) (scoreOf : A → ℚ) (maxP maxS : ℕ) (p s : List A) (c : A)
    (hnodup : keysNodup keyOf (p ++ s))
    (hp : p.length ≤ maxP) (hs : s.length ≤ maxS) (hP1 : 1 ≤ maxP) :
    ((insertIntoPools keyOf scoreOf maxP maxS
        (insertIntoPools keyOf scoreOf maxP maxS p s c).1
        (insertIntoPools keyOf scoreOf maxP maxS p s c).2 c).1.Perm
      (insertIntoPools keyOf scoreOf maxP maxS p s c).1) ∧
    ((insertIntoPools keyOf scoreOf maxP maxS
        (insertIntoPools keyOf scoreOf maxP maxS p s c).1
        (insertIntoPools keyOf scoreOf maxP maxS p s c).2 c).2.Perm
      (insertIntoPools keyOf scoreOf maxP maxS p s c).2) :=
  insertIntoPools_idem keyOf scoreOf maxP maxS p s c hnodup hp hs hP1

/-- Witness: idempotence of `insertIntoPools` at a concrete pool pair. -/
theorem insertIntoPools_idempotent_witness :
    ((insertIntoPools SpecNode.name SpecNode.score 1 1
        (insertIntoPools SpecNode.name SpecNode.score 1 1 [specOne] [] specTwo).1
        (insertIntoPools SpecNode.name SpecNode.score 1 1 [specOne] [] specTwo).2
        specTwo).1.Perm
      (insertIntoPools SpecNode.name SpecNode.score 1 1 [specOne] [] specTwo).1) ∧
    ((insertIntoPools SpecNode.name SpecNode.score 1 1
        (insertIntoPools SpecNode.name SpecNode.score 1 1 [specOne] [] specTwo).1
        (insertIntoPools SpecNode.name SpecNode.score 1 1 [specOne] [] specTwo).2
        specTwo).2.Perm
      (insertIntoPools SpecNode.name SpecNode.score 1 1 [specOne] [] specTwo).2) :=
  insertIntoPools_idempotent SpecNode.name SpecNode.score 1 1 [specOne] [] specTwo
    (by simp [keysNodup, specOne]) (by simp) (by simp) (by simp)

/-- C10: when the fast store holds no session blob for the session id, the
session-variant interest service returns without performing any write — the
whole fast-store state (sessions, last-access set, GlobalStats,
UserInterestStats) is returned unchanged, for the score and the skip call
alike. -/
theorem interestRedis_no_session_no_write (P : MathPrims) (now : ℤ)
    (userId sessionId categoryName : String) (subName specificName : Option String)
    (e : ℚ) (st : InterestRedisState) (h : st.sessions sessionId = none) :
    scoreInterestRedis P now userId sessionId categoryName subName specificName e st
      = st ∧
    skipInterestRedis P now userId sessionId categoryName subName specificName st
      = st := by
  have hg : getSessionData st sessionId = none := h
  constructor
  · unfold scoreInterestRedis
    rw [hg]
  · unfold skipInterestRedis
    rw [hg]

/-- Witness: the no-session early return at a concrete state. -/
theorem interestRedis_no_session_no_write_witness :
    emptyRedisState.sessions "s" = none ∧
    (scoreInterestRedis onePrims 0 "u" "s" "cat" none none 1 emptyRedisState
        = emptyRedisState ∧
     skipInterestRedis onePrims 0 "u" "s" "cat" none none emptyRedisState
        = emptyRedisState) :=
  ⟨rfl, interestRedis_no_session_no_write onePrims 0 "u" "s" "cat" none none 1
    emptyRedisState rfl⟩

/-- C3 (amended): the request-path metrics update leaves `impressionCount`,
`engagementSum` and `cumulativeScore` unchanged; the hourly-aggregator
variant leaves `impressionCount` and `engagementSum` unchanged but
unconditionally resets `cumulativeScore` to 0, so that field is not
append-only across aggregator runs. -/
theorem postMetrics_counters (P : MathPrims) (post : PostDoc)
    (eventTypes : List String) (nowMs : ℤ) (scoreDelta : Option ℚ)
    (catStats creatorStats : Stats) :
    ((updatePostMetricsDB_request P post eventTypes nowMs
        catStats creatorStats).1.impressionCount = post.impressionCount ∧
     (updatePostMetricsDB_request P post eventTypes nowMs
        catStats creatorStats).1.engagementSum = post.engagementSum ∧
     (updatePostMetricsDB_request P post eventTypes nowMs
        catStats creatorStats).1.cumulativeScore = post.cumulativeScore) ∧
    ((updatePostMetricsDB_aggregator P post eventTypes nowMs scoreDelta
        catStats creatorStats).1.impressionCount = post.impressionCount ∧
     (updatePostMetricsDB_aggregator P post eventTypes nowMs scoreDelta
        catStats creatorStats).1.engagementSum = post.engagementSum ∧
     (updatePostMetricsDB_aggregator P post eventTypes nowMs scoreDelta
        catStats creatorStats).1.cumulativeScore = 0) :=
  ⟨⟨rfl, rfl, rfl⟩, ⟨rfl, rfl, rfl⟩⟩

/-- Counterexample to C3 as stated: a post with `cumulativeScore = 5` comes
out of the aggregator update with `cumulativeScore = 0` — the counter
decreased outside any administrative reset. -/
theorem postMetrics_cumulative_reset_counterexample :
    cFourPost.cumulativeScore = 5 ∧
    (updatePostMetricsDB_aggregator onePrims cFourPost [] 1 none
      zeroStats zeroStats).1.cumulativeScore = 0 ∧
    (updatePostMetricsDB_aggregator onePrims cFourPost [] 1 none
      zeroStats zeroStats).1.cumulativeScore < cFourPost.cumulativeScore := by
  refine ⟨rfl, rfl, ?_⟩
  show (0 : ℚ) < 5
  norm_num

/-- C4 (amended): the aggregator variant follows the claimed rule — on the
first batch `isRising ⇔ weight ≥ MIN_INITIAL_RISING_WEIGHT`, otherwise
`isRising ⇔ newShortEMA/(newLongEMA+ε) ≥ RISING_RATE_MULTIPLIER` (stated
against the stored EMA fields); the request-path variant instead sets
`isRising ⇔ the post is not flagged evergreen ∧
windowRate/(baselineRate+ε) ≥ RISING_RATE_MULTIPLIER`, with `windowRate`
from the sliding event window and `baselineRate` from the new long EMA. -/
theorem postMetrics_isRising_rule (P : MathPrims) (post : PostDoc)
    (eventTypes : List String) (nowMs : ℤ) (scoreDelta : Option ℚ)
    (catStats creatorStats : Stats) :
    ((updatePostMetricsDB_aggregator P post eventTypes nowMs scoreDelta
        catStats creatorStats).1.isRising = true ↔
      (if post.lastTrendingUpdate.getD post.createdAt = post.createdAt
       then MIN_INITIAL_RISING_WEIGHT ≤ scoreDelta.getD (eventWeight eventTypes)
       else RISING_RATE_MULTIPLIER ≤
         jsOr0 (updatePostMetricsDB_aggregator P post eventTypes nowMs scoreDelta
           catStats creatorStats).1.shortTermVelocityEMA /
         (jsOr0 (updatePostMetricsDB_aggregator P post eventTypes nowMs scoreDelta
           catStats creatorStats).1.historicalVelocityEMA + 1 / 1000000))) ∧
    ((updatePostMetricsDB_request P post eventTypes nowMs
        catStats creatorStats).1.isRising = true ↔
      (post.isEvergreen = false ∧
       RISING_RATE_MULTIPLIER ≤
         ((updatePostMetricsDB_request P post eventTypes nowMs
             catStats creatorStats).1.windowEvents.foldl
           (fun sum e => sum + e.weight) 0 /
          ((RISING_WINDOW_MS : ℚ) / (1000 * 3600))) /
         (jsOr0 (updatePostMetricsDB_request P post eventTypes nowMs
             catStats creatorStats).1.historicalVelocityEMA * (1000 * 3600)
           + 1 / 1000000))) := by
  constructor
  · cases scoreDelta with
    | some d =>
      unfold updatePostMetricsDB_aggregator
      dsimp only
      by_cases hfb : post.lastTrendingUpdate.getD post.createdAt = post.createdAt
      · rw [if_pos hfb, if_pos hfb]
        simp
      · rw [if_neg hfb, if_neg hfb]
        simp [jsOr0]
    | none =>
      unfold updatePostMetricsDB_aggregator
      dsimp only
      by_cases hfb : post.lastTrendingUpdate.getD post.createdAt = post.createdAt
      · rw [if_pos hfb, if_pos hfb]
        simp
      · rw [if_neg hfb, if_neg hfb]
        simp [jsOr0]
  · unfold updatePostMetricsDB_request
    dsimp only
    by_cases hev : post.isEvergreen = true
    · rw [if_pos hev]
      simp [hev]
    · have hev' : post.isEvergreen = false := by simpa using hev
      rw [if_neg hev]
      simp [jsOr0, hev']

/-- Counterexample to C4 as stated for the request-path variant: a
non-first-batch update whose stored EMA ratio is 4/(1+ε) ≥ 2 (the claim
would flag the post rising) comes out with `isRising = false` (the empty
sliding window gives `windowRate = 0`). -/
theorem postMetrics_isRising_counterexample :
    (updatePostMetricsDB_request onePrims cFourPost [] 1
      zeroStats zeroStats).1.isRising = false ∧
    cFourPost.lastTrendingUpdate.getD cFourPost.createdAt ≠ cFourPost.createdAt ∧
    (updatePostMetricsDB_request onePrims cFourPost [] 1
      zeroStats zeroStats).1.shortTermVelocityEMA = some 4 ∧
    (updatePostMetricsDB_request onePrims cFourPost [] 1
      zeroStats zeroStats).1.historicalVelocityEMA = some 1 ∧
    RISING_RATE_MULTIPLIER ≤ (4 : ℚ) / (1 + 1 / 1000000) := by
  refine ⟨?_, by decide, ?_, ?_, ?_⟩
  · unfold updatePostMetricsDB_request
    norm_num [cFourPost, eventWeight, jsOr0, onePrims, RISING_WINDOW_MS,
      RISING_RATE_MULTIPLIER, WEIGHTS]
  · unfold updatePostMetricsDB_request
    norm_num [cFourPost, eventWeight, jsOr0, onePrims, SHORT_HALF_LIFE_MS, WEIGHTS]
  · unfold updatePostMetricsDB_request
    norm_num [cFourPost, eventWeight, jsOr0, onePrims, LONG_HALF_LIFE_MS, WEIGHTS]
  · rw [RISING_RATE_MULTIPLIER]
    norm_num

/-! ### Feed interleaving lemmas -/

theorem mem_of_head?_eq {α : Type} {l : List α} {x : α} (h : l.head? = some x) :
    x ∈ l := by
  cases l with
  | nil => simp at h
  | cons a t =>
    simp at h
    exact h ▸ List.mem_cons_self a t

/-- The pick of one interleave pass comes from the pool and its bucket has
remaining capacity. -/
theorem interleavePick_spec {limit : ℕ} {counts : String → ℕ}
    {pool : List FeedItem} {pick : FeedItem}
    (h : interleavePick limit counts pool = some pick) :
    pick ∈ pool ∧ counts pick.bucket < bucketCap limit pick.bucket := by
  unfold interleavePick at h
  split at h
  · exact absurd h (by simp)
  · rename_i a rest hfil
    dsimp only at h
    have h1 := mem_of_head?_eq h
    have h2 := (List.mem_mergeSort).1 h1
    have h3 := (List.mem_filter.1 h2).1
    rw [← hfil] at h3
    have h4 := List.mem_filter.1 h3
    exact ⟨h4.1, of_decide_eq_true h4.2⟩

theorem interleaveGo_length (limit fuel : ℕ) (chosen : List FeedItem)
    (counts : String → ℕ) (pool : List FeedItem) (h : chosen.length ≤ limit) :
    (interleaveGo limit fuel chosen counts pool).length ≤ limit := by
  induction fuel generalizing chosen counts pool with
  | zero => exact h
  | succ fuel ih =>
    unfold interleaveGo
    split
    · rename_i hcond
      split
      · exact h
      · exact ih _ _ _ (by simpa using hcond.1)
    · exact h

theorem interleaveGo_mem (limit fuel : ℕ) (chosen : List FeedItem)
    (counts : String → ℕ) (pool : List FeedItem) (x : FeedItem)
    (hx : x ∈ interleaveGo limit fuel chosen counts pool) :
    x ∈ chosen ∨ x ∈ pool := by
  induction fuel generalizing chosen counts pool with
  | zero => exact Or.inl hx
  | succ fuel ih =>
    unfold interleaveGo at hx
    split at hx
    · split at hx
      · exact Or.inl hx
      · rename_i pick hpick
        rcases ih _ _ _ hx with hm | hm
        · rcases List.mem_append.1 hm with hm2 | hm2
          · exact Or.inl hm2
          · rw [List.mem_singleton.1 hm2]
            exact Or.inr (interleavePick_spec hpick).1
        · exact Or.inr ((pool.erase_sublist _).mem hm)
    · exact Or.inl hx

theorem interleaveGo_subperm (limit fuel : ℕ) (chosen : List FeedItem)
    (counts : String → ℕ) (pool : List FeedItem) :
    (interleaveGo limit fuel chosen counts pool).Subperm (chosen ++ pool) := by
  induction fuel generalizing chosen counts pool with
  | zero => exact (List.sublist_append_left _ _).subperm
  | succ fuel ih =>
    unfold interleaveGo
    split
    · split
      · exact (List.sublist_append_left _ _).subperm
      · rename_i pick hpick
        have hperm : (chosen ++ [pick]) ++ pool.erase pick |>.Perm (chosen ++ pool) := by
          rw [List.append_assoc]
          exact List.Perm.append_left chosen
            (List.Perm.symm (by
              simpa using List.perm_cons_erase (interleavePick_spec hpick).1))
        exact (ih _ _ _).trans hperm.subperm
    · exact (List.sublist_append_left _ _).subperm

theorem interleaveGo_counts (limit fuel : ℕ) (chosen : List FeedItem)
    (counts : String → ℕ) (pool : List FeedItem)
    (hc : ∀ b, (chosen.filter (fun x => x.bucket = b)).length = counts b)
    (hcap : ∀ b, counts b ≤ bucketCap limit b) (b : String) :
    ((interleaveGo limit fuel chosen counts pool).filter
      (fun x => x.bucket = b)).length ≤ bucketCap limit b := by
  induction fuel generalizing chosen counts pool with
  | zero => exact (hc b) ▸ hcap b
  | succ fuel ih =>
    unfold interleaveGo
    split
    · split
      · exact (hc b) ▸ hcap b
      · rename_i pick hpick
        have hpickcap := (interleavePick_spec hpick).2
        refine ih _ _ _ ?_ ?_
        · intro b2
          rw [List.filter_append]
          by_cases hb2 : b2 = pick.bucket
          · rw [if_pos hb2]
            have hone : (List.filter (fun x => decide (x.bucket = b2)) [pick]).length = 1 := by
              simp [List.filter_cons, hb2.symm]
            rw [List.length_append, hc b2, hone]
          · rw [if_neg hb2]
            have hzero : (List.filter (fun x => decide (x.bucket = b2)) [pick]).length = 0 := by
              simp only [List.filter_cons, List.filter_nil]
              split
              · rename_i hcontra
                exact absurd (of_decide_eq_true hcontra).symm hb2
              · rfl
            rw [List.length_append, hc b2, hzero]
            omega
        · intro b2
          by_cases hb2 : b2 = pick.bucket
          · rw [if_pos hb2, hb2]
            exact hpickcap
          · rw [if_neg hb2]
            exact hcap b2
    · exact (hc b) ▸ hcap b

theorem subperm_map_id (f : FeedItem → String) {l1 l2 : List FeedItem}
    (h : l1.Subperm l2) : (l1.map f).Subperm (l2.map f) := by
  obtain ⟨l, hp, hs⟩ := h
  exact ⟨l.map f, hp.map f, hs.map f⟩

theorem nodup_of_subperm {α : Type} {l1 l2 : List α} (h : l1.Subperm l2)
    (h2 : l2.Nodup) : l1.Nodup := by
  obtain ⟨l, hp, hs⟩ := h
  exact hp.nodup_iff.1 (h2.sublist hs)

/-- C6 (amended): every assembled feed has length at most `FEED_SIZE`, no
entry carries a seen post id (candidates are pre-filtered; the explore
fetch honours its `$nin` filter), and each non-EXPLORE bucket contributes at
most its cap; post ids are pairwise distinct provided — in addition to the
claim's assumptions — the random explore fetch returns ids disjoint from
the candidate list, which `assembleFeed` itself does not enforce. -/
theorem feed_assembly_bounds (f : List String → ℕ → List FeedItem)
    (scored : List FeedItem) (seen : List String)
    (hflen : ∀ excl n, (f excl n).length ≤ n)
    (hfseen : ∀ excl n, ∀ p ∈ f excl n, p.id ∉ excl)
    (hfbucket : ∀ excl n, ∀ p ∈ f excl n, p.bucket = "EXPLORE")
    (hsseen : ∀ p ∈ scored, p.id ∉ seen) :
    (assembleFeed f scored seen).length ≤ FEED_SIZE ∧
    (∀ p ∈ assembleFeed f scored seen, p.id ∉ seen) ∧
    (∀ b, b ≠ "EXPLORE" →
      ((assembleFeed f scored seen).filter (fun x => x.bucket = b)).length ≤
        bucketCap NON_EXPLORE b) ∧
    ((scored.map FeedItem.id).Nodup →
     (∀ n, ((f seen n).map FeedItem.id).Nodup) →
     (∀ n, ∀ p ∈ f seen n, p.id ∉ scored.map FeedItem.id) →
     ((assembleFeed f scored seen).map FeedItem.id).Nodup) := by
  have hcorelen : (interleaveByBucket scored NON_EXPLORE).length ≤ NON_EXPLORE :=
    interleaveGo_length _ _ _ _ _ (by simp)
  have hcoremem : ∀ p ∈ interleaveByBucket scored NON_EXPLORE, p ∈ scored := by
    intro p hp
    rcases interleaveGo_mem _ _ _ _ _ p hp with h | h
    · simp at h
    · exact (List.mem_mergeSort).1 h
  unfold assembleFeed
  dsimp only
  refine ⟨?_, ?_, ?_, ?_⟩
  · rw [List.length_append]
    by_cases hneed : 0 < FEED_SIZE - (interleaveByBucket scored NON_EXPLORE).length
    · rw [if_pos hneed]
      have h1 := hflen seen (FEED_SIZE - (interleaveByBucket scored NON_EXPLORE).length)
      omega
    · rw [if_neg hneed]
      have h15 : NON_EXPLORE ≤ FEED_SIZE := by norm_num [NON_EXPLORE, FEED_SIZE]
      simp only [List.length_nil]
      omega
  · intro p hp
    rcases List.mem_append.1 hp with h | h
    · exact hsseen p (hcoremem p h)
    · by_cases hneed : 0 < FEED_SIZE - (interleaveByBucket scored NON_EXPLORE).length
      · rw [if_pos hneed] at h
        exact hfseen seen _ p h
      · rw [if_neg hneed] at h
        simp at h
  · intro b hb
    rw [List.filter_append, List.length_append]
    have hcorecap : ((interleaveByBucket scored NON_EXPLORE).filter
        (fun x => x.bucket = b)).length ≤ bucketCap NON_EXPLORE b :=
      interleaveGo_counts _ _ _ _ _ (fun _ => rfl) (fun _ => Nat.zero_le _) b
    have hexp : (((if 0 < FEED_SIZE - (interleaveByBucket scored NON_EXPLORE).length
        then f seen (FEED_SIZE - (interleaveByBucket scored NON_EXPLORE).length)
        else []).filter (fun x => x.bucket = b)).length = 0) := by
      by_cases hneed : 0 < FEED_SIZE - (interleaveByBucket scored NON_EXPLORE).length
      · rw [if_pos hneed]
        rw [List.length_eq_zero]
        rw [List.filter_eq_nil]
        intro q hq hd
        have h1 : q.bucket = b := of_decide_eq_true hd
        refine hb ?_
        rw [← h1]
        exact hfbucket seen _ q hq
      · rw [if_neg hneed]
        rfl
    omega
  · intro hnodup hfnodup hdisj
    rw [List.map_append]
    refine List.nodup_append.2 ⟨?_, ?_, ?_⟩
    · have hsub := interleaveGo_subperm NON_EXPLORE
        (sortByScoreDesc FeedItem.compositeScore scored).length [] (fun _ => 0)
        (sortByScoreDesc FeedItem.compositeScore scored)
      have hsub2 := subperm_map_id FeedItem.id hsub
      apply nodup_of_subperm hsub2
      have hps : ((sortByScoreDesc FeedItem.compositeScore scored).map
          FeedItem.id).Perm (scored.map FeedItem.id) :=
        (sortByScoreDesc_perm FeedItem.compositeScore scored).map _
      simpa using hps.nodup_iff.2 hnodup
    · by_cases hneed : 0 < FEED_SIZE - (interleaveByBucket scored NON_EXPLORE).length
      · rw [if_pos hneed]
        exact hfnodup _
      · rw [if_neg hneed]
        simp
    · intro a ha hain
      by_cases hneed : 0 < FEED_SIZE - (interleaveByBucket scored NON_EXPLORE).length
      · rw [if_pos hneed] at hain
        obtain ⟨q, hq, rfl⟩ := List.mem_map.1 hain
        obtain ⟨pc, hpc, hpcid⟩ := List.mem_map.1 ha
        exact hdisj _ q hq (hpcid ▸ List.mem_map_of_mem _ (hcoremem pc hpc))
      · rw [if_neg hneed] at hain
        simp at hain

/-- Witness: the feed bounds at a concrete one-candidate call. -/
theorem feed_assembly_bounds_witness :
    (assembleFeed emptyFetch [feedCore] ["z"]).length ≤ FEED_SIZE ∧
    (∀ p ∈ assembleFeed emptyFetch [feedCore] ["z"], p.id ∉ (["z"] : List String)) ∧
    (∀ b, b ≠ "EXPLORE" →
      ((assembleFeed emptyFetch [feedCore] ["z"]).filter
        (fun x => x.bucket = b)).length ≤ bucketCap NON_EXPLORE b) ∧
    ((([feedCore] : List FeedItem).map FeedItem.id).Nodup →
     (∀ n, ((emptyFetch ["z"] n).map FeedItem.id).Nodup) →
     (∀ n, ∀ p ∈ emptyFetch ["z"] n, p.id ∉ ([feedCore] : List FeedItem).map FeedItem.id) →
     ((assembleFeed emptyFetch [feedCore] ["z"]).map FeedItem.id).Nodup) :=
  feed_assembly_bounds emptyFetch [feedCore] ["z"]
    (by intro excl n; simp [emptyFetch])
    (by intro excl n p hp; simp [emptyFetch] at hp)
    (by intro excl n p hp; simp [emptyFetch] at hp)
    (by intro p hp; rw [List.mem_singleton.1 hp]; decide)

/-- Counterexample to C6 as stated: the explore fill is not deduplicated
against the core feed, so an admissible random fetch (unseen EXPLORE post)
can return a post id already chosen by the interleaver — the id appears
twice in the assembled feed. -/
theorem feed_duplicate_counterexample :
    assembleFeed dupFetch [feedCore] [] = [feedCore, feedDup] ∧
    feedCore.id = feedDup.id ∧
    ¬ ((assembleFeed dupFetch [feedCore] []).map FeedItem.id).Nodup ∧
    (∀ p ∈ dupFetch [] (FEED_SIZE - 1), p.bucket = "EXPLORE" ∧
      p.id ∉ ([] : List String)) := by
  have hcore : assembleFeed dupFetch [feedCore] [] = [feedCore, feedDup] := by
    unfold assembleFeed interleaveByBucket
    rw [show sortByScoreDesc FeedItem.compositeScore [feedCore] = [feedCore] from by
      simp [sortByScoreDesc]]
    unfold interleaveGo interleavePick
    simp [bucketCap, feedCore, NON_EXPLORE, TRENDING_SLOTS, sortByScoreDesc,
      dupFetch, FEED_SIZE]
    simp [interleaveGo, feedCore, feedDup]
  refine ⟨hcore, rfl, ?_, ?_⟩
  · rw [hcore]
    decide
  · intro p hp
    have hpd : p = feedDup := by simpa [dupFetch] using hp
    rw [hpd]
    exact ⟨rfl, by simp⟩

/-- C2 (amended): when the blob the merge re-reads parses but carries a
userId different from the one the worker passes, `mergeSessionIntoUser`
itself refuses and performs no writes and no deletion — but `handleSession`
then unconditionally deletes the session blob and its last-access entry, so
the refused session is NOT left for manual inspection. -/
theorem merge_refusal_and_worker_delete (now : ℤ) (sid : String)
    (interfere : SessionStore → SessionStore) (st : SessionStore)
    (blob blob2 : SessionBlob)
    (hread : st.blobs sid = some (.parsed blob))
    (huid : blob.userId ≠ "")
    (hread2 : (interfere st).blobs sid = some (.parsed blob2))
    (hmismatch : blob2.userId ≠ blob.userId) :
    mergeSessionIntoUser now blob.userId sid (interfere st) = .ok (interfere st) ∧
    (handleSessionRaced now sid interfere st).blobs sid = none ∧
    (handleSessionRaced now sid interfere st).lastAccess sid = none ∧
    (handleSessionRaced now sid interfere st).users = (interfere st).users := by
  have hmerge : mergeSessionIntoUser now blob.userId sid (interfere st)
      = .ok (interfere st) := by
    unfold mergeSessionIntoUser
    rw [hread2]
    dsimp only
    rw [if_pos (Or.inr hmismatch)]
  refine ⟨hmerge, ?_, ?_, ?_⟩
  all_goals
    unfold handleSessionRaced
    rw [hread]
    dsimp only
    rw [if_neg huid, hmerge]
    try simp

/-- Witness: the refusal-then-delete at the concrete race scenario. -/
theorem merge_refusal_and_worker_delete_witness :
    mergeSessionIntoUser 0 blobAlice.userId "s" (cTwoInterfere cTwoStore)
      = .ok (cTwoInterfere cTwoStore) ∧
    (handleSessionRaced 0 "s" cTwoInterfere cTwoStore).blobs "s" = none ∧
    (handleSessionRaced 0 "s" cTwoInterfere cTwoStore).lastAccess "s" = none ∧
    (handleSessionRaced 0 "s" cTwoInterfere cTwoStore).users
      = (cTwoInterfere cTwoStore).users :=
  merge_refusal_and_worker_delete 0 "s" cTwoInterfere cTwoStore blobAlice blobBob
    rfl (by decide) rfl (by decide)

/-- Counterexample to C2 as stated: in the race scenario the merge refuses
(no writes), yet after `handleSession` the blob at `sess:s` is gone. -/
theorem worker_deletes_refused_session_counterexample :
    (cTwoInterfere cTwoStore).blobs "s" = some (.parsed blobBob) ∧
    blobBob.userId ≠ blobAlice.userId ∧
    mergeSessionIntoUser 0 blobAlice.userId "s" (cTwoInterfere cTwoStore)
      = .ok (cTwoInterfere cTwoStore) ∧
    (handleSessionRaced 0 "s" cTwoInterfere cTwoStore).blobs "s" = none := by
  refine ⟨rfl, by decide, ?_, ?_⟩
  · unfold mergeSessionIntoUser
    rfl
  · unfold handleSessionRaced
    rfl

/-! ### Merge-back round-trip lemmas (claim C8) -/

theorem emaBlend_self (x alpha : ℚ) : emaBlend x x alpha = x := by
  unfold emaBlend
  ring

theorem blendScores_self (x alpha : ℚ) : blendScores x x alpha = x :=
  emaBlend_self x alpha

theorem jsRound_intCast (x : ℤ) : jsRound (x : ℚ) = x := by
  unfold jsRound
  rw [Int.floor_int_add]
  norm_num

theorem blendSkipCounts_self (x : ℤ) (alpha : ℚ) : blendSkipCounts x x alpha = x := by
  unfold blendSkipCounts
  rw [emaBlend_self]
  exact jsRound_intCast x

section RoundTripGeneric

variable {A : Type} [DecidableEq A] (keyOf : A → String) (scoreOf : A → ℚ)

theorem mem_eraseP_of_key_ne {l : List A} {k : String} {x : A}
    (hx : x ∈ l) (hk : keyOf x ≠ k) :
    x ∈ l.eraseP (fun y => keyOf y == k) := by
  induction l with
  | nil => simp at hx
  | cons a t ih =>
    by_cases ha : keyOf a = k
    · rw [List.eraseP_cons, show (keyOf a == k) = true from by simpa using ha]
      simp only [cond_true]
      rcases List.mem_cons.1 hx with rfl | hx2
      · exact absurd ha hk
      · exact hx2
    · rw [List.eraseP_cons, show (keyOf a == k) = false from by simpa using ha]
      simp only [cond_false]
      rcases List.mem_cons.1 hx with rfl | hx2
      · exact List.mem_cons_self _ _
      · exact List.mem_cons_of_mem _ (ih hx2)

theorem combined_perm_cons_poolErase {p s : List A} {x : A}
    (hnodup : keysNodup keyOf (p ++ s)) (hx : x ∈ p ++ s) :
    (p ++ s).Perm (x :: (poolErase keyOf x p ++ poolErase keyOf x s)) := by
  rcases List.mem_append.1 hx with hxp | hxs
  · have hxs' : ∀ y ∈ s, keyOf y ≠ keyOf x := by
      intro y hy hk
      unfold keysNodup at hnodup
      rw [List.map_append] at hnodup
      exact List.disjoint_of_nodup_append hnodup (List.mem_map_of_mem _ hxp)
        (by rw [← hk]; exact List.mem_map_of_mem _ hy)
    have hse : poolErase keyOf x s = s := eraseP_key_of_not_mem keyOf hxs'
    rw [hse]
    have hp : p.Perm (x :: poolErase keyOf x p) :=
      perm_cons_eraseP_key keyOf hxp (keysNodup_append_left keyOf hnodup)
    have hstep : ((x :: poolErase keyOf x p) ++ s) = x :: (poolErase keyOf x p ++ s) := rfl
    exact hstep ▸ hp.append_right s
  · have hxp' : ∀ y ∈ p, keyOf y ≠ keyOf x := by
      intro y hy hk
      unfold keysNodup at hnodup
      rw [List.map_append] at hnodup
      exact List.disjoint_of_nodup_append hnodup
        (by rw [← hk]; exact List.mem_map_of_mem _ hy)
        (List.mem_map_of_mem _ hxs)
    have hpe : poolErase keyOf x p = p := eraseP_key_of_not_mem keyOf hxp'
    rw [hpe]
    have hs : s.Perm (x :: poolErase keyOf x s) :=
      perm_cons_eraseP_key keyOf hxs (keysNodup_append_right keyOf hnodup)
    have h1 : (p ++ s).Perm (s ++ p) := List.perm_append_comm
    have h2 : (s ++ p).Perm ((x :: poolErase keyOf x s) ++ p) := hs.append_right p
    have h3 : (x :: (poolErase keyOf x s ++ p)).Perm
        (x :: (p ++ poolErase keyOf x s)) := (List.perm_append_comm).cons x
    exact (h1.trans h2).trans h3

theorem key_unique {l : List A} (hn : keysNodup keyOf l) {x y : A}
    (hx : x ∈ l) (hy : y ∈ l) (hk : keyOf x = keyOf y) : x = y :=
  List.inj_on_of_nodup_map hn hx hy hk

theorem findOrInitNode_of_present {l1 l2 : List A} {k : String} {d : A}
    (hpres : ∃ e ∈ l1 ++ l2, keyOf e = k) :
    findOrInitNode keyOf l1 l2 k d ∈ l1 ++ l2 ∧
    keyOf (findOrInitNode keyOf l1 l2 k d) = k := by
  unfold findOrInitNode
  cases h1 : l1.find? (fun x => keyOf x == k) with
  | some n =>
    exact ⟨List.mem_append_left _ (List.mem_of_find?_eq_some h1),
      by simpa using List.find?_some h1⟩
  | none =>
    cases h2 : l2.find? (fun x => keyOf x == k) with
    | some n =>
      exact ⟨List.mem_append_right _ (List.mem_of_find?_eq_some h2),
        by simpa using List.find?_some h2⟩
    | none =>
      obtain ⟨e, he, hek⟩ := hpres
      rcases List.mem_append.1 he with he1 | he2
      · have := List.find?_eq_none.1 h1 e he1
        simp [hek] at this
      · have := List.find?_eq_none.1 h2 e he2
        simp [hek] at this

theorem orElse_find?_props {l1 l2 : List A} {p : A → Bool} {x : A}
    (h : ((l1.find? p).orElse fun _ => l2.find? p) = some x) :
    x ∈ l1 ++ l2 ∧ p x = true := by
  cases h1 : l1.find? p with
  | some y =>
    rw [h1] at h
    have hyx : y = x := Option.some.inj h
    subst hyx
    exact ⟨List.mem_append_left _ (List.mem_of_find?_eq_some h1), List.find?_some h1⟩
  | none =>
    rw [h1] at h
    have h2 : l2.find? p = some x := h
    exact ⟨List.mem_append_right _ (List.mem_of_find?_eq_some h2), List.find?_some h2⟩

end RoundTripGeneric

theorem catPairs_append (l1 l2 : List CatNode) :
    catPairs (l1 ++ l2) = catPairs l1 ++ catPairs l2 := List.map_append _ _ _

theorem catPairs_fst_unique {l : List CatNode} (hn : keysNodup CatNode.name l)
    {n : String} {s1 s2 : ℚ} (h1 : (n, s1) ∈ catPairs l) (h2 : (n, s2) ∈ catPairs l) :
    s1 = s2 := by
  obtain ⟨x, hx, hx2⟩ := List.mem_map.1 h1
  obtain ⟨y, hy, hy2⟩ := List.mem_map.1 h2
  have hxy : x = y := key_unique CatNode.name hn hx hy (by
    have e1 : x.name = n := congrArg Prod.fst hx2
    have e2 : y.name = n := congrArg Prod.fst hy2
    rw [e1, e2])
  have e1 : x.score = s1 := congrArg Prod.snd hx2
  have e2 : y.score = s2 := congrArg Prod.snd hy2
  rw [← e1, ← e2, hxy]

theorem mergeSubStep_name_score (now : ℤ) (c : CatNode) (sub : SubNode) :
    (mergeSubStep now c sub).name = c.name ∧ (mergeSubStep now c sub).score = c.score := by
  unfold mergeSubStep
  dsimp only
  split <;> exact ⟨rfl, rfl⟩

theorem foldl_mergeSubStep_name_score (now : ℤ) (c : CatNode) (subs : List SubNode) :
    (subs.foldl (mergeSubStep now) c).name = c.name ∧
    (subs.foldl (mergeSubStep now) c).score = c.score := by
  induction subs generalizing c with
  | nil => exact ⟨rfl, rfl⟩
  | cons a t ih =>
    have h1 := mergeSubStep_name_score now c a
    have h2 := ih (mergeSubStep now c a)
    exact ⟨h2.1.trans h1.1, h2.2.trans h1.2⟩

theorem catPairs_replace {l : List CatNode} {n : String} {uc : CatNode}
    (hname : uc.name = n) (hscore : ∀ x ∈ l, x.name = n → x.score = uc.score) :
    catPairs (replaceCatByName l n uc) = catPairs l := by
  unfold catPairs replaceCatByName
  rw [List.map_map]
  refine List.map_congr_left ?_
  intro x hx
  by_cases hxn : x.name = n
  · simp only [Function.comp_apply, if_pos hxn]
    rw [hname, hxn, hscore x hx hxn]
  · simp only [Function.comp_apply, if_neg hxn]

theorem names_replace {l : List CatNode} {n : String} {uc : CatNode}
    (hname : uc.name = n) :
    (replaceCatByName l n uc).map CatNode.name = l.map CatNode.name := by
  unfold replaceCatByName
  rw [List.map_map]
  refine List.map_congr_left ?_
  intro x hx
  by_cases hxn : x.name = n
  · simp only [Function.comp_apply, if_pos hxn]
    rw [hname, hxn]
  · simp only [Function.comp_apply, if_neg hxn]

/-- One pass of the category merge keeps the (name, score) multiset, the
name discipline and the caps. -/
theorem mergeCatStep_inv (now : ℤ) (orig : List CatNode)
    (acc : List CatNode × List CatNode) (cat : CatNode)
    (hpairs : (catPairs (acc.1 ++ acc.2)).Perm (catPairs orig))
    (hnodup : keysNodup CatNode.name (acc.1 ++ acc.2))
    (hnodup0 : keysNodup CatNode.name orig)
    (hnn0 : ∀ c ∈ orig, 0 ≤ c.score)
    (h1 : acc.1.length ≤ TOP_CAT_MAX) (h2 : acc.2.length ≤ RISING_CAT_MAX)
    (hcat : cat ∈ orig) :
    (catPairs ((mergeCatStep now acc cat).1 ++ (mergeCatStep now acc cat).2)).Perm
      (catPairs orig) ∧
    keysNodup CatNode.name ((mergeCatStep now acc cat).1 ++ (mergeCatStep now acc cat).2) ∧
    (mergeCatStep now acc cat).1.length ≤ TOP_CAT_MAX ∧
    (mergeCatStep now acc cat).2.length ≤ RISING_CAT_MAX := by
  have hpair0 : (cat.name, cat.score) ∈ catPairs orig :=
    List.mem_map_of_mem _ hcat
  have hpairacc : (cat.name, cat.score) ∈ catPairs (acc.1 ++ acc.2) :=
    hpairs.mem_iff.2 hpair0
  obtain ⟨node, hnode, hnodeeq⟩ := List.mem_map.1 hpairacc
  have hnodename : node.name = cat.name := congrArg Prod.fst hnodeeq
  have hnodescore : node.score = cat.score := congrArg Prod.snd hnodeeq
  have hpres : ∃ e ∈ acc.1 ++ acc.2, CatNode.name e = cat.name :=
    ⟨node, hnode, hnodename⟩
  obtain ⟨hfmem, hfname⟩ := findOrInitNode_of_present CatNode.name
    (d := { name := cat.name, score := 0, lastUpdated := now,
            topSubs := [], risingSubs := [] }) hpres
  have hfound : findOrInitNode CatNode.name acc.1 acc.2 cat.name
      { name := cat.name, score := 0, lastUpdated := now,
        topSubs := [], risingSubs := [] } = node :=
    key_unique CatNode.name hnodup hfmem hnode (hfname.trans hnodename.symm)
  -- the blended candidate
  have hcscore : (blendScores
      (findOrInitNode CatNode.name acc.1 acc.2 cat.name
        { name := cat.name, score := 0, lastUpdated := now,
          topSubs := [], risingSubs := [] }).score cat.score SESSION_BLEND_ALPHA)
      = cat.score := by
    rw [hfound, hnodescore, blendScores_self]
  have hnn : 0 ≤ cat.score := hnn0 cat hcat
  -- name the candidate
  set cand : CatNode := { findOrInitNode CatNode.name acc.1 acc.2 cat.name
      { name := cat.name, score := 0, lastUpdated := now,
        topSubs := [], risingSubs := [] } with
    score := blendScores
      (findOrInitNode CatNode.name acc.1 acc.2 cat.name
        { name := cat.name, score := 0, lastUpdated := now,
          topSubs := [], risingSubs := [] }).score cat.score SESSION_BLEND_ALPHA,
    lastUpdated := now } with hcand
  have hcandname : cand.name = cat.name := hfname
  have hcandscore : cand.score = cat.score := hcscore
  have hcandnn : ¬ CatNode.score cand < 0 := by
    rw [hcandscore] at *
    exact not_lt.2 hnn
  have hperm := insertIntoPools_perm_of_present CatNode.name CatNode.score
    TOP_CAT_MAX RISING_CAT_MAX acc.1 acc.2 cand hnodup
    (by rw [hcandname]; exact hpres) hcandnn h1 h2 (by norm_num [TOP_CAT_MAX])
  have hlen := insertIntoPools_length CatNode.name CatNode.score
    TOP_CAT_MAX RISING_CAT_MAX acc.1 acc.2 cand h1 h2
  -- the erased-combined permutation on the accumulator side
  have hperm0 := combined_perm_cons_poolErase CatNode.name hnodup hnode
  -- poolErase by cand and by node erase the same key
  have hkeq : CatNode.name cand = CatNode.name node := hcandname.trans hnodename.symm
  have herase1 : poolErase CatNode.name cand acc.1 = poolErase CatNode.name node acc.1 := by
    unfold poolErase
    rw [hkeq]
  have herase2 : poolErase CatNode.name cand acc.2 = poolErase CatNode.name node acc.2 := by
    unfold poolErase
    rw [hkeq]
  -- pair-level permutation for the pools after insertion
  have hpairs' : (catPairs
      ((insertIntoPools CatNode.name CatNode.score TOP_CAT_MAX RISING_CAT_MAX
          acc.1 acc.2 cand).1 ++
       (insertIntoPools CatNode.name CatNode.score TOP_CAT_MAX RISING_CAT_MAX
          acc.1 acc.2 cand).2)).Perm (catPairs orig) := by
    have hmap := hperm.map (fun c => (c.name, c.score))
    have hmap0 := hperm0.map (fun c => (c.name, c.score))
    rw [List.map_cons] at hmap hmap0
    have hpc : ((cand.name, cand.score) : String × ℚ) = (node.name, node.score) := by
      rw [hcandname, hcandscore, hnodename, hnodescore]
    rw [herase1, herase2] at hmap
    rw [hpc] at hmap
    exact (hmap.trans (hmap0.symm.trans hpairs))
  have hnodup' : keysNodup CatNode.name
      ((insertIntoPools CatNode.name CatNode.score TOP_CAT_MAX RISING_CAT_MAX
          acc.1 acc.2 cand).1 ++
       (insertIntoPools CatNode.name CatNode.score TOP_CAT_MAX RISING_CAT_MAX
          acc.1 acc.2 cand).2) := by
    refine keysNodup_of_perm CatNode.name hperm.symm ?_
    have hnp := keysNodup_append_left CatNode.name hnodup
    have hns := keysNodup_append_right CatNode.name hnodup
    unfold keysNodup
    rw [List.map_cons]
    refine List.nodup_cons.2 ⟨?_, ?_⟩
    · intro hmem
      rw [List.map_append] at hmem
      rcases List.mem_append.1 hmem with hm | hm
      · obtain ⟨y, hy, hyk⟩ := List.mem_map.1 hm
        exact mem_eraseP_key_ne CatNode.name hnp hy (by rw [hyk, hcandname])
      · obtain ⟨y, hy, hyk⟩ := List.mem_map.1 hm
        exact mem_eraseP_key_ne CatNode.name hns hy (by rw [hyk, hcandname])
    · rw [List.map_append]
      have hsub : ((poolErase CatNode.name cand acc.1).map CatNode.name ++
          (poolErase CatNode.name cand acc.2).map CatNode.name).Sublist
          (acc.1.map CatNode.name ++ acc.2.map CatNode.name) :=
        List.Sublist.append ((List.eraseP_sublist acc.1).map _)
          ((List.eraseP_sublist acc.2).map _)
      have := hnodup
      unfold keysNodup at this
      rw [List.map_append] at this
      exact this.sublist hsub
  -- now split on the live-category lookup
  unfold mergeCatStep
  dsimp only
  rw [← hcand]
  split
  · exact ⟨hpairs', hnodup', hlen.1, hlen.2⟩
  · rename_i liveCat hlive
    obtain ⟨hlmem, hlpred⟩ := orElse_find?_props hlive
    have hlname : liveCat.name = cat.name := by simpa using hlpred
    have hlscore : liveCat.score = cat.score := by
      refine catPairs_fst_unique hnodup0 ?_ hpair0
      have : ((liveCat.name, liveCat.score) : String × ℚ) ∈ catPairs
          ((insertIntoPools CatNode.name CatNode.score TOP_CAT_MAX RISING_CAT_MAX
              acc.1 acc.2 cand).1 ++
           (insertIntoPools CatNode.name CatNode.score TOP_CAT_MAX RISING_CAT_MAX
              acc.1 acc.2 cand).2) := List.mem_map_of_mem _ hlmem
      rw [hlname] at this
      exact hpairs'.mem_iff.1 this
    have hl2 := foldl_mergeSubStep_name_score now liveCat (cat.topSubs ++ cat.risingSubs)
    have hl2name : ((cat.topSubs ++ cat.risingSubs).foldl (mergeSubStep now) liveCat).name
        = cat.name := hl2.1.trans hlname
    have hl2score : ((cat.topSubs ++ cat.risingSubs).foldl (mergeSubStep now) liveCat).score
        = cat.score := hl2.2.trans hlscore
    have hscoreuniq : ∀ x ∈ (insertIntoPools CatNode.name CatNode.score TOP_CAT_MAX
        RISING_CAT_MAX acc.1 acc.2 cand).1 ++
        (insertIntoPools CatNode.name CatNode.score TOP_CAT_MAX RISING_CAT_MAX
          acc.1 acc.2 cand).2, x.name = cat.name →
        x.score = ((cat.topSubs ++ cat.risingSubs).foldl (mergeSubStep now) liveCat).score := by
      intro x hx hxn
      rw [hl2score]
      refine catPairs_fst_unique hnodup0 ?_ hpair0
      have : ((x.name, x.score) : String × ℚ) ∈ catPairs _ := List.mem_map_of_mem _ hx
      rw [hxn] at this
      exact hpairs'.mem_iff.1 this
    refine ⟨?_, ?_, ?_, ?_⟩
    · rw [catPairs_append,
          catPairs_replace hl2name (fun x hx => hscoreuniq x (List.mem_append_left _ hx)),
          catPairs_replace hl2name (fun x hx => hscoreuniq x (List.mem_append_right _ hx)),
          ← catPairs_append]
      exact hpairs'
    · unfold keysNodup
      rw [List.map_append]
      rw [names_replace hl2name, names_replace hl2name]
      rw [← List.map_append]
      exact hnodup'
    · rw [length_replaceCatByName]
      exact hlen.1
    · rw [length_replaceCatByName]
      exact hlen.2

theorem mergeCat_fold_inv (now : ℤ) (orig : List CatNode) (cats : List CatNode)
    (acc : List CatNode × List CatNode)
    (hpairs : (catPairs (acc.1 ++ acc.2)).Perm (catPairs orig))
    (hnodup : keysNodup CatNode.name (acc.1 ++ acc.2))
    (hnodup0 : keysNodup CatNode.name orig)
    (hnn0 : ∀ c ∈ orig, 0 ≤ c.score)
    (h1 : acc.1.length ≤ TOP_CAT_MAX) (h2 : acc.2.length ≤ RISING_CAT_MAX)
    (hcats : ∀ c ∈ cats, c ∈ orig) :
    (catPairs ((cats.foldl (mergeCatStep now) acc).1 ++
      (cats.foldl (mergeCatStep now) acc).2)).Perm (catPairs orig) ∧
    keysNodup CatNode.name ((cats.foldl (mergeCatStep now) acc).1 ++
      (cats.foldl (mergeCatStep now) acc).2) ∧
    (cats.foldl (mergeCatStep now) acc).1.length ≤ TOP_CAT_MAX ∧
    (cats.foldl (mergeCatStep now) acc).2.length ≤ RISING_CAT_MAX := by
  induction cats generalizing acc with
  | nil => exact ⟨hpairs, hnodup, h1, h2⟩
  | cons cat rest ih =>
    obtain ⟨hp', hn', hl1, hl2⟩ := mergeCatStep_inv now orig acc cat hpairs hnodup
      hnodup0 hnn0 h1 h2 (hcats cat (List.mem_cons_self _ _))
    exact ih (mergeCatStep now acc cat) hp' hn' hl1 hl2
      (fun c hc => hcats c (List.mem_cons_of_mem _ hc))

theorem mergeCreatorStep_interests (now : ℤ) (acc : UserState)
    (e : String × SessSignal) :
    (mergeCreatorStep now acc e).topInterests = acc.topInterests ∧
    (mergeCreatorStep now acc e).risingInterests = acc.risingInterests := by
  unfold mergeCreatorStep
  dsimp only
  repeat' split
  all_goals exact ⟨rfl, rfl⟩

theorem foldl_mergeCreatorStep_interests (now : ℤ) (l : List (String × SessSignal))
    (u : UserState) :
    (l.foldl (mergeCreatorStep now) u).topInterests = u.topInterests ∧
    (l.foldl (mergeCreatorStep now) u).risingInterests = u.risingInterests := by
  induction l generalizing u with
  | nil => exact ⟨rfl, rfl⟩
  | cons e rest ih =>
    have h1 := mergeCreatorStep_interests now u e
    have h2 := ih (mergeCreatorStep now u e)
    exact ⟨h2.1.trans h1.1, h2.2.trans h1.2⟩

section ListUtil

variable {α : Type} [Inhabited α]

theorem findIdx?_spec {p : α → Bool} {l : List α} {i : ℕ}
    (h : l.findIdx? p = some i) : i < l.length ∧ p (l.getD i default) = true := by
  induction l generalizing i with
  | nil => simp [List.findIdx?] at h
  | cons a t ih =>
    cases hpa : p a with
    | true =>
      rw [List.findIdx?_cons, hpa] at h
      simp at h
      rw [← h]
      exact ⟨Nat.succ_pos _, by simpa using hpa⟩
    | false =>
      rw [List.findIdx?_cons, hpa] at h
      simp only [if_false, List.findIdx?_succ, Bool.false_eq_true] at h
      cases ht : t.findIdx? p with
      | none => rw [ht] at h; simp at h
      | some j =>
        rw [ht] at h
        simp at h
        obtain ⟨hlen, hp⟩ := ih ht
        rw [← h]
        exact ⟨Nat.succ_lt_succ hlen, by simpa using hp⟩

theorem findIdx?_eq_none_of {p : α → Bool} {l : List α}
    (h : ∀ x ∈ l, p x = false) : l.findIdx? p = none := by
  induction l with
  | nil => rfl
  | cons a t ih =>
    rw [List.findIdx?_cons, h a (List.mem_cons_self _ _)]
    simp only [if_false, List.findIdx?_succ, Bool.false_eq_true]
    rw [ih (fun x hx => h x (List.mem_cons_of_mem _ hx))]
    rfl

theorem find?_findIdx? {p : α → Bool} {l : List α} {x : α}
    (h : l.find? p = some x) :
    ∃ i, l.findIdx? p = some i ∧ i < l.length ∧ l.getD i default = x := by
  induction l with
  | nil => simp at h
  | cons a t ih =>
    cases hpa : p a with
    | true =>
      rw [List.find?_cons_of_pos _ hpa] at h
      obtain rfl := Option.some.inj h
      refine ⟨0, ?_, Nat.succ_pos _, rfl⟩
      rw [List.findIdx?_cons, hpa]
      simp
    | false =>
      rw [List.find?_cons_of_neg _ (by simp [hpa])] at h
      obtain ⟨i, hidx, hlen, hget⟩ := ih h
      refine ⟨i + 1, ?_, Nat.succ_lt_succ hlen, hget⟩
      rw [List.findIdx?_cons, hpa]
      simp only [if_false, List.findIdx?_succ, Bool.false_eq_true]
      rw [hidx]
      rfl

theorem set_map_eq {β : Type} (g : α → β) (l : List α) (i : ℕ) (a : α)
    (h : g a = g (l.getD i default)) : (l.set i a).map g = l.map g := by
  induction l generalizing i with
  | nil => rfl
  | cons b t ih =>
    cases i with
    | zero => simp only [List.set, List.map_cons]; rw [h]; rfl
    | succ j =>
      simp only [List.set, List.map_cons]
      rw [ih j (by simpa using h)]

theorem mem_set_of_ne {l : List α} {g a : α} {i : ℕ}
    (hg : g ∈ l) (hne : g ≠ l.getD i default) : g ∈ l.set i a := by
  induction l generalizing i with
  | nil => simp at hg
  | cons b t ih =>
    cases i with
    | zero =>
      rcases List.mem_cons.1 hg with rfl | hg2
      · exact absurd rfl hne
      · exact List.mem_cons_of_mem _ hg2
    | succ j =>
      rcases List.mem_cons.1 hg with rfl | hg2
      · exact List.mem_cons_self _ _
      · exact List.mem_cons_of_mem _ (ih hg2 (by simpa using hne))

theorem mem_set_self {l : List α} {a : α} {i : ℕ} (h : i < l.length) :
    a ∈ l.set i a := by
  induction l generalizing i with
  | nil => simp at h
  | cons b t ih =>
    cases i with
    | zero => exact List.mem_cons_self _ _
    | succ j => exact List.mem_cons_of_mem _ (ih (by simpa using h))

theorem find?_set_of_false {p : α → Bool} {l : List α} {i : ℕ} {a : α}
    (ha : p a = false) (hold : p (l.getD i default) = false) :
    (l.set i a).find? p = l.find? p := by
  induction l generalizing i with
  | nil => rfl
  | cons b t ih =>
    cases i with
    | zero =>
      have hb : p b = false := by simpa using hold
      simp only [List.set]
      rw [List.find?_cons_of_neg _ (by simp [ha]),
          List.find?_cons_of_neg _ (by simp [hb])]
    | succ j =>
      simp only [List.set]
      cases hb : p b with
      | true =>
        rw [List.find?_cons_of_pos _ hb, List.find?_cons_of_pos _ hb]
      | false =>
        rw [List.find?_cons_of_neg _ (by simp [hb]),
            List.find?_cons_of_neg _ (by simp [hb])]
        exact ih (by simpa using hold)

theorem findIdx?_set_of_false {p : α → Bool} {l : List α} {i : ℕ} {a : α}
    (ha : p a = false) (hold : p (l.getD i default) = false) :
    (l.set i a).findIdx? p = l.findIdx? p := by
  induction l generalizing i with
  | nil => rfl
  | cons b t ih =>
    cases i with
    | zero =>
      have hb : p b = false := by simpa using hold
      simp only [List.set]
      rw [List.findIdx?_cons, List.findIdx?_cons, ha, hb]
    | succ j =>
      simp only [List.set]
      rw [List.findIdx?_cons, List.findIdx?_cons]
      cases hb : p b with
      | true => rfl
      | false =>
        simp only [if_false, List.findIdx?_succ, Bool.false_eq_true]
        rw [ih (by simpa using hold)]

theorem getD_set_of_ne {l : List α} {i j : ℕ} {a : α} (h : i ≠ j) :
    (l.set i a).getD j default = l.getD j default := by
  induction l generalizing i j with
  | nil => rfl
  | cons b t ih =>
    cases i with
    | zero =>
      cases j with
      | zero => exact absurd rfl h
      | succ j2 => rfl
    | succ i2 =>
      cases j with
      | zero => rfl
      | succ j2 => exact ih (by omega)

end ListUtil

theorem insertFold_fresh {β : Type} (keyF : β → String) (sigF : β → SessSignal)
    (l : List β) (m : List (String × SessSignal))
    (hfresh : ∀ x ∈ l, keyF x ∉ m.map Prod.fst)
    (hnodup : (l.map keyF).Nodup) :
    l.foldl (fun m x => insertIfAbsentSig m (keyF x) (sigF x)) m
      = m ++ l.map (fun x => (keyF x, sigF x)) := by
  induction l generalizing m with
  | nil => simp
  | cons a t ih =>
    have hnew : insertIfAbsentSig m (keyF a) (sigF a) = m ++ [(keyF a, sigF a)] := by
      unfold insertIfAbsentSig
      rw [if_neg]
      intro hany
      obtain ⟨q, hq, hqk⟩ := List.any_eq_true.1 hany
      exact hfresh a (List.mem_cons_self _ _)
        ((by simpa using hqk : q.1 = keyF a) ▸ List.mem_map_of_mem _ hq)
    have hnd : keyF a ∉ t.map keyF ∧ (t.map keyF).Nodup := by
      rw [List.map_cons, List.nodup_cons] at hnodup
      exact hnodup
    rw [List.foldl_cons, hnew, ih]
    · simp
    · intro x hx hmem
      rw [List.map_append] at hmem
      rcases List.mem_append.1 hmem with hm | hm
      · exact hfresh x (List.mem_cons_of_mem _ hx) hm
      · simp at hm
        exact hnd.1 (hm ▸ List.mem_map_of_mem _ hx)
    · exact hnd.2

section RoundTripPools

variable {A : Type} [DecidableEq A] (keyOf : A → String) (scoreOf : A → ℚ)

theorem insertIntoPools_inv (maxP maxS : ℕ) (p s : List A) (c : A)
    (hnodup : keysNodup keyOf (p ++ s))
    (hpres : ∃ e ∈ p ++ s, keyOf e = keyOf c)
    (hpos : ¬ scoreOf c < 0)
    (hp : p.length ≤ maxP) (hs : s.length ≤ maxS) (hP1 : 1 ≤ maxP) :
    ((insertIntoPools keyOf scoreOf maxP maxS p s c).1 ++
     (insertIntoPools keyOf scoreOf maxP maxS p s c).2).Perm
      (c :: (poolErase keyOf c p ++ poolErase keyOf c s)) ∧
    keysNodup keyOf ((insertIntoPools keyOf scoreOf maxP maxS p s c).1 ++
     (insertIntoPools keyOf scoreOf maxP maxS p s c).2) := by
  have hperm := insertIntoPools_perm_of_present keyOf scoreOf maxP maxS p s c hnodup
    hpres hpos hp hs hP1
  refine ⟨hperm, keysNodup_of_perm keyOf hperm.symm ?_⟩
  have hnp := keysNodup_append_left keyOf hnodup
  have hns := keysNodup_append_right keyOf hnodup
  unfold keysNodup
  rw [List.map_cons]
  refine List.nodup_cons.2 ⟨?_, ?_⟩
  · intro hmem
    rw [List.map_append] at hmem
    rcases List.mem_append.1 hmem with hm | hm
    · obtain ⟨y, hy, hyk⟩ := List.mem_map.1 hm
      exact mem_eraseP_key_ne keyOf hnp hy hyk
    · obtain ⟨y, hy, hyk⟩ := List.mem_map.1 hm
      exact mem_eraseP_key_ne keyOf hns hy hyk
  · rw [List.map_append]
    have hsub : ((poolErase keyOf c p).map keyOf ++
        (poolErase keyOf c s).map keyOf).Sublist
        (p.map keyOf ++ s.map keyOf) :=
      List.Sublist.append ((List.eraseP_sublist p).map _) ((List.eraseP_sublist s).map _)
    have h2 := hnodup
    unfold keysNodup at h2
    rw [List.map_append] at h2
    exact h2.sublist hsub

end RoundTripPools

theorem mergeCreatorStep_nonfollowed_following (now : ℤ) (acc : UserState)
    (e : String × SessSignal) (h : ¬ e.2.type = "followed") :
    (mergeCreatorStep now acc e).following = acc.following := by
  unfold mergeCreatorStep
  dsimp only
  rw [if_neg h]
  repeat' split
  all_goals rfl

theorem mergeCreatorStep_following_ids (now : ℤ) (acc : UserState)
    (e : String × SessSignal) :
    (mergeCreatorStep now acc e).following.map FollowedEntry.userId
      = acc.following.map FollowedEntry.userId := by
  unfold mergeCreatorStep
  dsimp only
  split
  · dsimp only
    split
    · rfl
    · refine set_map_eq _ _ _ _ ?_
      split
      · rfl
      · rfl
  · repeat' split
    all_goals rfl

theorem mergeCreatorStep_following_mem (now : ℤ) (acc : UserState)
    (e : String × SessSignal) (g : FollowedEntry)
    (hg : g ∈ acc.following) (hne : e.1 ≠ g.userId) :
    g ∈ (mergeCreatorStep now acc e).following := by
  unfold mergeCreatorStep
  dsimp only
  split
  · dsimp only
    split
    · exact hg
    · rename_i i heq
      have hspec := findIdx?_spec heq
      have hid : (acc.following.getD i default).userId = e.1 := by
        simpa using hspec.2
      refine mem_set_of_ne hg (fun hcontra => hne ?_)
      rw [← hid, hcontra]
  · repeat' split
    all_goals exact hg

theorem mergeCreatorStep_followed_ci (now : ℤ) (acc : UserState)
    (e : String × SessSignal) (htype : e.2.type = "followed")
    (h1 : ∀ x ∈ acc.creatorsInterests.topCreators, x.creatorId ≠ e.1)
    (h2 : ∀ x ∈ acc.creatorsInterests.risingCreators, x.creatorId ≠ e.1)
    (h3 : ∀ x ∈ acc.creatorsInterests.watchedCreatorsPool, x.creatorId ≠ e.1)
    (h4 : ∀ x ∈ acc.creatorsInterests.skippedCreatorsPool, x.creatorId ≠ e.1) :
    (mergeCreatorStep now acc e).creatorsInterests = acc.creatorsInterests := by
  unfold mergeCreatorStep
  dsimp only
  rw [if_pos htype]
  dsimp only
  unfold poolRemoveById watchRemoveById
  rw [eraseP_key_of_not_mem CreatorNode.creatorId h1,
      eraseP_key_of_not_mem CreatorNode.creatorId h2,
      eraseP_key_of_not_mem WatchedEntry.creatorId h3,
      eraseP_key_of_not_mem WatchedEntry.creatorId h4]

theorem mergeCreatorStep_toprising (now : ℤ) (acc : UserState)
    (e : String × SessSignal) (htype : ¬ e.2.type = "positive")
    (h1 : ∀ x ∈ acc.creatorsInterests.topCreators, x.creatorId ≠ e.1)
    (h2 : ∀ x ∈ acc.creatorsInterests.risingCreators, x.creatorId ≠ e.1) :
    (mergeCreatorStep now acc e).creatorsInterests.topCreators
      = acc.creatorsInterests.topCreators ∧
    (mergeCreatorStep now acc e).creatorsInterests.risingCreators
      = acc.creatorsInterests.risingCreators := by
  have e1 : poolRemoveById acc.creatorsInterests.topCreators e.1
      = acc.creatorsInterests.topCreators := by
    unfold poolRemoveById
    exact eraseP_key_of_not_mem CreatorNode.creatorId h1
  have e2 : poolRemoveById acc.creatorsInterests.risingCreators e.1
      = acc.creatorsInterests.risingCreators := by
    unfold poolRemoveById
    exact eraseP_key_of_not_mem CreatorNode.creatorId h2
  unfold mergeCreatorStep
  dsimp only
  repeat' split
  all_goals first
    | exact ⟨e1, e2⟩
    | exact ⟨rfl, rfl⟩
    | exact absurd (by assumption) htype

theorem foldCreator_following_ids (now : ℤ) (l : List (String × SessSignal))
    (acc : UserState) :
    (l.foldl (mergeCreatorStep now) acc).following.map FollowedEntry.userId
      = acc.following.map FollowedEntry.userId := by
  induction l generalizing acc with
  | nil => rfl
  | cons e t ih =>
    exact (ih _).trans (mergeCreatorStep_following_ids now acc e)

theorem foldCreator_mem_following (now : ℤ) (l : List (String × SessSignal))
    (acc : UserState) (g : FollowedEntry) (hg : g ∈ acc.following)
    (hne : ∀ e ∈ l, e.1 ≠ g.userId) :
    g ∈ (l.foldl (mergeCreatorStep now) acc).following := by
  induction l generalizing acc with
  | nil => exact hg
  | cons e t ih =>
    exact ih _ (mergeCreatorStep_following_mem now acc e g hg
        (hne e (List.mem_cons_self _ _)))
      (fun x hx => hne x (List.mem_cons_of_mem _ hx))

theorem foldF_ci (now : ℤ) (l : List (String × SessSignal)) (acc : UserState)
    (htypes : ∀ e ∈ l, e.2.type = "followed")
    (h1 : ∀ e ∈ l, ∀ x ∈ acc.creatorsInterests.topCreators, x.creatorId ≠ e.1)
    (h2 : ∀ e ∈ l, ∀ x ∈ acc.creatorsInterests.risingCreators, x.creatorId ≠ e.1)
    (h3 : ∀ e ∈ l, ∀ x ∈ acc.creatorsInterests.watchedCreatorsPool, x.creatorId ≠ e.1)
    (h4 : ∀ e ∈ l, ∀ x ∈ acc.creatorsInterests.skippedCreatorsPool, x.creatorId ≠ e.1) :
    (l.foldl (mergeCreatorStep now) acc).creatorsInterests = acc.creatorsInterests := by
  induction l generalizing acc with
  | nil => rfl
  | cons e t ih =>
    have hstep := mergeCreatorStep_followed_ci now acc e (htypes e (List.mem_cons_self _ _))
      (h1 e (List.mem_cons_self _ _)) (h2 e (List.mem_cons_self _ _))
      (h3 e (List.mem_cons_self _ _)) (h4 e (List.mem_cons_self _ _))
    rw [List.foldl_cons,
      ih (mergeCreatorStep now acc e)
        (fun x hx => htypes x (List.mem_cons_of_mem _ hx))
        (fun x hx => by rw [hstep]; exact h1 x (List.mem_cons_of_mem _ hx))
        (fun x hx => by rw [hstep]; exact h2 x (List.mem_cons_of_mem _ hx))
        (fun x hx => by rw [hstep]; exact h3 x (List.mem_cons_of_mem _ hx))
        (fun x hx => by rw [hstep]; exact h4 x (List.mem_cons_of_mem _ hx))]
    exact hstep

theorem mergeCreatorStep_positive_step (now : ℤ) (acc : UserState) (c0 : CreatorNode)
    (hpres : ∃ x ∈ acc.creatorsInterests.topCreators ++ acc.creatorsInterests.risingCreators,
      x.creatorId = c0.creatorId ∧ x.score = c0.score ∧ x.skips = c0.skips)
    (hnodup : keysNodup CreatorNode.creatorId
      (acc.creatorsInterests.topCreators ++ acc.creatorsInterests.risingCreators))
    (hw : ∀ x ∈ acc.creatorsInterests.watchedCreatorsPool, x.creatorId ≠ c0.creatorId)
    (hs : ∀ x ∈ acc.creatorsInterests.skippedCreatorsPool, x.creatorId ≠ c0.creatorId)
    (hskip : blendSkipCounts c0.skips 0 SESSION_BLEND_ALPHA ≤ WATCHED_THRESHOLD)
    (hnn : 0 ≤ c0.score)
    (hp : acc.creatorsInterests.topCreators.length ≤ TOP_CREATOR_MAX)
    (hsl : acc.creatorsInterests.risingCreators.length ≤ RISING_CREATOR_MAX) :
    (creatorPairs ((mergeCreatorStep now acc
        (c0.creatorId, ⟨"positive", c0.score, 0, c0.lastUpdated, now⟩)).creatorsInterests.topCreators ++
      (mergeCreatorStep now acc
        (c0.creatorId, ⟨"positive", c0.score, 0, c0.lastUpdated, now⟩)).creatorsInterests.risingCreators)).Perm
      (creatorPairs (acc.creatorsInterests.topCreators ++ acc.creatorsInterests.risingCreators)) ∧
    keysNodup CreatorNode.creatorId
      ((mergeCreatorStep now acc
        (c0.creatorId, ⟨"positive", c0.score, 0, c0.lastUpdated, now⟩)).creatorsInterests.topCreators ++
       (mergeCreatorStep now acc
        (c0.creatorId, ⟨"positive", c0.score, 0, c0.lastUpdated, now⟩)).creatorsInterests.risingCreators) ∧
    (mergeCreatorStep now acc
        (c0.creatorId, ⟨"positive", c0.score, 0, c0.lastUpdated, now⟩)).creatorsInterests.topCreators.length
      ≤ TOP_CREATOR_MAX ∧
    (mergeCreatorStep now acc
        (c0.creatorId, ⟨"positive", c0.score, 0, c0.lastUpdated, now⟩)).creatorsInterests.risingCreators.length
      ≤ RISING_CREATOR_MAX ∧
    (mergeCreatorStep now acc
        (c0.creatorId, ⟨"positive", c0.score, 0, c0.lastUpdated, now⟩)).creatorsInterests.watchedCreatorsPool
      = acc.creatorsInterests.watchedCreatorsPool ∧
    (mergeCreatorStep now acc
        (c0.creatorId, ⟨"positive", c0.score, 0, c0.lastUpdated, now⟩)).creatorsInterests.skippedCreatorsPool
      = acc.creatorsInterests.skippedCreatorsPool ∧
    (mergeCreatorStep now acc
        (c0.creatorId, ⟨"positive", c0.score, 0, c0.lastUpdated, now⟩)).following = acc.following ∧
    (∀ x ∈ acc.creatorsInterests.topCreators ++ acc.creatorsInterests.risingCreators,
      x.creatorId ≠ c0.creatorId →
      x ∈ (mergeCreatorStep now acc
        (c0.creatorId, ⟨"positive", c0.score, 0, c0.lastUpdated, now⟩)).creatorsInterests.topCreators ++
        (mergeCreatorStep now acc
        (c0.creatorId, ⟨"positive", c0.score, 0, c0.lastUpdated, now⟩)).creatorsInterests.risingCreators) := by
  obtain ⟨e1, he1, he1key, he1score, he1skips⟩ := hpres
  have hskf : acc.creatorsInterests.skippedCreatorsPool.find?
      (fun x => x.creatorId == c0.creatorId) = none :=
    List.find?_eq_none.2 (fun x hx => by simpa using hs x hx)
  have hwaf : acc.creatorsInterests.watchedCreatorsPool.find?
      (fun x => x.creatorId == c0.creatorId) = none :=
    List.find?_eq_none.2 (fun x hx => by simpa using hw x hx)
  have hnodup2 : (acc.creatorsInterests.topCreators.map CreatorNode.creatorId ++
      acc.creatorsInterests.risingCreators.map CreatorNode.creatorId).Nodup := by
    have h2 := hnodup
    unfold keysNodup at h2
    rwa [List.map_append] at h2
  have hnotten : ¬ HARSKIP_THRESHOLD ≤ blendSkipCounts c0.skips 0 SESSION_BLEND_ALPHA := by
    intro hcon
    have h2 : blendSkipCounts c0.skips 0 SESSION_BLEND_ALPHA ≤ WATCHED_THRESHOLD := hskip
    unfold HARSKIP_THRESHOLD at hcon
    unfold WATCHED_THRESHOLD at h2
    omega
  have hfol : ¬ ("positive" = "followed") := by decide
  have hsk2 : watchRemoveById acc.creatorsInterests.skippedCreatorsPool c0.creatorId
      = acc.creatorsInterests.skippedCreatorsPool := by
    unfold watchRemoveById
    exact eraseP_key_of_not_mem WatchedEntry.creatorId hs
  have hwa2 : watchRemoveById acc.creatorsInterests.watchedCreatorsPool c0.creatorId
      = acc.creatorsInterests.watchedCreatorsPool := by
    unfold watchRemoveById
    exact eraseP_key_of_not_mem WatchedEntry.creatorId hw
  have hpres2 : ∃ x ∈ acc.creatorsInterests.topCreators ++
      acc.creatorsInterests.risingCreators, CreatorNode.creatorId x = c0.creatorId :=
    ⟨e1, he1, he1key⟩
  have hfoi := findOrInitNode_of_present CreatorNode.creatorId
    (d := { creatorId := c0.creatorId, score := 0, lastUpdated := now, skips := 0,
            lastSkipAt := now }) hpres2
  have hfeq : findOrInitNode CreatorNode.creatorId acc.creatorsInterests.topCreators
      acc.creatorsInterests.risingCreators c0.creatorId
      { creatorId := c0.creatorId, score := 0, lastUpdated := now, skips := 0,
        lastSkipAt := now } = e1 :=
    key_unique CreatorNode.creatorId hnodup hfoi.1 he1 (hfoi.2.trans he1key.symm)
  rcases List.mem_append.1 he1 with htop | hrise
  · -- the key lives in the primary pool
    have htf : acc.creatorsInterests.topCreators.find?
        (fun x => x.creatorId == c0.creatorId) = some e1 := by
      cases hf : acc.creatorsInterests.topCreators.find?
          (fun x => x.creatorId == c0.creatorId) with
      | none => exact absurd (List.find?_eq_none.1 hf e1 htop) (by simp [he1key])
      | some y =>
        have hy : y ∈ acc.creatorsInterests.topCreators := List.mem_of_find?_eq_some hf
        have hyk : y.creatorId = c0.creatorId := by simpa using List.find?_some hf
        rw [key_unique CreatorNode.creatorId hnodup (List.mem_append_left _ hy)
          he1 (hyk.trans he1key.symm)]
    unfold mergeCreatorStep
    dsimp only
    rw [hskf, hwaf, htf]
    dsimp only [Option.orElse, Option.map, Option.getD]
    rw [he1skips, he1score, blendScores_self]
    rw [if_neg hfol, if_neg hnotten, if_neg (not_lt.2 hskip), if_pos rfl]
    dsimp only
    rw [hsk2, hwa2, hfeq]
    have hpos : ¬ CreatorNode.score { e1 with
        score := c0.score,
        lastUpdated := c0.lastUpdated,
        skips := 0,
        lastSkipAt := now } < 0 :=
      not_lt.2 hnn
    obtain ⟨hperm, hnodup'⟩ := insertIntoPools_inv CreatorNode.creatorId
      CreatorNode.score TOP_CREATOR_MAX RISING_CREATOR_MAX
      acc.creatorsInterests.topCreators acc.creatorsInterests.risingCreators
      { e1 with
        score := c0.score,
        lastUpdated := c0.lastUpdated,
        skips := 0,
        lastSkipAt := now }
      hnodup ⟨e1, he1, rfl⟩ hpos hp hsl (by norm_num [TOP_CREATOR_MAX])
    have hlen := insertIntoPools_length CreatorNode.creatorId CreatorNode.score
      TOP_CREATOR_MAX RISING_CREATOR_MAX acc.creatorsInterests.topCreators
      acc.creatorsInterests.risingCreators
      { e1 with
        score := c0.score,
        lastUpdated := c0.lastUpdated,
        skips := 0,
        lastSkipAt := now } hp hsl
    refine ⟨?_, hnodup', hlen.1, hlen.2, rfl, rfl, rfl, ?_⟩
    · have hmap := hperm.map (fun c => (c.creatorId, c.score))
      have hmap0 := (combined_perm_cons_poolErase CreatorNode.creatorId hnodup
        he1).map (fun c => (c.creatorId, c.score))
      rw [List.map_cons] at hmap hmap0
      have hpc : ((CreatorNode.creatorId { e1 with
        score := c0.score,
        lastUpdated := c0.lastUpdated,
        skips := 0,
        lastSkipAt := now },
          CreatorNode.score { e1 with
        score := c0.score,
        lastUpdated := c0.lastUpdated,
        skips := 0,
        lastSkipAt := now }) : String × ℚ)
          = (e1.creatorId, e1.score) := by
        show ((e1.creatorId, c0.score) : String × ℚ) = (e1.creatorId, e1.score)
        rw [he1score]
      rw [hpc] at hmap
      exact hmap.trans hmap0.symm
    · intro x hx hxk
      have hxk2 : CreatorNode.creatorId x ≠ CreatorNode.creatorId { e1 with
        score := c0.score,
        lastUpdated := c0.lastUpdated,
        skips := 0,
        lastSkipAt := now } := by
        intro hcon
        exact hxk ((hcon : x.creatorId = e1.creatorId).trans he1key)
      have hx2 : x ∈ poolErase CreatorNode.creatorId { e1 with
        score := c0.score,
        lastUpdated := c0.lastUpdated,
        skips := 0,
        lastSkipAt := now }
          acc.creatorsInterests.topCreators ++
          poolErase CreatorNode.creatorId { e1 with
        score := c0.score,
        lastUpdated := c0.lastUpdated,
        skips := 0,
        lastSkipAt := now }
          acc.creatorsInterests.risingCreators := by
        rcases List.mem_append.1 hx with h | h
        · exact List.mem_append_left _ (mem_eraseP_of_key_ne CreatorNode.creatorId h hxk2)
        · exact List.mem_append_right _ (mem_eraseP_of_key_ne CreatorNode.creatorId h hxk2)
      exact hperm.mem_iff.2 (List.mem_cons_of_mem _ hx2)
  · -- the key lives in the secondary pool
    have hdisj : ∀ x ∈ acc.creatorsInterests.topCreators, x.creatorId ≠ c0.creatorId := by
      intro x hx hcon
      exact List.disjoint_of_nodup_append hnodup2 (List.mem_map_of_mem _ hx)
        (by rw [hcon, ← he1key]; exact List.mem_map_of_mem _ hrise)
    have htfn : acc.creatorsInterests.topCreators.find?
        (fun x => x.creatorId == c0.creatorId) = none :=
      List.find?_eq_none.2 (fun x hx => by simpa using hdisj x hx)
    have hrf : acc.creatorsInterests.risingCreators.find?
        (fun x => x.creatorId == c0.creatorId) = some e1 := by
      cases hf : acc.creatorsInterests.risingCreators.find?
          (fun x => x.creatorId == c0.creatorId) with
      | none => exact absurd (List.find?_eq_none.1 hf e1 hrise) (by simp [he1key])
      | some y =>
        have hy : y ∈ acc.creatorsInterests.risingCreators := List.mem_of_find?_eq_some hf
        have hyk : y.creatorId = c0.creatorId := by simpa using List.find?_some hf
        rw [key_unique CreatorNode.creatorId hnodup (List.mem_append_right _ hy)
          he1 (hyk.trans he1key.symm)]
    unfold mergeCreatorStep
    dsimp only
    rw [hskf, hwaf, htfn, hrf]
    dsimp only [Option.orElse, Option.map, Option.getD]
    rw [he1skips, he1score, blendScores_self]
    rw [if_neg hfol, if_neg hnotten, if_neg (not_lt.2 hskip), if_pos rfl]
    dsimp only
    rw [hsk2, hwa2, hfeq]
    have hpos : ¬ CreatorNode.score { e1 with
        score := c0.score,
        lastUpdated := c0.lastUpdated,
        skips := 0,
        lastSkipAt := now } < 0 :=
      not_lt.2 hnn
    obtain ⟨hperm, hnodup'⟩ := insertIntoPools_inv CreatorNode.creatorId
      CreatorNode.score TOP_CREATOR_MAX RISING_CREATOR_MAX
      acc.creatorsInterests.topCreators acc.creatorsInterests.risingCreators
      { e1 with
        score := c0.score,
        lastUpdated := c0.lastUpdated,
        skips := 0,
        lastSkipAt := now }
      hnodup ⟨e1, he1, rfl⟩ hpos hp hsl (by norm_num [TOP_CREATOR_MAX])
    have hlen := insertIntoPools_length CreatorNode.creatorId CreatorNode.score
      TOP_CREATOR_MAX RISING_CREATOR_MAX acc.creatorsInterests.topCreators
      acc.creatorsInterests.risingCreators
      { e1 with
        score := c0.score,
        lastUpdated := c0.lastUpdated,
        skips := 0,
        lastSkipAt := now } hp hsl
    refine ⟨?_, hnodup', hlen.1, hlen.2, rfl, rfl, rfl, ?_⟩
    · have hmap := hperm.map (fun c => (c.creatorId, c.score))
      have hmap0 := (combined_perm_cons_poolErase CreatorNode.creatorId hnodup
        he1).map (fun c => (c.creatorId, c.score))
      rw [List.map_cons] at hmap hmap0
      have hpc : ((CreatorNode.creatorId { e1 with
        score := c0.score,
        lastUpdated := c0.lastUpdated,
        skips := 0,
        lastSkipAt := now },
          CreatorNode.score { e1 with
        score := c0.score,
        lastUpdated := c0.lastUpdated,
        skips := 0,
        lastSkipAt := now }) : String × ℚ)
          = (e1.creatorId, e1.score) := by
        show ((e1.creatorId, c0.score) : String × ℚ) = (e1.creatorId, e1.score)
        rw [he1score]
      rw [hpc] at hmap
      exact hmap.trans hmap0.symm
    · intro x hx hxk
      have hxk2 : CreatorNode.creatorId x ≠ CreatorNode.creatorId { e1 with
        score := c0.score,
        lastUpdated := c0.lastUpdated,
        skips := 0,
        lastSkipAt := now } := by
        intro hcon
        exact hxk ((hcon : x.creatorId = e1.creatorId).trans he1key)
      have hx2 : x ∈ poolErase CreatorNode.creatorId { e1 with
        score := c0.score,
        lastUpdated := c0.lastUpdated,
        skips := 0,
        lastSkipAt := now }
          acc.creatorsInterests.topCreators ++
          poolErase CreatorNode.creatorId { e1 with
        score := c0.score,
        lastUpdated := c0.lastUpdated,
        skips := 0,
        lastSkipAt := now }
          acc.creatorsInterests.risingCreators := by
        rcases List.mem_append.1 hx with h | h
        · exact List.mem_append_left _ (mem_eraseP_of_key_ne CreatorNode.creatorId h hxk2)
        · exact List.mem_append_right _ (mem_eraseP_of_key_ne CreatorNode.creatorId h hxk2)
      exact hperm.mem_iff.2 (List.mem_cons_of_mem _ hx2)

theorem foldPositive_inv (now : ℤ) (cs : List CreatorNode) (acc : UserState)
    (htrack : ∀ c ∈ cs, ∃ x ∈ acc.creatorsInterests.topCreators ++
      acc.creatorsInterests.risingCreators,
      x.creatorId = c.creatorId ∧ x.score = c.score ∧ x.skips = c.skips)
    (hnodup : keysNodup CreatorNode.creatorId
      (acc.creatorsInterests.topCreators ++ acc.creatorsInterests.risingCreators))
    (hkeys : (cs.map CreatorNode.creatorId).Nodup)
    (hw : ∀ c ∈ cs, ∀ x ∈ acc.creatorsInterests.watchedCreatorsPool,
      x.creatorId ≠ c.creatorId)
    (hsk : ∀ c ∈ cs, ∀ x ∈ acc.creatorsInterests.skippedCreatorsPool,
      x.creatorId ≠ c.creatorId)
    (hskip : ∀ c ∈ cs, blendSkipCounts c.skips 0 SESSION_BLEND_ALPHA ≤ WATCHED_THRESHOLD)
    (hnn : ∀ c ∈ cs, 0 ≤ c.score)
    (hp : acc.creatorsInterests.topCreators.length ≤ TOP_CREATOR_MAX)
    (hsl : acc.creatorsInterests.risingCreators.length ≤ RISING_CREATOR_MAX) :
    (creatorPairs ((foldPositive now cs acc).creatorsInterests.topCreators ++
      (foldPositive now cs acc).creatorsInterests.risingCreators)).Perm
      (creatorPairs (acc.creatorsInterests.topCreators ++
        acc.creatorsInterests.risingCreators)) ∧
    keysNodup CreatorNode.creatorId
      ((foldPositive now cs acc).creatorsInterests.topCreators ++
       (foldPositive now cs acc).creatorsInterests.risingCreators) ∧
    (foldPositive now cs acc).creatorsInterests.topCreators.length ≤ TOP_CREATOR_MAX ∧
    (foldPositive now cs acc).creatorsInterests.risingCreators.length ≤ RISING_CREATOR_MAX ∧
    (foldPositive now cs acc).creatorsInterests.watchedCreatorsPool
      = acc.creatorsInterests.watchedCreatorsPool ∧
    (foldPositive now cs acc).creatorsInterests.skippedCreatorsPool
      = acc.creatorsInterests.skippedCreatorsPool ∧
    (foldPositive now cs acc).following = acc.following := by
  induction cs generalizing acc with
  | nil => exact ⟨List.Perm.refl _, hnodup, hp, hsl, rfl, rfl, rfl⟩
  | cons c rest ih =>
    obtain ⟨hSperm, hSnodup, hSl1, hSl2, hSw, hSs, hSf, hSmem⟩ :=
      mergeCreatorStep_positive_step now acc c (htrack c (List.mem_cons_self _ _))
        hnodup (hw c (List.mem_cons_self _ _)) (hsk c (List.mem_cons_self _ _))
        (hskip c (List.mem_cons_self _ _)) (hnn c (List.mem_cons_self _ _)) hp hsl
    have hkeys2 : c.creatorId ∉ rest.map CreatorNode.creatorId ∧
        (rest.map CreatorNode.creatorId).Nodup := by
      have hkeys3 := hkeys
      rw [List.map_cons, List.nodup_cons] at hkeys3
      exact hkeys3
    have hkeyhead : ∀ c2 ∈ rest, c2.creatorId ≠ c.creatorId := by
      intro c2 hc2 hcon
      exact hkeys2.1 (hcon ▸ List.mem_map_of_mem _ hc2)
    have hmain := ih (mergeCreatorStep now acc
        (c.creatorId, ⟨"positive", c.score, 0, c.lastUpdated, now⟩))
      (fun c2 hc2 => by
        obtain ⟨x, hx, hxk, hxs, hxsk⟩ := htrack c2 (List.mem_cons_of_mem _ hc2)
        exact ⟨x, hSmem x hx (by rw [hxk]; exact hkeyhead c2 hc2), hxk, hxs, hxsk⟩)
      hSnodup
      hkeys2.2
      (fun c2 hc2 => by rw [hSw]; exact hw c2 (List.mem_cons_of_mem _ hc2))
      (fun c2 hc2 => by rw [hSs]; exact hsk c2 (List.mem_cons_of_mem _ hc2))
      (fun c2 hc2 => hskip c2 (List.mem_cons_of_mem _ hc2))
      (fun c2 hc2 => hnn c2 (List.mem_cons_of_mem _ hc2))
      hSl1 hSl2
    obtain ⟨hRperm, hRnodup, hRl1, hRl2, hRw, hRs, hRf⟩ := hmain
    exact ⟨hRperm.trans hSperm, hRnodup, hRl1, hRl2, hRw.trans hSw, hRs.trans hSs,
      hRf.trans hSf⟩

theorem foldWS_inv (now : ℤ) (l : List (String × SessSignal)) (acc : UserState)
    (htypes : ∀ e ∈ l, ¬ e.2.type = "positive" ∧ ¬ e.2.type = "followed")
    (hkeys : ∀ e ∈ l, (∀ x ∈ acc.creatorsInterests.topCreators, x.creatorId ≠ e.1) ∧
      (∀ x ∈ acc.creatorsInterests.risingCreators, x.creatorId ≠ e.1)) :
    (l.foldl (mergeCreatorStep now) acc).creatorsInterests.topCreators
      = acc.creatorsInterests.topCreators ∧
    (l.foldl (mergeCreatorStep now) acc).creatorsInterests.risingCreators
      = acc.creatorsInterests.risingCreators ∧
    (l.foldl (mergeCreatorStep now) acc).following = acc.following := by
  induction l generalizing acc with
  | nil => exact ⟨rfl, rfl, rfl⟩
  | cons e t ih =>
    have hstep := mergeCreatorStep_toprising now acc e
      (htypes e (List.mem_cons_self _ _)).1
      (hkeys e (List.mem_cons_self _ _)).1 (hkeys e (List.mem_cons_self _ _)).2
    have hfol := mergeCreatorStep_nonfollowed_following now acc e
      (htypes e (List.mem_cons_self _ _)).2
    have hmain := ih (mergeCreatorStep now acc e)
      (fun x hx => htypes x (List.mem_cons_of_mem _ hx))
      (fun x hx => by
        rw [hstep.1, hstep.2]
        exact hkeys x (List.mem_cons_of_mem _ hx))
    exact ⟨hmain.1.trans hstep.1, hmain.2.1.trans hstep.2, hmain.2.2.trans hfol⟩

theorem nodup_sub {α : Type} {l1 l2 : List α} (h : (l1 ++ l2).Nodup) :
    l1.Nodup ∧ l2.Nodup ∧ ∀ x ∈ l1, x ∉ l2 := by
  rw [List.nodup_append] at h
  exact ⟨h.1, h.2.1, fun x hx hx2 => h.2.2 hx hx2⟩

theorem mergeCreatorStep_followed_own (now : ℤ) (acc : UserState) (f : FollowedEntry)
    (hmem : f ∈ acc.following)
    (hnodup : (acc.following.map FollowedEntry.userId).Nodup)
    (hskips : f.skips < HARSKIP_THRESHOLD)
    (h1 : ∀ x ∈ acc.creatorsInterests.topCreators, x.creatorId ≠ f.userId)
    (h2 : ∀ x ∈ acc.creatorsInterests.risingCreators, x.creatorId ≠ f.userId)
    (h3 : ∀ x ∈ acc.creatorsInterests.watchedCreatorsPool, x.creatorId ≠ f.userId)
    (h4 : ∀ x ∈ acc.creatorsInterests.skippedCreatorsPool, x.creatorId ≠ f.userId) :
    ∃ g ∈ (mergeCreatorStep now acc
      (f.userId, ⟨"followed", f.score.getD 0, f.skips, f.lastUpdated, now⟩)).following,
      g.userId = f.userId ∧ g.score = some (f.score.getD 0) ∧ g.skips = f.skips := by
  have hfind : acc.following.find? (fun x => x.userId == f.userId) = some f := by
    cases hf : acc.following.find? (fun x => x.userId == f.userId) with
    | none => exact absurd (List.find?_eq_none.1 hf f hmem) (by simp)
    | some y =>
      have hy : y ∈ acc.following := List.mem_of_find?_eq_some hf
      have hyk : y.userId = f.userId := by simpa using List.find?_some hf
      rw [key_unique FollowedEntry.userId hnodup hy hmem hyk]
  obtain ⟨i, hidx, hilen, hgetd⟩ := find?_findIdx? hfind
  have hskf : acc.creatorsInterests.skippedCreatorsPool.find?
      (fun x => x.creatorId == f.userId) = none :=
    List.find?_eq_none.2 (fun x hx => by simpa using h4 x hx)
  have hwaf : acc.creatorsInterests.watchedCreatorsPool.find?
      (fun x => x.creatorId == f.userId) = none :=
    List.find?_eq_none.2 (fun x hx => by simpa using h3 x hx)
  have htf : acc.creatorsInterests.topCreators.find?
      (fun x => x.creatorId == f.userId) = none :=
    List.find?_eq_none.2 (fun x hx => by simpa using h1 x hx)
  have hrf : acc.creatorsInterests.risingCreators.find?
      (fun x => x.creatorId == f.userId) = none :=
    List.find?_eq_none.2 (fun x hx => by simpa using h2 x hx)
  unfold mergeCreatorStep
  dsimp only
  rw [hskf, hwaf, htf, hrf, hidx]
  dsimp only [Option.orElse, Option.map, Option.getD, Option.bind]
  rw [hgetd, blendSkipCounts_self]
  rw [if_pos rfl]
  dsimp only
  rw [if_neg (not_le.2 hskips)]
  refine ⟨_, mem_set_self hilen, rfl, ?_, rfl⟩
  show some (blendScores (f.score.getD 0) (f.score.getD 0) SESSION_BLEND_ALPHA)
    = some (f.score.getD 0)
  rw [blendScores_self]

theorem buildSessionMap_startSession (now : ℤ) (uid : String) (user : UserState)
    (hids : (user.creatorsInterests.topCreators.map CreatorNode.creatorId ++
      user.creatorsInterests.risingCreators.map CreatorNode.creatorId ++
      user.creatorsInterests.watchedCreatorsPool.map WatchedEntry.creatorId ++
      user.creatorsInterests.skippedCreatorsPool.map WatchedEntry.creatorId ++
      user.following.map FollowedEntry.userId).Nodup) :
    buildSessionMap now (startSession uid user) =
      user.following.map (fun f => (f.userId,
        (⟨"followed", f.score.getD 0, f.skips, f.lastUpdated, now⟩ : SessSignal))) ++
      (user.creatorsInterests.topCreators ++ user.creatorsInterests.risingCreators).map
        (fun c => (c.creatorId,
          (⟨"positive", c.score, 0, c.lastUpdated, now⟩ : SessSignal))) ++
      user.creatorsInterests.watchedCreatorsPool.map
        (fun w => (w.creatorId,
          (⟨"watched", 0, w.skips, now, w.lastSkipUpdate⟩ : SessSignal))) ++
      user.creatorsInterests.skippedCreatorsPool.map
        (fun w => (w.creatorId,
          (⟨"skipped", 0, w.skips, now, w.lastSkipUpdate⟩ : SessSignal))) := by
  obtain ⟨habcd, he, hde⟩ := nodup_sub hids
  obtain ⟨habc, hd, hcd⟩ := nodup_sub habcd
  obtain ⟨hab, hc, hbc⟩ := nodup_sub habc
  unfold buildSessionMap startSession
  dsimp only
  rw [← List.map_append, List.foldl_map, List.foldl_map, List.foldl_map, List.foldl_map]
  rw [insertFold_fresh _ _ user.following]
  case hfresh => simp
  case hnodup => simpa using he
  rw [insertFold_fresh _ _
    (user.creatorsInterests.topCreators ++ user.creatorsInterests.risingCreators)]
  case hfresh =>
    intro x hx hcon
    simp only [List.nil_append, List.map_map] at hcon
    obtain ⟨f, hf, hfe⟩ := List.mem_map.1 hcon
    have hxab : x.creatorId ∈
        user.creatorsInterests.topCreators.map CreatorNode.creatorId ++
        user.creatorsInterests.risingCreators.map CreatorNode.creatorId := by
      rcases List.mem_append.1 hx with h | h
      · exact List.mem_append_left _ (List.mem_map_of_mem _ h)
      · exact List.mem_append_right _ (List.mem_map_of_mem _ h)
    refine hde x.creatorId (List.mem_append_left _ (List.mem_append_left _ hxab)) ?_
    exact (show f.userId = CreatorNode.creatorId x from hfe) ▸ List.mem_map_of_mem _ hf
  case hnodup => simpa using hab
  rw [insertFold_fresh _ _ user.creatorsInterests.watchedCreatorsPool]
  case hfresh =>
    intro x hx hcon
    have hxc : x.creatorId ∈
        user.creatorsInterests.watchedCreatorsPool.map WatchedEntry.creatorId :=
      List.mem_map_of_mem _ hx
    simp only [List.nil_append, List.map_append, List.map_map] at hcon
    rcases List.mem_append.1 hcon with h | h
    · obtain ⟨f, hf, hfe⟩ := List.mem_map.1 h
      refine hde x.creatorId
        (List.mem_append_left _ (List.mem_append_right _ hxc)) ?_
      exact (show f.userId = WatchedEntry.creatorId x from hfe) ▸ List.mem_map_of_mem _ hf
    · have hxab : x.creatorId ∈
          user.creatorsInterests.topCreators.map CreatorNode.creatorId ++
          user.creatorsInterests.risingCreators.map CreatorNode.creatorId := by
        rcases List.mem_append.1 h with h3 | h3
        · obtain ⟨cnode, hcn, hce⟩ := List.mem_map.1 h3
          exact List.mem_append_left _
            ((show cnode.creatorId = WatchedEntry.creatorId x from hce) ▸
              List.mem_map_of_mem _ hcn)
        · obtain ⟨cnode, hcn, hce⟩ := List.mem_map.1 h3
          exact List.mem_append_right _
            ((show cnode.creatorId = WatchedEntry.creatorId x from hce) ▸
              List.mem_map_of_mem _ hcn)
      exact hbc x.creatorId hxab hxc
  case hnodup => simpa using hc
  rw [insertFold_fresh _ _ user.creatorsInterests.skippedCreatorsPool]
  case hfresh =>
    intro x hx hcon
    have hxd : x.creatorId ∈
        user.creatorsInterests.skippedCreatorsPool.map WatchedEntry.creatorId :=
      List.mem_map_of_mem _ hx
    simp only [List.nil_append, List.map_append, List.map_map] at hcon
    rcases List.mem_append.1 hcon with h | h
    rcases List.mem_append.1 h with h2 | h2
    · obtain ⟨f, hf, hfe⟩ := List.mem_map.1 h2
      refine hde x.creatorId (List.mem_append_right _ hxd) ?_
      exact (show f.userId = WatchedEntry.creatorId x from hfe) ▸ List.mem_map_of_mem _ hf
    · have hxab : x.creatorId ∈
          user.creatorsInterests.topCreators.map CreatorNode.creatorId ++
          user.creatorsInterests.risingCreators.map CreatorNode.creatorId := by
        rcases List.mem_append.1 h2 with h3 | h3
        · obtain ⟨cnode, hcn, hce⟩ := List.mem_map.1 h3
          exact List.mem_append_left _
            ((show cnode.creatorId = WatchedEntry.creatorId x from hce) ▸
              List.mem_map_of_mem _ hcn)
        · obtain ⟨cnode, hcn, hce⟩ := List.mem_map.1 h3
          exact List.mem_append_right _
            ((show cnode.creatorId = WatchedEntry.creatorId x from hce) ▸
              List.mem_map_of_mem _ hcn)
      exact hcd x.creatorId (List.mem_append_left _ hxab) hxd
    · obtain ⟨wnode, hwn, hwe⟩ := List.mem_map.1 h
      have hxc : x.creatorId ∈
          user.creatorsInterests.watchedCreatorsPool.map WatchedEntry.creatorId :=
        (show wnode.creatorId = WatchedEntry.creatorId x from hwe) ▸
          List.mem_map_of_mem _ hwn
      exact hcd x.creatorId (List.mem_append_right _ hxc) hxd
  case hnodup => simpa using hd
  simp [List.append_assoc]

theorem creatorPairs_id_sub {l1 l2 : List CreatorNode}
    (hperm : (creatorPairs l1).Perm (creatorPairs l2)) :
    ∀ x ∈ l1, x.creatorId ∈ l2.map CreatorNode.creatorId := by
  intro x hx
  have h1 : ((x.creatorId, x.score) : String × ℚ) ∈ creatorPairs l2 :=
    hperm.mem_iff.1 (List.mem_map_of_mem _ hx)
  obtain ⟨y, hy, hye⟩ := List.mem_map.1 h1
  have hy2 : y.creatorId = x.creatorId := by
    have h3 := congrArg Prod.fst hye
    simpa using h3
  exact hy2 ▸ List.mem_map_of_mem _ hy

/-- Counterexample to claim C8 as stated: a top creator with score 8 and four
accumulated skips is not score-preserved by an immediate session round trip --
the merge blends its skip count to 3 (> WATCHED_THRESHOLD), demotes it to the
watched pool and drops the score entirely. -/
theorem session_roundtrip_counterexample :
    creatorPairs cEightUser.creatorsInterests.topCreators = [("c", (8 : ℚ))] ∧
    (∀ c ∈ cEightUser.creatorsInterests.topCreators ++
      cEightUser.creatorsInterests.risingCreators, 0 ≤ c.score) ∧
    (mergeSessionBody 0 (startSession "u" cEightUser)
      cEightUser).creatorsInterests.topCreators = [] ∧
    (mergeSessionBody 0 (startSession "u" cEightUser)
      cEightUser).creatorsInterests.risingCreators = [] ∧
    (mergeSessionBody 0 (startSession "u" cEightUser)
      cEightUser).creatorsInterests.watchedCreatorsPool
      = [{ creatorId := "c", skips := 3, lastSkipUpdate := 0, reentryAt := 0 }] := by
  have hbody : mergeSessionBody 0 (startSession "u" cEightUser) cEightUser
      = mergeCreatorStep 0 cEightUser
        ("c", ⟨"positive", 8, 0, 0, 0⟩) := rfl
  refine ⟨by decide, by decide, ?_, ?_, ?_⟩ <;>
  · rw [hbody]
    unfold mergeCreatorStep
    dsimp only
    rw [if_neg (by decide : ¬ ("positive" = "followed"))]
    norm_num [List.find?, List.findIdx?, poolRemoveById, watchRemoveById, List.eraseP,
      blendSkipCounts, blendScores, emaBlend, jsRound, SESSION_BLEND_ALPHA,
      HARSKIP_THRESHOLD, WATCHED_THRESHOLD, computeNextReentry, Option.orElse,
      cEightUser]

theorem specMS_coe (l : List SpecNode) :
    specMS l = ↑(l.map (fun s => (s.name, s.score))) := rfl

theorem specMS_of_perm {l1 l2 : List SpecNode} (h : l1.Perm l2) :
    specMS l1 = specMS l2 :=
  Multiset.coe_eq_coe.2 (h.map _)

theorem specMS_keysNodup {l1 l2 : List SpecNode} (h : specMS l1 = specMS l2)
    (hn : keysNodup SpecNode.name l2) : keysNodup SpecNode.name l1 := by
  have h2 := congrArg (Multiset.map Prod.fst) h
  rw [specMS_coe, specMS_coe, Multiset.map_coe, Multiset.map_coe,
    List.map_map, List.map_map] at h2
  have h3 : (↑(l1.map SpecNode.name) : Multiset String) = ↑(l2.map SpecNode.name) := h2
  have h4 := Multiset.coe_eq_coe.1 h3
  unfold keysNodup at hn ⊢
  exact h4.nodup_iff.2 hn

theorem specMS_length {l1 l2 : List SpecNode} (h : specMS l1 = specMS l2) :
    l1.length = l2.length := by
  have h2 := congrArg Multiset.card h
  rw [specMS_coe, specMS_coe, Multiset.coe_card, Multiset.coe_card,
    List.length_map, List.length_map] at h2
  exact h2

theorem subMS_coe (l : List SubNode) :
    subMS l = ↑(l.map (fun s => (s.name, s.score, specMS s.specific))) := rfl

theorem subMS_of_perm {l1 l2 : List SubNode} (h : l1.Perm l2) :
    subMS l1 = subMS l2 :=
  Multiset.coe_eq_coe.2 (h.map _)

theorem subMS_keysNodup {l1 l2 : List SubNode} (h : subMS l1 = subMS l2)
    (hn : keysNodup SubNode.name l2) : keysNodup SubNode.name l1 := by
  have h2 := congrArg (Multiset.map Prod.fst) h
  rw [subMS_coe, subMS_coe, Multiset.map_coe, Multiset.map_coe,
    List.map_map, List.map_map] at h2
  have h3 : (↑(l1.map SubNode.name) : Multiset String) = ↑(l2.map SubNode.name) := h2
  have h4 := Multiset.coe_eq_coe.1 h3
  unfold keysNodup at hn ⊢
  exact h4.nodup_iff.2 hn

theorem catMS_coe (l : List CatNode) :
    catMS l = ↑(l.map (fun c => (c.name, c.score, subMS (c.topSubs ++ c.risingSubs)))) :=
  rfl

theorem catMS_of_perm {l1 l2 : List CatNode} (h : l1.Perm l2) :
    catMS l1 = catMS l2 :=
  Multiset.coe_eq_coe.2 (h.map _)

theorem mergeSpecStep_inv (now : ℤ) (liveSub : SubNode) (sp : SpecNode)
    (hmem : ((sp.name, sp.score) : String × ℚ) ∈ specMS liveSub.specific)
    (hnodup : keysNodup SpecNode.name liveSub.specific)
    (hlen : liveSub.specific.length ≤ SPECIFIC_MAX)
    (hnn : 0 ≤ sp.score) :
    specMS (mergeSpecStep now liveSub sp).specific = specMS liveSub.specific ∧
    keysNodup SpecNode.name (mergeSpecStep now liveSub sp).specific ∧
    (mergeSpecStep now liveSub sp).specific.length ≤ SPECIFIC_MAX ∧
    (mergeSpecStep now liveSub sp).name = liveSub.name ∧
    (mergeSpecStep now liveSub sp).score = liveSub.score := by
  rw [specMS_coe, Multiset.mem_coe] at hmem
  obtain ⟨e1, he1, he1eq⟩ := List.mem_map.1 hmem
  have hname : e1.name = sp.name := congrArg Prod.fst he1eq
  have hscore : e1.score = sp.score := congrArg Prod.snd he1eq
  have hnodup' : keysNodup SpecNode.name (liveSub.specific ++ []) := by
    rw [List.append_nil]
    exact hnodup
  have hpres : ∃ e ∈ liveSub.specific ++ [], SpecNode.name e = sp.name :=
    ⟨e1, List.mem_append_left _ he1, hname⟩
  have hfoi := findOrInitNode_of_present SpecNode.name
    (d := { name := sp.name, score := 0, lastUpdated := now }) hpres
  have hfeq : findOrInitNode SpecNode.name liveSub.specific [] sp.name
      { name := sp.name, score := 0, lastUpdated := now } = e1 :=
    key_unique SpecNode.name hnodup' hfoi.1 (List.mem_append_left _ he1)
      (hfoi.2.trans hname.symm)
  unfold mergeSpecStep
  dsimp only
  rw [hfeq, hscore, blendScores_self]
  have hpos : ¬ SpecNode.score { e1 with score := sp.score, lastUpdated := now } < 0 :=
    not_lt.2 hnn
  obtain ⟨hperm, hnodup2⟩ := insertIntoPools_inv SpecNode.name SpecNode.score
    SPECIFIC_MAX 0 liveSub.specific []
    { e1 with score := sp.score, lastUpdated := now }
    hnodup' ⟨e1, List.mem_append_left _ he1, rfl⟩ hpos hlen le_rfl
    (by norm_num [SPECIFIC_MAX])
  have hlen2 := insertIntoPools_length SpecNode.name SpecNode.score SPECIFIC_MAX 0
    liveSub.specific [] { e1 with score := sp.score, lastUpdated := now } hlen le_rfl
  have hnil : (insertIntoPools SpecNode.name SpecNode.score SPECIFIC_MAX 0
      liveSub.specific [] { e1 with score := sp.score, lastUpdated := now }).2 = [] :=
    List.length_eq_zero.1 (Nat.le_zero.1 hlen2.2)
  have herasenil : poolErase SpecNode.name
      { e1 with score := sp.score, lastUpdated := now } ([] : List SpecNode) = [] := rfl
  rw [hnil, List.append_nil, herasenil, List.append_nil] at hperm
  rw [hnil, List.append_nil] at hnodup2
  refine ⟨?_, hnodup2, hlen2.1, rfl, rfl⟩
  rw [specMS_coe, specMS_coe, Multiset.coe_eq_coe]
  have hmap := hperm.map (fun s => (s.name, s.score))
  have hmap0 := (perm_cons_eraseP_key SpecNode.name he1 hnodup).map
    (fun s => (s.name, s.score))
  rw [List.map_cons] at hmap hmap0
  have hpc : ((SpecNode.name { e1 with score := sp.score, lastUpdated := now },
      SpecNode.score { e1 with score := sp.score, lastUpdated := now }) : String × ℚ)
      = (e1.name, e1.score) := by
    show ((e1.name, sp.score) : String × ℚ) = (e1.name, e1.score)
    rw [hscore]
  rw [hpc] at hmap
  exact hmap.trans hmap0.symm

theorem foldSpec_inv (now : ℤ) (sps : List SpecNode) (acc : SubNode)
    (M0 : Multiset (String × ℚ))
    (hMS : specMS acc.specific = M0)
    (hnodup : keysNodup SpecNode.name acc.specific)
    (hlen : acc.specific.length ≤ SPECIFIC_MAX)
    (hsps : ∀ sp ∈ sps, ((sp.name, sp.score) : String × ℚ) ∈ M0 ∧ 0 ≤ sp.score) :
    specMS (sps.foldl (mergeSpecStep now) acc).specific = M0 ∧
    keysNodup SpecNode.name (sps.foldl (mergeSpecStep now) acc).specific ∧
    (sps.foldl (mergeSpecStep now) acc).specific.length ≤ SPECIFIC_MAX ∧
    (sps.foldl (mergeSpecStep now) acc).name = acc.name ∧
    (sps.foldl (mergeSpecStep now) acc).score = acc.score := by
  induction sps generalizing acc with
  | nil => exact ⟨hMS, hnodup, hlen, rfl, rfl⟩
  | cons sp rest ih =>
    have hsp := hsps sp (List.mem_cons_self _ _)
    obtain ⟨hS1, hS2, hS3, hS4, hS5⟩ := mergeSpecStep_inv now acc sp
      (by rw [hMS]; exact hsp.1) hnodup hlen hsp.2
    obtain ⟨hR1, hR2, hR3, hR4, hR5⟩ := ih (mergeSpecStep now acc sp)
      (hS1.trans hMS) hS2 hS3 (fun x hx => hsps x (List.mem_cons_of_mem _ hx))
    exact ⟨hR1, hR2, hR3, hR4.trans hS4, hR5.trans hS5⟩

theorem orElse_eq_none {α : Type} {a : Option α} {f : Unit → Option α}
    (h : a.orElse f = none) : a = none ∧ f () = none := by
  cases a with
  | none => exact ⟨rfl, h⟩
  | some x => simp [Option.orElse] at h

theorem subObs_replace {l : List SubNode} {n : String} {uc : SubNode}
    (hname : uc.name = n)
    (hobs : ∀ x ∈ l, x.name = n →
      x.score = uc.score ∧ specMS x.specific = specMS uc.specific) :
    (replaceSubByName l n uc).map (fun s => (s.name, s.score, specMS s.specific))
      = l.map (fun s => (s.name, s.score, specMS s.specific)) := by
  unfold replaceSubByName
  rw [List.map_map]
  refine List.map_congr_left ?_
  intro x hx
  by_cases hxn : x.name = n
  · simp only [Function.comp_apply, if_pos hxn]
    obtain ⟨hs, hsp⟩ := hobs x hx hxn
    rw [hname, hxn, hs, hsp]
  · simp only [Function.comp_apply, if_neg hxn]

theorem subnames_replace {l : List SubNode} {n : String} {uc : SubNode}
    (hname : uc.name = n) :
    (replaceSubByName l n uc).map SubNode.name = l.map SubNode.name := by
  unfold replaceSubByName
  rw [List.map_map]
  refine List.map_congr_left ?_
  intro x hx
  by_cases hxn : x.name = n
  · simp only [Function.comp_apply, if_pos hxn]
    rw [hname, hxn]
  · simp only [Function.comp_apply, if_neg hxn]

theorem mergeSubStep_inv (now : ℤ) (liveCat : CatNode) (sub : SubNode)
    (hmem : ((sub.name, sub.score, specMS sub.specific) :
      String × ℚ × Multiset (String × ℚ)) ∈ subMS (liveCat.topSubs ++ liveCat.risingSubs))
    (hnodup : keysNodup SubNode.name (liveCat.topSubs ++ liveCat.risingSubs))
    (hl1 : liveCat.topSubs.length ≤ TOP_SUB_MAX)
    (hl2 : liveCat.risingSubs.length ≤ RISING_SUB_MAX)
    (hnn : 0 ≤ sub.score)
    (hsubnodup : keysNodup SpecNode.name sub.specific)
    (hsublen : sub.specific.length ≤ SPECIFIC_MAX)
    (hsubnn : ∀ sp ∈ sub.specific, 0 ≤ sp.score) :
    subMS ((mergeSubStep now liveCat sub).topSubs ++
      (mergeSubStep now liveCat sub).risingSubs)
      = subMS (liveCat.topSubs ++ liveCat.risingSubs) ∧
    keysNodup SubNode.name ((mergeSubStep now liveCat sub).topSubs ++
      (mergeSubStep now liveCat sub).risingSubs) ∧
    (mergeSubStep now liveCat sub).topSubs.length ≤ TOP_SUB_MAX ∧
    (mergeSubStep now liveCat sub).risingSubs.length ≤ RISING_SUB_MAX ∧
    (mergeSubStep now liveCat sub).name = liveCat.name ∧
    (mergeSubStep now liveCat sub).score = liveCat.score := by
  rw [subMS_coe, Multiset.mem_coe] at hmem
  obtain ⟨e1, he1, he1eq⟩ := List.mem_map.1 hmem
  have hname : e1.name = sub.name := congrArg Prod.fst he1eq
  have h2 := congrArg Prod.snd he1eq
  have hscore : e1.score = sub.score := congrArg Prod.fst h2
  have hspec : specMS e1.specific = specMS sub.specific := congrArg Prod.snd h2
  have hpres : ∃ e ∈ liveCat.topSubs ++ liveCat.risingSubs, SubNode.name e = sub.name :=
    ⟨e1, he1, hname⟩
  have hfoi := findOrInitNode_of_present SubNode.name
    (d := { name := sub.name, score := 0, lastUpdated := now, specific := [] }) hpres
  have hfeq : findOrInitNode SubNode.name liveCat.topSubs liveCat.risingSubs sub.name
      { name := sub.name, score := 0, lastUpdated := now, specific := [] } = e1 :=
    key_unique SubNode.name hnodup hfoi.1 he1 (hfoi.2.trans hname.symm)
  unfold mergeSubStep
  dsimp only
  rw [hfeq, hscore, blendScores_self]
  have hpos : ¬ SubNode.score { e1 with score := sub.score, lastUpdated := now } < 0 :=
    not_lt.2 hnn
  obtain ⟨hperm, hnodup2⟩ := insertIntoPools_inv SubNode.name SubNode.score
    TOP_SUB_MAX RISING_SUB_MAX liveCat.topSubs liveCat.risingSubs
    { e1 with score := sub.score, lastUpdated := now }
    hnodup ⟨e1, he1, rfl⟩ hpos hl1 hl2 (by norm_num [TOP_SUB_MAX])
  have hlen2 := insertIntoPools_length SubNode.name SubNode.score
    TOP_SUB_MAX RISING_SUB_MAX liveCat.topSubs liveCat.risingSubs
    { e1 with score := sub.score, lastUpdated := now } hl1 hl2
  have hcandmem : ({ e1 with score := sub.score, lastUpdated := now } : SubNode) ∈
      (insertIntoPools SubNode.name SubNode.score TOP_SUB_MAX RISING_SUB_MAX
        liveCat.topSubs liveCat.risingSubs
        { e1 with score := sub.score, lastUpdated := now }).1 ++
      (insertIntoPools SubNode.name SubNode.score TOP_SUB_MAX RISING_SUB_MAX
        liveCat.topSubs liveCat.risingSubs
        { e1 with score := sub.score, lastUpdated := now }).2 :=
    hperm.mem_iff.2 (List.mem_cons_self _ _)
  cases hlive : ((insertIntoPools SubNode.name SubNode.score TOP_SUB_MAX RISING_SUB_MAX
      liveCat.topSubs liveCat.risingSubs
      { e1 with score := sub.score, lastUpdated := now }).1.find?
        (fun x => x.name == sub.name)).orElse
      (fun _ => (insertIntoPools SubNode.name SubNode.score TOP_SUB_MAX RISING_SUB_MAX
        liveCat.topSubs liveCat.risingSubs
        { e1 with score := sub.score, lastUpdated := now }).2.find?
          (fun x => x.name == sub.name)) with
  | none =>
    exfalso
    obtain ⟨hn1, hn2⟩ := orElse_eq_none hlive
    rcases List.mem_append.1 hcandmem with h | h
    · have := List.find?_eq_none.1 hn1 _ h
      simp [hname] at this
    · have := List.find?_eq_none.1 hn2 _ h
      simp [hname] at this
  | some liveSub =>
    obtain ⟨hlmem, hlpred⟩ := orElse_find?_props hlive
    have hlname : liveSub.name = sub.name := by simpa using hlpred
    have hlcand : liveSub = { e1 with score := sub.score, lastUpdated := now } :=
      key_unique SubNode.name hnodup2 hlmem hcandmem (hlname.trans hname.symm)
    have hfold := foldSpec_inv now sub.specific liveSub (specMS sub.specific)
      (by rw [hlcand]; exact hspec)
      (by rw [hlcand]; exact specMS_keysNodup hspec hsubnodup)
      (by rw [hlcand]
          show e1.specific.length ≤ SPECIFIC_MAX
          rw [specMS_length hspec]
          exact hsublen)
      (fun sp hsp => ⟨by
          rw [specMS_coe, Multiset.mem_coe]
          exact List.mem_map_of_mem _ hsp, hsubnn sp hsp⟩)
    obtain ⟨hF1, hF2, hF3, hF4, hF5⟩ := hfold
    have hlive2name : (sub.specific.foldl (mergeSpecStep now) liveSub).name = sub.name := by
      rw [hF4, hlcand]
      exact hname
    have hobs1 : ∀ x ∈ (insertIntoPools SubNode.name SubNode.score TOP_SUB_MAX
        RISING_SUB_MAX liveCat.topSubs liveCat.risingSubs
        { e1 with score := sub.score, lastUpdated := now }).1 ++
        (insertIntoPools SubNode.name SubNode.score TOP_SUB_MAX RISING_SUB_MAX
        liveCat.topSubs liveCat.risingSubs
        { e1 with score := sub.score, lastUpdated := now }).2,
        x.name = sub.name →
        x.score = (sub.specific.foldl (mergeSpecStep now) liveSub).score ∧
        specMS x.specific
          = specMS (sub.specific.foldl (mergeSpecStep now) liveSub).specific := by
      intro x hx hxn
      have hxcand : x = { e1 with score := sub.score, lastUpdated := now } :=
        key_unique SubNode.name hnodup2 hx hcandmem (hxn.trans hname.symm)
      constructor
      · rw [hxcand, hF5, hlcand]
      · rw [hxcand]
        show specMS e1.specific = _
        rw [hF1, hspec]
    refine ⟨?_, ?_, ?_, ?_, rfl, rfl⟩
    · rw [subMS_coe, subMS_coe, List.map_append,
        subObs_replace hlive2name (fun x hx => hobs1 x (List.mem_append_left _ hx)),
        subObs_replace hlive2name (fun x hx => hobs1 x (List.mem_append_right _ hx)),
        ← List.map_append, Multiset.coe_eq_coe]
      have hmap := hperm.map (fun s => (s.name, s.score, specMS s.specific))
      have hmap0 := (combined_perm_cons_poolErase SubNode.name hnodup he1).map
        (fun s => (s.name, s.score, specMS s.specific))
      rw [List.map_cons] at hmap hmap0
      have hpc : ((SubNode.name { e1 with score := sub.score, lastUpdated := now },
          SubNode.score { e1 with score := sub.score, lastUpdated := now },
          specMS (SubNode.specific { e1 with score := sub.score, lastUpdated := now })) :
          String × ℚ × Multiset (String × ℚ))
          = (e1.name, e1.score, specMS e1.specific) := by
        show ((e1.name, sub.score, specMS e1.specific) :
          String × ℚ × Multiset (String × ℚ)) = (e1.name, e1.score, specMS e1.specific)
        rw [hscore]
      rw [hpc] at hmap
      exact hmap.trans hmap0.symm
    · unfold keysNodup
      rw [List.map_append, subnames_replace hlive2name, subnames_replace hlive2name,
        ← List.map_append]
      exact hnodup2
    · rw [length_replaceSubByName]
      exact hlen2.1
    · rw [length_replaceSubByName]
      exact hlen2.2

theorem foldSub_inv (now : ℤ) (subs : List SubNode) (acc : CatNode)
    (M0 : Multiset (String × ℚ × Multiset (String × ℚ)))
    (hMS : subMS (acc.topSubs ++ acc.risingSubs) = M0)
    (hnodup : keysNodup SubNode.name (acc.topSubs ++ acc.risingSubs))
    (hl1 : acc.topSubs.length ≤ TOP_SUB_MAX)
    (hl2 : acc.risingSubs.length ≤ RISING_SUB_MAX)
    (hsubs : ∀ s ∈ subs, ((s.name, s.score, specMS s.specific) :
        String × ℚ × Multiset (String × ℚ)) ∈ M0 ∧ 0 ≤ s.score ∧
      keysNodup SpecNode.name s.specific ∧ s.specific.length ≤ SPECIFIC_MAX ∧
      ∀ sp ∈ s.specific, 0 ≤ sp.score) :
    subMS ((subs.foldl (mergeSubStep now) acc).topSubs ++
      (subs.foldl (mergeSubStep now) acc).risingSubs) = M0 ∧
    keysNodup SubNode.name ((subs.foldl (mergeSubStep now) acc).topSubs ++
      (subs.foldl (mergeSubStep now) acc).risingSubs) ∧
    (subs.foldl (mergeSubStep now) acc).topSubs.length ≤ TOP_SUB_MAX ∧
    (subs.foldl (mergeSubStep now) acc).risingSubs.length ≤ RISING_SUB_MAX ∧
    (subs.foldl (mergeSubStep now) acc).name = acc.name ∧
    (subs.foldl (mergeSubStep now) acc).score = acc.score := by
  induction subs generalizing acc with
  | nil => exact ⟨hMS, hnodup, hl1, hl2, rfl, rfl⟩
  | cons s rest ih =>
    obtain ⟨hm, hn, hsn, hsl, hsnn⟩ := hsubs s (List.mem_cons_self _ _)
    obtain ⟨hS1, hS2, hS3, hS4, hS5, hS6⟩ := mergeSubStep_inv now acc s
      (by rw [hMS]; exact hm) hnodup hl1 hl2 hn hsn hsl hsnn
    obtain ⟨hR1, hR2, hR3, hR4, hR5, hR6⟩ := ih (mergeSubStep now acc s)
      (hS1.trans hMS) hS2 hS3 hS4 (fun x hx => hsubs x (List.mem_cons_of_mem _ hx))
    exact ⟨hR1, hR2, hR3, hR4, hR5.trans hS5, hR6.trans hS6⟩

theorem catObs_replace {l : List CatNode} {n : String} {uc : CatNode}
    (hname : uc.name = n)
    (hobs : ∀ x ∈ l, x.name = n → x.score = uc.score ∧
      subMS (x.topSubs ++ x.risingSubs) = subMS (uc.topSubs ++ uc.risingSubs)) :
    (replaceCatByName l n uc).map
        (fun c => (c.name, c.score, subMS (c.topSubs ++ c.risingSubs)))
      = l.map (fun c => (c.name, c.score, subMS (c.topSubs ++ c.risingSubs))) := by
  unfold replaceCatByName
  rw [List.map_map]
  refine List.map_congr_left ?_
  intro x hx
  by_cases hxn : x.name = n
  · simp only [Function.comp_apply, if_pos hxn]
    obtain ⟨hs, hsp⟩ := hobs x hx hxn
    rw [hname, hxn, hs, hsp]
  · simp only [Function.comp_apply, if_neg hxn]

theorem mergeCatStep_deep_inv (now : ℤ) (acc : List CatNode × List CatNode)
    (cat : CatNode)
    (hmem : ((cat.name, cat.score, subMS (cat.topSubs ++ cat.risingSubs)) :
      String × ℚ × Multiset (String × ℚ × Multiset (String × ℚ)))
      ∈ catMS (acc.1 ++ acc.2))
    (hnodup : keysNodup CatNode.name (acc.1 ++ acc.2))
    (h1 : acc.1.length ≤ TOP_CAT_MAX) (h2 : acc.2.length ≤ RISING_CAT_MAX)
    (hpool : ∀ c ∈ acc.1 ++ acc.2,
      c.topSubs.length ≤ TOP_SUB_MAX ∧ c.risingSubs.length ≤ RISING_SUB_MAX)
    (hnn : 0 ≤ cat.score)
    (hsubnodup : keysNodup SubNode.name (cat.topSubs ++ cat.risingSubs))
    (hsubs : ∀ s ∈ cat.topSubs ++ cat.risingSubs, 0 ≤ s.score ∧
      keysNodup SpecNode.name s.specific ∧ s.specific.length ≤ SPECIFIC_MAX ∧
      ∀ sp ∈ s.specific, 0 ≤ sp.score) :
    catMS ((mergeCatStep now acc cat).1 ++ (mergeCatStep now acc cat).2)
      = catMS (acc.1 ++ acc.2) ∧
    keysNodup CatNode.name ((mergeCatStep now acc cat).1 ++ (mergeCatStep now acc cat).2) ∧
    (mergeCatStep now acc cat).1.length ≤ TOP_CAT_MAX ∧
    (mergeCatStep now acc cat).2.length ≤ RISING_CAT_MAX ∧
    (∀ c ∈ (mergeCatStep now acc cat).1 ++ (mergeCatStep now acc cat).2,
      c.topSubs.length ≤ TOP_SUB_MAX ∧ c.risingSubs.length ≤ RISING_SUB_MAX) := by
  rw [catMS_coe, Multiset.mem_coe] at hmem
  obtain ⟨e1, he1, he1eq⟩ := List.mem_map.1 hmem
  have hname : e1.name = cat.name := congrArg Prod.fst he1eq
  have h2c := congrArg Prod.snd he1eq
  have hscore : e1.score = cat.score := congrArg Prod.fst h2c
  have hspec : subMS (e1.topSubs ++ e1.risingSubs)
      = subMS (cat.topSubs ++ cat.risingSubs) := congrArg Prod.snd h2c
  have hpres : ∃ e ∈ acc.1 ++ acc.2, CatNode.name e = cat.name := ⟨e1, he1, hname⟩
  have hfoi := findOrInitNode_of_present CatNode.name
    (d := { name := cat.name, score := 0, lastUpdated := now,
            topSubs := [], risingSubs := [] }) hpres
  have hfeq : findOrInitNode CatNode.name acc.1 acc.2 cat.name
      { name := cat.name, score := 0, lastUpdated := now,
        topSubs := [], risingSubs := [] } = e1 :=
    key_unique CatNode.name hnodup hfoi.1 he1 (hfoi.2.trans hname.symm)
  unfold mergeCatStep
  dsimp only
  rw [hfeq, hscore, blendScores_self]
  have hpos : ¬ CatNode.score { e1 with score := cat.score, lastUpdated := now } < 0 :=
    not_lt.2 hnn
  obtain ⟨hperm, hnodup2⟩ := insertIntoPools_inv CatNode.name CatNode.score
    TOP_CAT_MAX RISING_CAT_MAX acc.1 acc.2
    { e1 with score := cat.score, lastUpdated := now }
    hnodup ⟨e1, he1, rfl⟩ hpos h1 h2 (by norm_num [TOP_CAT_MAX])
  have hlen2 := insertIntoPools_length CatNode.name CatNode.score
    TOP_CAT_MAX RISING_CAT_MAX acc.1 acc.2
    { e1 with score := cat.score, lastUpdated := now } h1 h2
  have hcandmem : ({ e1 with score := cat.score, lastUpdated := now } : CatNode) ∈
      (insertIntoPools CatNode.name CatNode.score TOP_CAT_MAX RISING_CAT_MAX
        acc.1 acc.2 { e1 with score := cat.score, lastUpdated := now }).1 ++
      (insertIntoPools CatNode.name CatNode.score TOP_CAT_MAX RISING_CAT_MAX
        acc.1 acc.2 { e1 with score := cat.score, lastUpdated := now }).2 :=
    hperm.mem_iff.2 (List.mem_cons_self _ _)
  have hpool2 : ∀ c ∈ (insertIntoPools CatNode.name CatNode.score TOP_CAT_MAX
      RISING_CAT_MAX acc.1 acc.2
      { e1 with score := cat.score, lastUpdated := now }).1 ++
      (insertIntoPools CatNode.name CatNode.score TOP_CAT_MAX RISING_CAT_MAX
        acc.1 acc.2 { e1 with score := cat.score, lastUpdated := now }).2,
      c.topSubs.length ≤ TOP_SUB_MAX ∧ c.risingSubs.length ≤ RISING_SUB_MAX := by
    intro c hc
    rcases List.mem_cons.1 (hperm.mem_iff.1 hc) with hcc | hcc
    · rw [hcc]
      exact hpool e1 he1
    · rcases List.mem_append.1 hcc with hd | hd
      · exact hpool c (List.mem_append_left _ ((List.eraseP_sublist _).subset hd))
      · exact hpool c (List.mem_append_right _ ((List.eraseP_sublist _).subset hd))
  cases hlive : ((insertIntoPools CatNode.name CatNode.score TOP_CAT_MAX RISING_CAT_MAX
      acc.1 acc.2 { e1 with score := cat.score, lastUpdated := now }).1.find?
        (fun c => c.name == cat.name)).orElse
      (fun _ => (insertIntoPools CatNode.name CatNode.score TOP_CAT_MAX RISING_CAT_MAX
        acc.1 acc.2 { e1 with score := cat.score, lastUpdated := now }).2.find?
          (fun c => c.name == cat.name)) with
  | none =>
    exfalso
    obtain ⟨hn1, hn2⟩ := orElse_eq_none hlive
    rcases List.mem_append.1 hcandmem with h | h
    · have := List.find?_eq_none.1 hn1 _ h
      simp [hname] at this
    · have := List.find?_eq_none.1 hn2 _ h
      simp [hname] at this
  | some liveCat =>
    dsimp only
    obtain ⟨hlmem, hlpred⟩ := orElse_find?_props hlive
    have hlname : liveCat.name = cat.name := by simpa using hlpred
    have hlcand : liveCat = { e1 with score := cat.score, lastUpdated := now } :=
      key_unique CatNode.name hnodup2 hlmem hcandmem (hlname.trans hname.symm)
    have hfold := foldSub_inv now (cat.topSubs ++ cat.risingSubs) liveCat
      (subMS (cat.topSubs ++ cat.risingSubs))
      (by rw [hlcand]
          show subMS (e1.topSubs ++ e1.risingSubs) = _
          exact hspec)
      (by rw [hlcand]
          show keysNodup SubNode.name (e1.topSubs ++ e1.risingSubs)
          exact subMS_keysNodup hspec hsubnodup)
      (by rw [hlcand]; exact (hpool e1 he1).1)
      (by rw [hlcand]; exact (hpool e1 he1).2)
      (fun s hs => ⟨by
          rw [subMS_coe, Multiset.mem_coe]
          exact List.mem_map_of_mem _ hs,
        (hsubs s hs).1, (hsubs s hs).2.1, (hsubs s hs).2.2.1, (hsubs s hs).2.2.2⟩)
    obtain ⟨hF1, hF2, hF3, hF4, hF5, hF6⟩ := hfold
    have hlive2name : ((cat.topSubs ++ cat.risingSubs).foldl
        (mergeSubStep now) liveCat).name = cat.name := by
      rw [hF5, hlcand]
      exact hname
    have hobs1 : ∀ x ∈ (insertIntoPools CatNode.name CatNode.score TOP_CAT_MAX
        RISING_CAT_MAX acc.1 acc.2
        { e1 with score := cat.score, lastUpdated := now }).1 ++
        (insertIntoPools CatNode.name CatNode.score TOP_CAT_MAX RISING_CAT_MAX
        acc.1 acc.2 { e1 with score := cat.score, lastUpdated := now }).2,
        x.name = cat.name →
        x.score = ((cat.topSubs ++ cat.risingSubs).foldl (mergeSubStep now) liveCat).score ∧
        subMS (x.topSubs ++ x.risingSubs)
          = subMS (((cat.topSubs ++ cat.risingSubs).foldl
              (mergeSubStep now) liveCat).topSubs ++
            ((cat.topSubs ++ cat.risingSubs).foldl
              (mergeSubStep now) liveCat).risingSubs) := by
      intro x hx hxn
      have hxcand : x = { e1 with score := cat.score, lastUpdated := now } :=
        key_unique CatNode.name hnodup2 hx hcandmem (hxn.trans hname.symm)
      constructor
      · rw [hxcand, hF6, hlcand]
      · rw [hxcand, hF1]
        show subMS (e1.topSubs ++ e1.risingSubs) = _
        exact hspec
    refine ⟨?_, ?_, ?_, ?_, ?_⟩
    · rw [catMS_coe, catMS_coe]
      rw [List.map_append,
        catObs_replace hlive2name (fun x hx => hobs1 x (List.mem_append_left _ hx)),
        catObs_replace hlive2name (fun x hx => hobs1 x (List.mem_append_right _ hx)),
        ← List.map_append, Multiset.coe_eq_coe]
      have hmap := hperm.map
        (fun c => (c.name, c.score, subMS (c.topSubs ++ c.risingSubs)))
      have hmap0 := (combined_perm_cons_poolErase CatNode.name hnodup he1).map
        (fun c => (c.name, c.score, subMS (c.topSubs ++ c.risingSubs)))
      rw [List.map_cons] at hmap hmap0
      have hpc : ((CatNode.name { e1 with score := cat.score, lastUpdated := now },
          CatNode.score { e1 with score := cat.score, lastUpdated := now },
          subMS (CatNode.topSubs { e1 with score := cat.score, lastUpdated := now } ++
            CatNode.risingSubs { e1 with score := cat.score, lastUpdated := now })) :
          String × ℚ × Multiset (String × ℚ × Multiset (String × ℚ)))
          = (e1.name, e1.score, subMS (e1.topSubs ++ e1.risingSubs)) := by
        show ((e1.name, cat.score, subMS (e1.topSubs ++ e1.risingSubs)) :
          String × ℚ × Multiset (String × ℚ × Multiset (String × ℚ)))
          = (e1.name, e1.score, subMS (e1.topSubs ++ e1.risingSubs))
        rw [hscore]
      rw [hpc] at hmap
      exact hmap.trans hmap0.symm
    · unfold keysNodup
      rw [List.map_append, names_replace hlive2name, names_replace hlive2name,
        ← List.map_append]
      exact hnodup2
    · rw [length_replaceCatByName]
      exact hlen2.1
    · rw [length_replaceCatByName]
      exact hlen2.2
    · intro c hc
      have hc2 : c = ((cat.topSubs ++ cat.risingSubs).foldl (mergeSubStep now) liveCat)
          ∨ c ∈ (insertIntoPools CatNode.name CatNode.score TOP_CAT_MAX
            RISING_CAT_MAX acc.1 acc.2
            { e1 with score := cat.score, lastUpdated := now }).1 ++
            (insertIntoPools CatNode.name CatNode.score TOP_CAT_MAX RISING_CAT_MAX
            acc.1 acc.2 { e1 with score := cat.score, lastUpdated := now }).2 := by
        rcases List.mem_append.1 hc with hd | hd
        · rcases mem_replaceCatByName hd with hcc | hcc
          · exact Or.inl hcc
          · exact Or.inr (List.mem_append_left _ hcc)
        · rcases mem_replaceCatByName hd with hcc | hcc
          · exact Or.inl hcc
          · exact Or.inr (List.mem_append_right _ hcc)
      rcases hc2 with hcc | hcc
      · rw [hcc]
        exact ⟨hF3, hF4⟩
      · exact hpool2 c hcc

theorem mergeCat_fold_deep_inv (now : ℤ) (orig : List CatNode) (cats : List CatNode)
    (acc : List CatNode × List CatNode)
    (hMS : catMS (acc.1 ++ acc.2) = catMS orig)
    (hnodup : keysNodup CatNode.name (acc.1 ++ acc.2))
    (h1 : acc.1.length ≤ TOP_CAT_MAX) (h2 : acc.2.length ≤ RISING_CAT_MAX)
    (hpool : ∀ c ∈ acc.1 ++ acc.2,
      c.topSubs.length ≤ TOP_SUB_MAX ∧ c.risingSubs.length ≤ RISING_SUB_MAX)
    (hnn0 : ∀ c ∈ orig, 0 ≤ c.score)
    (htree : CatTreeSane orig)
    (hcats : ∀ c ∈ cats, c ∈ orig) :
    catMS ((cats.foldl (mergeCatStep now) acc).1 ++
      (cats.foldl (mergeCatStep now) acc).2) = catMS orig ∧
    keysNodup CatNode.name ((cats.foldl (mergeCatStep now) acc).1 ++
      (cats.foldl (mergeCatStep now) acc).2) ∧
    (cats.foldl (mergeCatStep now) acc).1.length ≤ TOP_CAT_MAX ∧
    (cats.foldl (mergeCatStep now) acc).2.length ≤ RISING_CAT_MAX := by
  induction cats generalizing acc with
  | nil => exact ⟨hMS, hnodup, h1, h2⟩
  | cons cat rest ih =>
    have hcat := hcats cat (List.mem_cons_self _ _)
    obtain ⟨hT1, hT2, hT3⟩ := htree cat hcat
    obtain ⟨hS1, hS2, hS3, hS4, hS5⟩ := mergeCatStep_deep_inv now acc cat
      (by rw [hMS, catMS_coe, Multiset.mem_coe]; exact List.mem_map_of_mem _ hcat)
      hnodup h1 h2 hpool (hnn0 cat hcat) hT2
      (fun s hs => ⟨(hT3 s hs).1, (hT3 s hs).2.1,
        (hT1.2.2 s hs : SubCapsOK s), (hT3 s hs).2.2⟩)
    obtain ⟨hR1, hR2, hR3, hR4⟩ := ih (mergeCatStep now acc cat)
      (hS1.trans hMS) hS2 hS3 hS4 hS5
      (fun c hc => hcats c (List.mem_cons_of_mem _ hc))
    exact ⟨hR1, hR2, hR3, hR4⟩

theorem insertFold_filter {β : Type} (keyF : β → String) (sigF : β → SessSignal)
    (l : List β) (m : List (String × SessSignal))
    (hnodup : (l.map keyF).Nodup) :
    l.foldl (fun m x => insertIfAbsentSig m (keyF x) (sigF x)) m
      = m ++ (l.filter (fun x => !(m.any (fun p => p.1 == keyF x)))).map
          (fun x => (keyF x, sigF x)) := by
  induction l generalizing m with
  | nil => simp
  | cons a t ih =>
    have hnod2 : keyF a ∉ t.map keyF ∧ (t.map keyF).Nodup := by
      have h3 := hnodup
      rw [List.map_cons, List.nodup_cons] at h3
      exact h3
    rw [List.foldl_cons]
    cases hst : m.any (fun p => p.1 == keyF a) with
    | true =>
      have hstep : insertIfAbsentSig m (keyF a) (sigF a) = m := by
        unfold insertIfAbsentSig
        rw [if_pos hst]
      rw [hstep, ih m hnod2.2]
      congr 1
      rw [List.filter_cons, if_neg (by rw [hst]; decide)]
    | false =>
      have hstep : insertIfAbsentSig m (keyF a) (sigF a) = m ++ [(keyF a, sigF a)] := by
        unfold insertIfAbsentSig
        rw [hst]
        rfl
      rw [hstep, ih (m ++ [(keyF a, sigF a)]) hnod2.2]
      have hfc : t.filter
          (fun x => !((m ++ [(keyF a, sigF a)]).any (fun p => p.1 == keyF x)))
          = t.filter (fun x => !(m.any (fun p => p.1 == keyF x))) := by
        refine List.filter_congr ?_
        intro x hx
        rw [List.any_append]
        have hone : ([(keyF a, sigF a)].any (fun p => p.1 == keyF x)) = false := by
          simp only [List.any_cons, List.any_nil, Bool.or_false]
          exact beq_eq_false_iff_ne.2
            (fun hcon => hnod2.1 (hcon ▸ List.mem_map_of_mem _ hx))
        rw [hone, Bool.or_false]
      rw [hfc, List.filter_cons, if_pos (by rw [hst]; decide), List.map_cons,
        List.append_assoc]
      rfl

theorem mergeCreatorStep_followed_pools (now : ℤ) (acc : UserState)
    (e : String × SessSignal) (htype : e.2.type = "followed")
    (h1 : ∀ x ∈ acc.creatorsInterests.topCreators, x.creatorId ≠ e.1)
    (h2 : ∀ x ∈ acc.creatorsInterests.risingCreators, x.creatorId ≠ e.1) :
    (mergeCreatorStep now acc e).creatorsInterests.topCreators
      = acc.creatorsInterests.topCreators ∧
    (mergeCreatorStep now acc e).creatorsInterests.risingCreators
      = acc.creatorsInterests.risingCreators ∧
    (∀ x ∈ (mergeCreatorStep now acc e).creatorsInterests.watchedCreatorsPool,
      x ∈ acc.creatorsInterests.watchedCreatorsPool) ∧
    (∀ x ∈ (mergeCreatorStep now acc e).creatorsInterests.skippedCreatorsPool,
      x ∈ acc.creatorsInterests.skippedCreatorsPool) := by
  unfold mergeCreatorStep
  dsimp only
  rw [if_pos htype]
  dsimp only
  unfold poolRemoveById watchRemoveById
  rw [eraseP_key_of_not_mem CreatorNode.creatorId h1,
      eraseP_key_of_not_mem CreatorNode.creatorId h2]
  exact ⟨rfl, rfl, fun x hx => (List.eraseP_sublist _).subset hx,
    fun x hx => (List.eraseP_sublist _).subset hx⟩

theorem foldF_pools (now : ℤ) (l : List (String × SessSignal)) (acc : UserState)
    (htypes : ∀ e ∈ l, e.2.type = "followed")
    (hkeys : ∀ e ∈ l,
      (∀ x ∈ acc.creatorsInterests.topCreators, x.creatorId ≠ e.1) ∧
      (∀ x ∈ acc.creatorsInterests.risingCreators, x.creatorId ≠ e.1)) :
    (l.foldl (mergeCreatorStep now) acc).creatorsInterests.topCreators
      = acc.creatorsInterests.topCreators ∧
    (l.foldl (mergeCreatorStep now) acc).creatorsInterests.risingCreators
      = acc.creatorsInterests.risingCreators ∧
    (∀ x ∈ (l.foldl (mergeCreatorStep now) acc).creatorsInterests.watchedCreatorsPool,
      x ∈ acc.creatorsInterests.watchedCreatorsPool) ∧
    (∀ x ∈ (l.foldl (mergeCreatorStep now) acc).creatorsInterests.skippedCreatorsPool,
      x ∈ acc.creatorsInterests.skippedCreatorsPool) := by
  induction l generalizing acc with
  | nil => exact ⟨rfl, rfl, fun x hx => hx, fun x hx => hx⟩
  | cons e t ih =>
    obtain ⟨hS1, hS2, hS3, hS4⟩ := mergeCreatorStep_followed_pools now acc e
      (htypes e (List.mem_cons_self _ _))
      (hkeys e (List.mem_cons_self _ _)).1 (hkeys e (List.mem_cons_self _ _)).2
    obtain ⟨hR1, hR2, hR3, hR4⟩ := ih (mergeCreatorStep now acc e)
      (fun x hx => htypes x (List.mem_cons_of_mem _ hx))
      (fun x hx => by
        rw [hS1, hS2]
        exact hkeys x (List.mem_cons_of_mem _ hx))
    exact ⟨hR1.trans hS1, hR2.trans hS2,
      fun x hx => hS3 x (hR3 x hx), fun x hx => hS4 x (hR4 x hx)⟩

theorem buildSessionMap_startSession_coexist (now : ℤ) (uid : String) (user : UserState)
    (hcr : (user.creatorsInterests.topCreators.map CreatorNode.creatorId ++
      user.creatorsInterests.risingCreators.map CreatorNode.creatorId ++
      user.creatorsInterests.watchedCreatorsPool.map WatchedEntry.creatorId ++
      user.creatorsInterests.skippedCreatorsPool.map WatchedEntry.creatorId).Nodup)
    (he : (user.following.map FollowedEntry.userId).Nodup)
    (htrf : ∀ f ∈ user.following,
      f.userId ∉ user.creatorsInterests.topCreators.map CreatorNode.creatorId ++
        user.creatorsInterests.risingCreators.map CreatorNode.creatorId) :
    buildSessionMap now (startSession uid user) =
      user.following.map (fun f => (f.userId,
        (⟨"followed", f.score.getD 0, f.skips, f.lastUpdated, now⟩ : SessSignal))) ++
      (user.creatorsInterests.topCreators ++ user.creatorsInterests.risingCreators).map
        (fun c => (c.creatorId,
          (⟨"positive", c.score, 0, c.lastUpdated, now⟩ : SessSignal))) ++
      ((user.creatorsInterests.watchedCreatorsPool.filter
          (fun w => !(user.following.any (fun f => f.userId == w.creatorId)))).map
        (fun w => (w.creatorId,
          (⟨"watched", 0, w.skips, now, w.lastSkipUpdate⟩ : SessSignal)))) ++
      ((user.creatorsInterests.skippedCreatorsPool.filter
          (fun w => !(user.following.any (fun f => f.userId == w.creatorId)))).map
        (fun w => (w.creatorId,
          (⟨"skipped", 0, w.skips, now, w.lastSkipUpdate⟩ : SessSignal)))) := by
  obtain ⟨habc, hd, hcd⟩ := nodup_sub hcr
  obtain ⟨hab, hc, hbc⟩ := nodup_sub habc
  have habmem2 : ∀ x ∈ user.creatorsInterests.topCreators ++
      user.creatorsInterests.risingCreators,
      x.creatorId ∈ user.creatorsInterests.topCreators.map CreatorNode.creatorId ++
        user.creatorsInterests.risingCreators.map CreatorNode.creatorId := by
    intro x hx
    rcases List.mem_append.1 hx with h | h
    · exact List.mem_append_left _ (List.mem_map_of_mem _ h)
    · exact List.mem_append_right _ (List.mem_map_of_mem _ h)
  unfold buildSessionMap startSession
  dsimp only
  rw [← List.map_append, List.foldl_map, List.foldl_map, List.foldl_map, List.foldl_map]
  rw [insertFold_fresh _ _ user.following]
  case hfresh => simp
  case hnodup => simpa using he
  rw [insertFold_fresh _ _
    (user.creatorsInterests.topCreators ++ user.creatorsInterests.risingCreators)]
  case hfresh =>
    intro x hx hcon
    simp only [List.nil_append, List.map_map] at hcon
    obtain ⟨f, hf, hfe⟩ := List.mem_map.1 hcon
    refine htrf f hf ?_
    rw [show f.userId = CreatorNode.creatorId x from hfe]
    exact habmem2 x hx
  case hnodup => simpa using hab
  rw [insertFold_filter _ _ user.creatorsInterests.watchedCreatorsPool _
    (by simpa using hc)]
  have hWfc : user.creatorsInterests.watchedCreatorsPool.filter
      (fun x => !(((([] : List (String × SessSignal)) ++
        user.following.map (fun (f : FollowedEntry) => (f.userId,
          (⟨"followed", f.score.getD 0, f.skips, f.lastUpdated, now⟩ : SessSignal)))) ++
        (user.creatorsInterests.topCreators ++
          user.creatorsInterests.risingCreators).map
          (fun (c : CreatorNode) => (c.creatorId,
            (⟨"positive", c.score, 0, c.lastUpdated, now⟩ : SessSignal)))).any
          (fun p => p.1 == x.creatorId)))
      = user.creatorsInterests.watchedCreatorsPool.filter
        (fun w => !(user.following.any (fun f => f.userId == w.creatorId))) := by
    refine List.filter_congr ?_
    intro w hw
    congr 1
    cases hany : user.following.any (fun f => f.userId == w.creatorId) with
    | true =>
      rw [List.any_eq_true] at hany
      obtain ⟨f, hf, hfeq⟩ := hany
      rw [List.any_eq_true]
      exact ⟨(f.userId,
        (⟨"followed", f.score.getD 0, f.skips, f.lastUpdated, now⟩ : SessSignal)),
        List.mem_append_left _ (List.mem_append_right _ (List.mem_map_of_mem _ hf)),
        hfeq⟩
    | false =>
      rw [List.any_eq_false] at hany
      rw [List.any_eq_false]
      intro p hp hcon
      rcases List.mem_append.1 hp with h2 | h2
      · rcases List.mem_append.1 h2 with h3 | h3
        · simp at h3
        · obtain ⟨f, hf, hfe⟩ := List.mem_map.1 h3
          rw [← hfe] at hcon
          exact hany f hf hcon
      · obtain ⟨cn, hcn, hfe⟩ := List.mem_map.1 h2
        rw [← hfe] at hcon
        have hcid : cn.creatorId = w.creatorId := by simpa using hcon
        exact hbc cn.creatorId (habmem2 cn hcn)
          (by rw [hcid]; exact List.mem_map_of_mem _ hw)
  rw [hWfc]
  rw [insertFold_filter _ _ user.creatorsInterests.skippedCreatorsPool _
    (by simpa using hd)]
  have hSfc : user.creatorsInterests.skippedCreatorsPool.filter
      (fun x => !((((([] : List (String × SessSignal)) ++
        user.following.map (fun (f : FollowedEntry) => (f.userId,
          (⟨"followed", f.score.getD 0, f.skips, f.lastUpdated, now⟩ : SessSignal)))) ++
        (user.creatorsInterests.topCreators ++
          user.creatorsInterests.risingCreators).map
          (fun (c : CreatorNode) => (c.creatorId,
            (⟨"positive", c.score, 0, c.lastUpdated, now⟩ : SessSignal)))) ++
        ((user.creatorsInterests.watchedCreatorsPool.filter
          (fun w => !(user.following.any (fun f => f.userId == w.creatorId)))).map
          (fun (w : WatchedEntry) => (w.creatorId,
            (⟨"watched", 0, w.skips, now, w.lastSkipUpdate⟩ : SessSignal))))).any
          (fun p => p.1 == x.creatorId)))
      = user.creatorsInterests.skippedCreatorsPool.filter
        (fun w => !(user.following.any (fun f => f.userId == w.creatorId))) := by
    refine List.filter_congr ?_
    intro w hw
    congr 1
    have hdid : w.creatorId ∈ user.creatorsInterests.skippedCreatorsPool.map
        WatchedEntry.creatorId := List.mem_map_of_mem _ hw
    cases hany : user.following.any (fun f => f.userId == w.creatorId) with
    | true =>
      rw [List.any_eq_true] at hany
      obtain ⟨f, hf, hfeq⟩ := hany
      rw [List.any_eq_true]
      exact ⟨(f.userId,
        (⟨"followed", f.score.getD 0, f.skips, f.lastUpdated, now⟩ : SessSignal)),
        List.mem_append_left _ (List.mem_append_left _
          (List.mem_append_right _ (List.mem_map_of_mem _ hf))),
        hfeq⟩
    | false =>
      rw [List.any_eq_false] at hany
      rw [List.any_eq_false]
      intro p hp hcon
      rcases List.mem_append.1 hp with h2 | h2
      · rcases List.mem_append.1 h2 with h3 | h3
        · rcases List.mem_append.1 h3 with h4 | h4
          · simp at h4
          · obtain ⟨f, hf, hfe⟩ := List.mem_map.1 h4
            rw [← hfe] at hcon
            exact hany f hf hcon
        · obtain ⟨cn, hcn, hfe⟩ := List.mem_map.1 h3
          rw [← hfe] at hcon
          have hcid : cn.creatorId = w.creatorId := by simpa using hcon
          exact hcd cn.creatorId (List.mem_append_left _ (habmem2 cn hcn))
            (by rw [hcid]; exact hdid)
      · obtain ⟨wn, hwn, hfe⟩ := List.mem_map.1 h2
        rw [← hfe] at hcon
        have hcid : wn.creatorId = w.creatorId := by simpa using hcon
        exact hcd wn.creatorId
          (List.mem_append_right _
            (List.mem_map_of_mem _ (List.mem_of_mem_filter hwn)))
          (by rw [hcid]; exact hdid)
  rw [hSfc]
  simp [List.append_assoc]

/-- Claim C8 (corrected): `emaBlend` on equal old and session values is the
identity for every alpha, and an immediate start-session/merge-back round
trip (no intervening writes) preserves scores at every level of the interest
tree and, below the skip thresholds, the creator and followed-creator
scores.  Under the spec-3.2 invariants (each creator in at most one of
top/rising/watched/skipped, a followed creator never doubling as a
top/rising pool entry though it may coexist with watched/skipped entries,
caps and distinct names throughout the interest tree, nonnegative scores)
the merged profile keeps the full nested (name, score) multiset of the
interest tree across categories, subcategories and specifics, keeps the
(creatorId, score) multiset of topCreators ++ risingCreators provided no
creator's blended skip count crosses WATCHED_THRESHOLD, and gives every
followed creator below HARSKIP_THRESHOLD that has no watched/skipped
coexisting entry the same score (modulo the `|| 0` read) and skip count.
Unqualified creator-score preservation fails: see the counterexample, where
a top creator with four skips is demoted to the watched pool and its score
dropped. -/
theorem session_roundtrip (now : ℤ) (uid : String) (user : UserState)
    (hcr : (user.creatorsInterests.topCreators.map CreatorNode.creatorId ++
      user.creatorsInterests.risingCreators.map CreatorNode.creatorId ++
      user.creatorsInterests.watchedCreatorsPool.map WatchedEntry.creatorId ++
      user.creatorsInterests.skippedCreatorsPool.map WatchedEntry.creatorId).Nodup)
    (he : (user.following.map FollowedEntry.userId).Nodup)
    (htrf : ∀ f ∈ user.following,
      f.userId ∉ user.creatorsInterests.topCreators.map CreatorNode.creatorId ++
        user.creatorsInterests.risingCreators.map CreatorNode.creatorId)
    (hcatnodup : keysNodup CatNode.name (user.topInterests ++ user.risingInterests))
    (hcatnn : ∀ c ∈ user.topInterests ++ user.risingInterests, 0 ≤ c.score)
    (hcat1 : user.topInterests.length ≤ TOP_CAT_MAX)
    (hcat2 : user.risingInterests.length ≤ RISING_CAT_MAX)
    (htree : CatTreeSane (user.topInterests ++ user.risingInterests))
    (hcr1 : user.creatorsInterests.topCreators.length ≤ TOP_CREATOR_MAX)
    (hcr2 : user.creatorsInterests.risingCreators.length ≤ RISING_CREATOR_MAX)
    (hcrnn : ∀ c ∈ user.creatorsInterests.topCreators ++
      user.creatorsInterests.risingCreators, 0 ≤ c.score)
    (hnodemote : ∀ c ∈ user.creatorsInterests.topCreators ++
      user.creatorsInterests.risingCreators,
      blendSkipCounts c.skips 0 SESSION_BLEND_ALPHA ≤ WATCHED_THRESHOLD) :
    (∀ x alpha : ℚ, emaBlend x x alpha = x) ∧
    catMS ((mergeSessionBody now (startSession uid user) user).topInterests ++
      (mergeSessionBody now (startSession uid user) user).risingInterests)
      = catMS (user.topInterests ++ user.risingInterests) ∧
    (creatorPairs
      ((mergeSessionBody now (startSession uid user) user).creatorsInterests.topCreators ++
       (mergeSessionBody now (startSession uid user) user).creatorsInterests.risingCreators)).Perm
      (creatorPairs (user.creatorsInterests.topCreators ++
        user.creatorsInterests.risingCreators)) ∧
    (∀ f ∈ user.following, f.skips < HARSKIP_THRESHOLD →
      f.userId ∉ user.creatorsInterests.watchedCreatorsPool.map WatchedEntry.creatorId →
      f.userId ∉ user.creatorsInterests.skippedCreatorsPool.map WatchedEntry.creatorId →
      ∃ g ∈ (mergeSessionBody now (startSession uid user) user).following,
        g.userId = f.userId ∧ g.score = some (f.score.getD 0) ∧ g.skips = f.skips) := by
  obtain ⟨habc, hd, hcd⟩ := nodup_sub hcr
  obtain ⟨hab, hc, hbc⟩ := nodup_sub habc
  have hcats : (startSession uid user).topCategories ++
      (startSession uid user).risingCategories
      = user.topInterests ++ user.risingInterests := rfl
  unfold mergeSessionBody
  dsimp only
  rw [hcats, buildSessionMap_startSession_coexist now uid user hcr he htrf,
    List.foldl_append, List.foldl_append, List.foldl_append]
  set Fm := user.following.map (fun f => (f.userId,
    (⟨"followed", f.score.getD 0, f.skips, f.lastUpdated, now⟩ : SessSignal))) with hFm
  set Pm := (user.creatorsInterests.topCreators ++
      user.creatorsInterests.risingCreators).map
    (fun c => (c.creatorId,
      (⟨"positive", c.score, 0, c.lastUpdated, now⟩ : SessSignal))) with hPm
  set Wm := (user.creatorsInterests.watchedCreatorsPool.filter
      (fun w => !(user.following.any (fun f => f.userId == w.creatorId)))).map
    (fun w => (w.creatorId,
      (⟨"watched", 0, w.skips, now, w.lastSkipUpdate⟩ : SessSignal))) with hWm
  set Sm := (user.creatorsInterests.skippedCreatorsPool.filter
      (fun w => !(user.following.any (fun f => f.userId == w.creatorId)))).map
    (fun w => (w.creatorId,
      (⟨"skipped", 0, w.skips, now, w.lastSkipUpdate⟩ : SessSignal))) with hSm
  set CP := (user.topInterests ++ user.risingInterests).foldl (mergeCatStep now)
    (user.topInterests, user.risingInterests) with hCP
  set u1 : UserState := { user with topInterests := CP.1, risingInterests := CP.2 }
    with hu1
  set u2 := Fm.foldl (mergeCreatorStep now) u1 with hu2
  set u3 := Pm.foldl (mergeCreatorStep now) u2 with hu3
  set u4 := Wm.foldl (mergeCreatorStep now) u3 with hu4
  have habmem : ∀ x ∈ user.creatorsInterests.topCreators ++
      user.creatorsInterests.risingCreators,
      x.creatorId ∈ user.creatorsInterests.topCreators.map CreatorNode.creatorId ++
        user.creatorsInterests.risingCreators.map CreatorNode.creatorId := by
    intro x hx
    rcases List.mem_append.1 hx with h | h
    · exact List.mem_append_left _ (List.mem_map_of_mem _ h)
    · exact List.mem_append_right _ (List.mem_map_of_mem _ h)
  -- F phase
  have hFtypes : ∀ e ∈ Fm, e.2.type = "followed" := by
    intro e hef
    rw [hFm] at hef
    obtain ⟨fl, hfl, hfe⟩ := List.mem_map.1 hef
    rw [← hfe]
  have hFkey : ∀ e ∈ Fm, ∃ fl ∈ user.following, fl.userId = e.1 := by
    intro e hef
    rw [hFm] at hef
    obtain ⟨fl, hfl, hfe⟩ := List.mem_map.1 hef
    exact ⟨fl, hfl, congrArg Prod.fst hfe⟩
  have hkeysF : ∀ e ∈ Fm,
      (∀ x ∈ u1.creatorsInterests.topCreators, x.creatorId ≠ e.1) ∧
      (∀ x ∈ u1.creatorsInterests.risingCreators, x.creatorId ≠ e.1) := by
    intro e hef
    obtain ⟨fl, hfl, hfe⟩ := hFkey e hef
    constructor <;> intro x hx hcon
    · refine htrf fl hfl ?_
      rw [hfe, ← hcon]
      exact List.mem_append_left _ (List.mem_map_of_mem _ hx)
    · refine htrf fl hfl ?_
      rw [hfe, ← hcon]
      exact List.mem_append_right _ (List.mem_map_of_mem _ hx)
  obtain ⟨hFt, hFr, hFw, hFs⟩ := foldF_pools now Fm u1 hFtypes hkeysF
  have hFt2 : u2.creatorsInterests.topCreators = user.creatorsInterests.topCreators := by
    rw [hu2]
    exact hFt
  have hFr2 : u2.creatorsInterests.risingCreators
      = user.creatorsInterests.risingCreators := by
    rw [hu2]
    exact hFr
  have hFw2 : ∀ x ∈ u2.creatorsInterests.watchedCreatorsPool,
      x ∈ user.creatorsInterests.watchedCreatorsPool := by
    intro x hx
    rw [hu2] at hx
    exact hFw x hx
  have hFs2 : ∀ x ∈ u2.creatorsInterests.skippedCreatorsPool,
      x ∈ user.creatorsInterests.skippedCreatorsPool := by
    intro x hx
    rw [hu2] at hx
    exact hFs x hx
  -- P phase
  have hPfold : u3 = foldPositive now (user.creatorsInterests.topCreators ++
      user.creatorsInterests.risingCreators) u2 := by
    rw [hu3, hPm]
    unfold foldPositive
    rw [List.foldl_map]
  have htrack : ∀ c ∈ user.creatorsInterests.topCreators ++
      user.creatorsInterests.risingCreators,
      ∃ x ∈ u2.creatorsInterests.topCreators ++ u2.creatorsInterests.risingCreators,
      x.creatorId = c.creatorId ∧ x.score = c.score ∧ x.skips = c.skips := by
    intro c hcmem
    refine ⟨c, ?_, rfl, rfl, rfl⟩
    rw [hFt2, hFr2]
    exact hcmem
  have hnodupu2 : keysNodup CreatorNode.creatorId
      (u2.creatorsInterests.topCreators ++ u2.creatorsInterests.risingCreators) := by
    unfold keysNodup
    rw [hFt2, hFr2, List.map_append]
    exact hab
  have hkeysP : (((user.creatorsInterests.topCreators ++
      user.creatorsInterests.risingCreators)).map CreatorNode.creatorId).Nodup := by
    rw [List.map_append]
    exact hab
  have hwP : ∀ c ∈ user.creatorsInterests.topCreators ++
      user.creatorsInterests.risingCreators,
      ∀ x ∈ u2.creatorsInterests.watchedCreatorsPool, x.creatorId ≠ c.creatorId := by
    intro c hcm x hx hcon
    refine hbc c.creatorId (habmem c hcm) ?_
    rw [← hcon]
    exact List.mem_map_of_mem _ (hFw2 x hx)
  have hskP : ∀ c ∈ user.creatorsInterests.topCreators ++
      user.creatorsInterests.risingCreators,
      ∀ x ∈ u2.creatorsInterests.skippedCreatorsPool, x.creatorId ≠ c.creatorId := by
    intro c hcm x hx hcon
    refine hcd c.creatorId (List.mem_append_left _ (habmem c hcm)) ?_
    rw [← hcon]
    exact List.mem_map_of_mem _ (hFs2 x hx)
  have hpu2 : u2.creatorsInterests.topCreators.length ≤ TOP_CREATOR_MAX := by
    rw [hFt2]
    exact hcr1
  have hsu2 : u2.creatorsInterests.risingCreators.length ≤ RISING_CREATOR_MAX := by
    rw [hFr2]
    exact hcr2
  obtain ⟨hPperm0, hPnodup0, hPl10, hPl20, hPw0, hPs0, hPf0⟩ :=
    foldPositive_inv now (user.creatorsInterests.topCreators ++
      user.creatorsInterests.risingCreators) u2 htrack hnodupu2 hkeysP hwP hskP
      hnodemote hcrnn hpu2 hsu2
  have hPperm : (creatorPairs (u3.creatorsInterests.topCreators ++
      u3.creatorsInterests.risingCreators)).Perm
      (creatorPairs (user.creatorsInterests.topCreators ++
        user.creatorsInterests.risingCreators)) := by
    rw [hPfold]
    refine hPperm0.trans ?_
    rw [hFt2, hFr2]
  have hPf : u3.following = u2.following := by
    rw [hPfold]
    exact hPf0
  -- W phase
  have hWtypes : ∀ e ∈ Wm, ¬ e.2.type = "positive" ∧ ¬ e.2.type = "followed" := by
    intro e hew
    rw [hWm] at hew
    obtain ⟨w, hw2, hfe⟩ := List.mem_map.1 hew
    rw [← hfe]
    exact ⟨(by decide : ¬ ("watched" = "positive")),
      (by decide : ¬ ("watched" = "followed"))⟩
  have hu3ids : ∀ x ∈ u3.creatorsInterests.topCreators ++
      u3.creatorsInterests.risingCreators,
      x.creatorId ∈ user.creatorsInterests.topCreators.map CreatorNode.creatorId ++
        user.creatorsInterests.risingCreators.map CreatorNode.creatorId := by
    intro x hx
    have h2 := creatorPairs_id_sub hPperm x hx
    rwa [List.map_append] at h2
  have hWkeys : ∀ e ∈ Wm,
      (∀ x ∈ u3.creatorsInterests.topCreators, x.creatorId ≠ e.1) ∧
      (∀ x ∈ u3.creatorsInterests.risingCreators, x.creatorId ≠ e.1) := by
    intro e hew
    rw [hWm] at hew
    obtain ⟨w, hwm, hfe⟩ := List.mem_map.1 hew
    have hwid : e.1 ∈ user.creatorsInterests.watchedCreatorsPool.map
        WatchedEntry.creatorId := by
      rw [← hfe]
      exact List.mem_map_of_mem _ (List.mem_of_mem_filter hwm)
    constructor <;> intro x hx hcon
    · refine hbc x.creatorId (hu3ids x (List.mem_append_left _ hx)) ?_
      rw [hcon]
      exact hwid
    · refine hbc x.creatorId (hu3ids x (List.mem_append_right _ hx)) ?_
      rw [hcon]
      exact hwid
  obtain ⟨hWt, hWr, hWf⟩ := foldWS_inv now Wm u3 hWtypes hWkeys
  have hu4t : u4.creatorsInterests.topCreators = u3.creatorsInterests.topCreators := by
    rw [hu4]
    exact hWt
  have hu4r : u4.creatorsInterests.risingCreators
      = u3.creatorsInterests.risingCreators := by
    rw [hu4]
    exact hWr
  have hu4f : u4.following = u3.following := by
    rw [hu4]
    exact hWf
  -- S phase
  have hStypes : ∀ e ∈ Sm, ¬ e.2.type = "positive" ∧ ¬ e.2.type = "followed" := by
    intro e hes
    rw [hSm] at hes
    obtain ⟨w, hw2, hfe⟩ := List.mem_map.1 hes
    rw [← hfe]
    exact ⟨(by decide : ¬ ("skipped" = "positive")),
      (by decide : ¬ ("skipped" = "followed"))⟩
  have hSkeys : ∀ e ∈ Sm,
      (∀ x ∈ u4.creatorsInterests.topCreators, x.creatorId ≠ e.1) ∧
      (∀ x ∈ u4.creatorsInterests.risingCreators, x.creatorId ≠ e.1) := by
    intro e hes
    rw [hSm] at hes
    obtain ⟨w, hwm, hfe⟩ := List.mem_map.1 hes
    have hwid : e.1 ∈ user.creatorsInterests.skippedCreatorsPool.map
        WatchedEntry.creatorId := by
      rw [← hfe]
      exact List.mem_map_of_mem _ (List.mem_of_mem_filter hwm)
    constructor <;> intro x hx hcon
    · rw [hu4t] at hx
      refine hcd x.creatorId (List.mem_append_left _
        (hu3ids x (List.mem_append_left _ hx))) ?_
      rw [hcon]
      exact hwid
    · rw [hu4r] at hx
      refine hcd x.creatorId (List.mem_append_left _
        (hu3ids x (List.mem_append_right _ hx))) ?_
      rw [hcon]
      exact hwid
  obtain ⟨hSt, hSr, hSf⟩ := foldWS_inv now Sm u4 hStypes hSkeys
  -- category fold, full depth
  have hcatfold := mergeCat_fold_deep_inv now
    (user.topInterests ++ user.risingInterests)
    (user.topInterests ++ user.risingInterests)
    (user.topInterests, user.risingInterests)
    rfl hcatnodup hcat1 hcat2
    (fun c hc => ⟨(htree c hc).1.1, (htree c hc).1.2.1⟩)
    hcatnn htree (fun c hc => hc)
  -- interests survive the creator phase
  have hIa := foldl_mergeCreatorStep_interests now Sm u4
  have hIb := foldl_mergeCreatorStep_interests now Wm u3
  have hIc := foldl_mergeCreatorStep_interests now Pm u2
  have hId := foldl_mergeCreatorStep_interests now Fm u1
  have h4it : u4.topInterests = u3.topInterests := by rw [hu4]; exact hIb.1
  have h4ir : u4.risingInterests = u3.risingInterests := by rw [hu4]; exact hIb.2
  have h3it : u3.topInterests = u2.topInterests := by rw [hu3]; exact hIc.1
  have h3ir : u3.risingInterests = u2.risingInterests := by rw [hu3]; exact hIc.2
  have h2it : u2.topInterests = u1.topInterests := by rw [hu2]; exact hId.1
  have h2ir : u2.risingInterests = u1.risingInterests := by rw [hu2]; exact hId.2
  refine ⟨fun x alpha => emaBlend_self x alpha, ?_, ?_, ?_⟩
  · rw [hIa.1, hIa.2, h4it, h4ir, h3it, h3ir, h2it, h2ir]
    have hsel1 : u1.topInterests = CP.1 := by rw [hu1]
    have hsel2 : u1.risingInterests = CP.2 := by rw [hu1]
    rw [hsel1, hsel2, hCP]
    exact hcatfold.1
  · rw [hSt, hSr, hu4t, hu4r]
    exact hPperm
  · intro f hf hsklt hnw hns
    obtain ⟨pre, post, hsplit⟩ := List.append_of_mem hf
    have hfinfol : (Sm.foldl (mergeCreatorStep now) u4).following = u2.following := by
      rw [hSf, hu4f, hPf]
    rw [hfinfol]
    have hF2 : u2 = (post.map (fun f => (f.userId,
        (⟨"followed", f.score.getD 0, f.skips, f.lastUpdated, now⟩ : SessSignal)))).foldl
        (mergeCreatorStep now)
        (mergeCreatorStep now
          ((pre.map (fun f => (f.userId,
            (⟨"followed", f.score.getD 0, f.skips, f.lastUpdated, now⟩ : SessSignal)))).foldl
            (mergeCreatorStep now) u1)
          (f.userId, (⟨"followed", f.score.getD 0, f.skips, f.lastUpdated,
            now⟩ : SessSignal))) := by
      rw [hu2, hFm, hsplit, List.map_append, List.map_cons, List.foldl_append,
        List.foldl_cons]
    rw [hF2]
    have hpremem : ∀ x ∈ pre, x ∈ user.following := by
      intro x hx
      rw [hsplit]
      exact List.mem_append_left _ hx
    have he2 := he
    rw [hsplit, List.map_append, List.map_cons] at he2
    obtain ⟨hpreN, hconsN, hpredisj⟩ := nodup_sub he2
    have hpostne : ∀ x ∈ post, x.userId ≠ f.userId := by
      intro x hx hcon
      exact (List.nodup_cons.1 hconsN).1 (hcon ▸ List.mem_map_of_mem _ hx)
    have hprene : ∀ x ∈ pre, x.userId ≠ f.userId := by
      intro x hx hcon
      exact hpredisj x.userId (List.mem_map_of_mem _ hx)
        (by rw [hcon]; exact List.mem_cons_self _ _)
    have hpretypes : ∀ e ∈ pre.map (fun f => (f.userId,
        (⟨"followed", f.score.getD 0, f.skips, f.lastUpdated, now⟩ : SessSignal))),
        e.2.type = "followed" := by
      intro e hef
      obtain ⟨fl, hfl, hfe⟩ := List.mem_map.1 hef
      rw [← hfe]
    have hprekeys : ∀ e ∈ pre.map (fun f => (f.userId,
        (⟨"followed", f.score.getD 0, f.skips, f.lastUpdated, now⟩ : SessSignal))),
        (∀ x ∈ u1.creatorsInterests.topCreators, x.creatorId ≠ e.1) ∧
        (∀ x ∈ u1.creatorsInterests.risingCreators, x.creatorId ≠ e.1) := by
      intro e hef
      obtain ⟨fl, hfl, hfe⟩ := List.mem_map.1 hef
      have hfe1 : fl.userId = e.1 := congrArg Prod.fst hfe
      constructor <;> intro x hx hcon
      · refine htrf fl (hpremem fl hfl) ?_
        rw [hfe1, ← hcon]
        exact List.mem_append_left _ (List.mem_map_of_mem _ hx)
      · refine htrf fl (hpremem fl hfl) ?_
        rw [hfe1, ← hcon]
        exact List.mem_append_right _ (List.mem_map_of_mem _ hx)
    obtain ⟨hA1t, hA1r, hA1w, hA1s⟩ := foldF_pools now
      (pre.map (fun f => (f.userId,
        (⟨"followed", f.score.getD 0, f.skips, f.lastUpdated, now⟩ : SessSignal))))
      u1 hpretypes hprekeys
    have hA1ids : ((pre.map (fun f => (f.userId,
        (⟨"followed", f.score.getD 0, f.skips, f.lastUpdated, now⟩ : SessSignal)))).foldl
        (mergeCreatorStep now) u1).following.map FollowedEntry.userId
        = user.following.map FollowedEntry.userId :=
      foldCreator_following_ids now _ u1
    have hA1mem : f ∈ ((pre.map (fun f => (f.userId,
        (⟨"followed", f.score.getD 0, f.skips, f.lastUpdated, now⟩ : SessSignal)))).foldl
        (mergeCreatorStep now) u1).following := by
      refine foldCreator_mem_following now _ u1 f hf ?_
      intro e hef
      obtain ⟨fl, hfl, hfe⟩ := List.mem_map.1 hef
      rw [← hfe]
      exact hprene fl hfl
    have hA1nodup : (((pre.map (fun f => (f.userId,
        (⟨"followed", f.score.getD 0, f.skips, f.lastUpdated, now⟩ : SessSignal)))).foldl
        (mergeCreatorStep now) u1).following.map FollowedEntry.userId).Nodup := by
      rw [hA1ids]
      exact he
    obtain ⟨g, hgmem, hgid, hgscore, hgskips⟩ :=
      mergeCreatorStep_followed_own now _ f hA1mem hA1nodup hsklt
        (fun x hx => by
          intro hcon
          refine htrf f hf ?_
          rw [← hcon]
          exact List.mem_append_left _ (List.mem_map_of_mem _ (by
            rw [hA1t] at hx
            exact hx)))
        (fun x hx => by
          intro hcon
          refine htrf f hf ?_
          rw [← hcon]
          exact List.mem_append_right _ (List.mem_map_of_mem _ (by
            rw [hA1r] at hx
            exact hx)))
        (fun x hx hcon => hnw (hcon ▸ List.mem_map_of_mem _ (hA1w x hx)))
        (fun x hx hcon => hns (hcon ▸ List.mem_map_of_mem _ (hA1s x hx)))
    refine ⟨g, ?_, hgid, hgscore, hgskips⟩
    refine foldCreator_mem_following now _ _ g hgmem ?_
    intro e hef
    obtain ⟨x, hx, hfe⟩ := List.mem_map.1 hef
    rw [← hfe, hgid]
    exact hpostne x hx

theorem session_roundtrip_witness :
    (∀ x alpha : ℚ, emaBlend x x alpha = x) ∧
    catMS ((mergeSessionBody 0 (startSession "u" cEightFit) cEightFit).topInterests ++
      (mergeSessionBody 0 (startSession "u" cEightFit) cEightFit).risingInterests)
      = catMS (cEightFit.topInterests ++ cEightFit.risingInterests) ∧
    (creatorPairs
      ((mergeSessionBody 0 (startSession "u" cEightFit)
        cEightFit).creatorsInterests.topCreators ++
       (mergeSessionBody 0 (startSession "u" cEightFit)
        cEightFit).creatorsInterests.risingCreators)).Perm
      (creatorPairs (cEightFit.creatorsInterests.topCreators ++
        cEightFit.creatorsInterests.risingCreators)) ∧
    (∀ f ∈ cEightFit.following, f.skips < HARSKIP_THRESHOLD →
      f.userId ∉ cEightFit.creatorsInterests.watchedCreatorsPool.map
        WatchedEntry.creatorId →
      f.userId ∉ cEightFit.creatorsInterests.skippedCreatorsPool.map
        WatchedEntry.creatorId →
      ∃ g ∈ (mergeSessionBody 0 (startSession "u" cEightFit) cEightFit).following,
        g.userId = f.userId ∧ g.score = some (f.score.getD 0) ∧ g.skips = f.skips) :=
  session_roundtrip 0 "u" cEightFit (by decide) (by decide) (by decide)
    (by unfold keysNodup; decide) (by decide) (by decide) (by decide)
    (by
      unfold CatTreeSane CatCapsOK SubCapsOK keysNodup
      decide)
    (by decide) (by decide) (by decide)
    (by
      intro c hc
      rcases List.mem_append.1 hc with h | h
      · have h2 : c = {
            creatorId := "a",
            score := 8,
            lastUpdated := 0,
            skips := 0,
            lastSkipAt := 0 } := by simpa [cEightFit] using h
        rw [h2]
        show blendSkipCounts 0 0 SESSION_BLEND_ALPHA ≤ WATCHED_THRESHOLD
        rw [blendSkipCounts_self]
        decide
      · simp [cEightFit] at h)

end Mates


